import Mathlib

/-! Verification of the decoxml schema-driven XML/object mapper.

The development shallowly embeds the library's core: metadata resolution over
prototype chains (parser.ts `getAttrMap`/`getChildMap`/`getTextValueDef` and
base.ts `getAttrList`/`getChildList`), the recursive deserializer
(`parseXMLElement`) and the recursive serializer (`XMLElement.toXmlObject`).
JavaScript objects are modelled with an explicit heap of instances addressed by
numeric ids, so that the mutable `isSerializing` flag and cyclic object graphs
are expressible.  JavaScript numbers are idealised as exact decimal rationals
`m * 10^e` (plus NaN and the two infinities); `parseFloat` and
number-to-string conversion are modelled on that domain.  The external xmldom
DOM layer is modelled as a tree of element/text nodes; rendering to text and
re-parsing text is, per the specification, a pure formatting step and is
modelled as the identity on node trees. -/

namespace Decoxml

/-! ## JavaScript string helpers -/

/-- Template-literal rendering of a possibly-undefined string:
`undefined` interpolates as the word "undefined". -/
def showJs : Option String → String
  | none => "undefined"
  | some s => s

/-- JavaScript truthiness of a possibly-undefined string: `undefined`, `null`
and the empty string are falsy. -/
def strTruthy : Option String → Bool
  | none => false
  | some s => !s.data.isEmpty

/-- JavaScript `a || b` on possibly-undefined strings. -/
def jsOr (a b : Option String) : Option String :=
  if strTruthy a then a else b

/-- Does the character list start with the given pattern? -/
def listStartsWith : List Char → List Char → Bool
  | _, [] => true
  | [], _ :: _ => false
  | a :: as, b :: bs => a == b && listStartsWith as bs

/-- Remove the first occurrence of `pat` from `s`
(JavaScript `s.replace(pat, '')` with a string pattern). -/
def removeFirstOcc (s pat : List Char) : List Char :=
  match s with
  | [] => []
  | c :: rest =>
    if listStartsWith (c :: rest) pat then (c :: rest).drop pat.length
    else c :: removeFirstOcc rest pat

/-- JavaScript `s.replace(pat, '')` for string patterns: removes the first
occurrence only. -/
def jsReplaceFirst (s pat : String) : String :=
  ⟨removeFirstOcc s.data pat.data⟩

/-- Split a character list at every colon (JavaScript `s.split(':')`). -/
def splitColon : List Char → List (List Char)
  | [] => [[]]
  | c :: rest =>
    if c = ':' then [] :: splitColon rest
    else
      match splitColon rest with
      | g :: gs => (c :: g) :: gs
      | [] => [[c]]

/-- Local tag name of a child node, as computed by `parseXMLElement`:
`let [namespace, name] = chNode.nodeName.split(':'); if (!name) name = namespace`. -/
def childLocalName (s : String) : String :=
  match splitColon s.data with
  | [] => s
  | [n] => ⟨n⟩
  | n :: m :: _ => if m.isEmpty then ⟨n⟩ else ⟨m⟩

/-! ## JavaScript numbers

JavaScript numbers are modelled as NaN, the infinities and exact decimal
values `m * 10 ^ e`, kept normalized (`10 ∤ m` unless `m = 0`, and `m = 0`
implies `e = 0`) so that every value has a unique representation — mirroring
the fact that every IEEE-754 double is an exact decimal rational with a
canonical identity. -/

/-- A JavaScript number value. `fin m e` denotes the decimal `m * 10 ^ e`. -/
inductive JSNumber where
  | nan
  | inf
  | ninf
  | fin (m : Int) (e : Int)
deriving DecidableEq, Repr

/-- Strip factors of ten from a mantissa, shifting them into the exponent
(fuel-driven; fuel `natAbs m` always suffices). -/
def stripTens : Nat → Int → Int → Int × Int
  | 0, m, e => (m, e)
  | fuel + 1, m, e =>
    if m % 10 = 0 then stripTens fuel (m / 10) (e + 1) else (m, e)

/-- Build the unique normalized decimal number `m * 10 ^ e`. -/
def mkFin (m : Int) (e : Int) : JSNumber :=
  if m = 0 then .fin 0 0
  else
    let p := stripTens m.natAbs m e
    .fin p.1 p.2

/-- The normalization invariant of `JSNumber.fin m e`. -/
def IsNormNum (m e : Int) : Prop :=
  (m = 0 → e = 0) ∧ (m ≠ 0 → ¬ (10 ∣ m))

instance (m e : Int) : Decidable (IsNormNum m e) := by
  unfold IsNormNum; infer_instance

/-! ## Decimal digit strings -/

/-- Little-endian decimal digits of a natural number (`[]` for zero);
fuel-driven so that it reduces in the kernel. -/
def natDigitsAux : Nat → Nat → List Nat
  | 0, _ => []
  | fuel + 1, n => if n = 0 then [] else n % 10 :: natDigitsAux fuel (n / 10)

/-- Little-endian decimal digits of a natural number (`[]` for zero). -/
def natDigits (n : Nat) : List Nat := natDigitsAux n n

/-- Value of a little-endian digit list. -/
def digitsVal : List Nat → Nat
  | [] => 0
  | d :: ds => d + 10 * digitsVal ds

/-- The character for a decimal digit. -/
def digitChar (d : Nat) : Char := Char.ofNat ('0'.toNat + d)

/-- Decimal string of a natural number. -/
def natDecString (n : Nat) : String :=
  if n = 0 then "0" else ⟨((natDigits n).map digitChar).reverse⟩

/-- Numeric value of a big-endian digit character list
(the accumulator fold used when parsing digit runs). -/
def digitsToNat (ds : List Char) : Nat :=
  ds.foldl (fun a c => a * 10 + (c.toNat - '0'.toNat)) 0

/-- Left-pad a string with zeros to the given length. -/
def padZeros (s : String) (k : Nat) : String :=
  ⟨List.replicate (k - s.length) '0'⟩ ++ s

/-! ## parseFloat and number rendering -/

/-- Whitespace in the sense of JavaScript string trimming and `parseFloat`. -/
def isJsSpace (c : Char) : Bool :=
  c == ' ' || c == '\t' || c == '\n' || c == '\r' || c == '\x0b' || c == '\x0c'

/-- JavaScript `String.prototype.trim`. -/
def jsTrim (s : String) : String :=
  ⟨((s.data.dropWhile isJsSpace).reverse.dropWhile isJsSpace).reverse⟩

/-- Split a leading run of decimal digits from a character list. -/
def takeDigits (cs : List Char) : List Char × List Char :=
  (cs.takeWhile Char.isDigit, cs.dropWhile Char.isDigit)

/-- Parse the exponent part after `e`/`E` (an absent or empty exponent
contributes zero, as `parseFloat` backtracks over it). -/
def parseExp (cs : List Char) : Int :=
  let (eneg, cs₁) :=
    match cs with
    | '-' :: r => (true, r)
    | '+' :: r => (false, r)
    | r => (false, r)
  let ds := (takeDigits cs₁).1
  if ds.isEmpty then 0
  else if eneg then -(digitsToNat ds : Int) else (digitsToNat ds : Int)

/-- Split a leading sign from the character list. -/
def splitSign (cs : List Char) : Bool × List Char :=
  match cs with
  | '-' :: r => (true, r)
  | '+' :: r => (false, r)
  | r => (false, r)

/-- The mantissa-and-exponent phase of `parseFloat`, after whitespace and sign
handling. -/
def parseFloatAfterSign (neg : Bool) (cs₀ : List Char) : JSNumber :=
  if listStartsWith cs₀ "Infinity".data then
    if neg then .ninf else .inf
  else
    let (ip, cs₁) := takeDigits cs₀
    let (fp, cs₂) :=
      match cs₁ with
      | '.' :: r => takeDigits r
      | _ => ([], cs₁)
    if ip.isEmpty && fp.isEmpty then .nan
    else
      let m₀ : Int := (digitsToNat ip : Int) * (10 : Int) ^ fp.length + (digitsToNat fp : Int)
      let ex : Int :=
        match cs₂ with
        | 'e' :: r => parseExp r
        | 'E' :: r => parseExp r
        | _ => 0
      mkFin (if neg then -m₀ else m₀) (ex - (fp.length : Int))

/-- Modelled platform semantics of JavaScript's global `parseFloat`: skip
leading whitespace, read an optional sign, then either the literal
"Infinity" or the longest decimal-literal prefix (digits, optional fraction,
optional exponent); when no numeric prefix exists the result is NaN.  This is
the number coercion `parseXMLElement` applies to number-typed attributes. -/
def parseFloat (s : String) : JSNumber :=
  let p := splitSign (s.data.dropWhile isJsSpace)
  parseFloatAfterSign p.1 p.2

/-- Whether the character list opens a numeric literal (`Infinity`, a digit,
or a point followed by a digit) — the spec's notion of text that is not
"malformed numeric text". -/
def numericStartCore (cs₀ : List Char) : Bool :=
  listStartsWith cs₀ "Infinity".data ||
  (cs₀.headD ' ').isDigit ||
  (decide (cs₀.headD ' ' = '.') && ((cs₀.drop 1).headD ' ').isDigit)

/-- Whether the string opens, after whitespace and an optional sign, with a
numeric literal; `parseFloat` yields NaN exactly on strings without one. -/
def hasNumericStart (s : String) : Bool :=
  numericStartCore (splitSign (s.data.dropWhile isJsSpace)).2

/-- Decimal rendering of a nonnegative normalized decimal `m * 10 ^ e`
(`m ≥ 0`).  Positive exponents append zeros; negative exponents insert a
decimal point. -/
def decCoreString (m : Nat) (e : Int) : String :=
  match e with
  | .ofNat k => natDecString (m * 10 ^ k)
  | .negSucc k' =>
    let k := k' + 1
    natDecString (m / 10 ^ k) ++ "." ++ padZeros (natDecString (m % 10 ^ k)) k

/-- Modelled platform semantics of JavaScript number-to-string conversion on
our decimal domain (always plain decimal; JavaScript's switch to exponent
notation at extreme magnitudes is a formatting variation that `parseFloat`
inverts either way). -/
def JSNumber.jsToString : JSNumber → String
  | .nan => "NaN"
  | .inf => "Infinity"
  | .ninf => "-Infinity"
  | .fin m e =>
    if m < 0 then "-" ++ decCoreString m.natAbs e else decCoreString m.natAbs e

/-! ## Property values and instances -/

/-- A value held in a bound property of a typed instance.  Element references
are heap ids; `undef` stands for both `undefined` and `null` (the library's
`isNil` treats them identically). -/
inductive PropValue where
  | undef
  | str (s : String)
  | boolean (b : Bool)
  | num (n : JSNumber)
  | emRef (id : Nat)
  | list (ids : List Nat)
deriving DecidableEq, Repr

/-- The library's `isNil` on property values. -/
def PropValue.isNil : PropValue → Bool
  | .undef => true
  | _ => false

/-- Comma-joined rendering (JavaScript `Array.prototype.toString`). -/
def joinComma : List String → String
  | [] => ""
  | [s] => s
  | s :: rest => s ++ "," ++ joinComma rest

/-- JavaScript `value.toString()` as used when serializing attribute values. -/
def PropValue.jsToString : PropValue → String
  | .undef => "undefined"
  | .str s => s
  | .boolean b => if b then "true" else "false"
  | .num n => n.jsToString
  | .emRef _ => "[object Object]"
  | .list ids => joinComma (ids.map fun _ => "[object Object]")

/-- The dynamic property table of an instance (string-keyed, in insertion
order, as JavaScript objects behave). -/
abbrev Props := List (String × PropValue)

/-- Read a property (missing reads as `undefined`). -/
def getProp (ps : Props) (k : String) : PropValue :=
  match List.find? (fun pr => pr.1 == k) ps with
  | none => .undef
  | some pr => pr.2

/-- Write a property, overwriting in place or appending. -/
def setProp : Props → String → PropValue → Props
  | [], k, v => [(k, v)]
  | (k', v') :: rest, k, v =>
    if k' == k then (k, v) :: rest else (k', v') :: setProp rest k v

/-! ## Schema metadata (metadata.ts) -/

/-- Declared enum members, i.e. `Object.values` of a TypeScript enum object
(`Record<string, number | string>`). -/
inductive EnumMember where
  | str (s : String)
  | num (n : JSNumber)
deriving DecidableEq, Repr

/-- The `typ` of an attribute binding: a primitive kind or an enum value set. -/
inductive AttrTyp where
  | string
  | boolean
  | number
  | enumTyp (vals : List EnumMember)
deriving DecidableEq, Repr

/-- Strict-equality comparison of an enum member against a raw attribute
string (`Object.values(entry.typ).some((x) => x === attrNode.value)`):
a numeric member never equals a string. -/
def enumEqStr (v : EnumMember) (raw : String) : Bool :=
  match v with
  | .str s => s == raw
  | .num _ => false

/-- A user-supplied bidirectional value converter (`ValueConverterDef`);
either direction may throw, modelled by `Except` with the thrown message. -/
structure ConverterDef where
  toProp : String → Except String PropValue
  toAttr : PropValue → Except String String

/-- An attribute binding (`AttrDef`). -/
structure AttrDef where
  prop : String
  defined : Bool
  name : Option String
  typ : Option AttrTyp
  required : Bool
  converter : Option ConverterDef
  validator : List (PropValue → Except String Unit)
  ns : Option String
  nsURI : Option String

/-- Occurrence bound of a child binding (`number | 'unlimited'`). -/
inductive MaxOccur where
  | unlimited
  | num (n : Nat)
deriving DecidableEq, Repr

/-- A child-element binding (`ChildDef`); `clazz` refers to the child's
element type by type id. -/
structure ChildDef where
  prop : String
  clazz : Nat
  minOccur : Nat
  maxOccur : MaxOccur
deriving DecidableEq, Repr

/-- The text-content binding (`TextValueDef`). -/
structure TextValueDef where
  prop : String
  required : Bool
deriving DecidableEq, Repr

/-- One type's own schema fragment (`XMLMetadata`); `getMetadata` on an
undecorated prototype yields the default fragment.  The post-deserialization
hook operates on the instance's property table and may fail. -/
structure XMLMetadata where
  name : Option String := none
  defined : Bool := false
  tag : Option String := none
  ns : Option String := none
  attrs : List AttrDef := []
  children : List ChildDef := []
  text : Option TextValueDef := none
  attrNameGen : Option (String → String) := none
  nsURI : Option String := none
  readyFunc : Option (Props → Except String Props) := none
  rawOutput : Bool := false

/-- The empty metadata returned by `getMetadata` for undecorated prototypes. -/
def defaultMd : XMLMetadata := {}

/-- One prototype-chain level: the class name (for error messages) and the
level's own metadata fragment. -/
structure TypeLevel where
  clsName : String
  md : XMLMetadata

/-- The default level standing for `Object.prototype`. -/
def defaultLevel : TypeLevel := ⟨"Object", defaultMd⟩

/-- The registration environment: for each type id, its prototype chain's
levels (the type's own level first, ancestors next, excluding
`Object.prototype`). -/
structure TypeEnv where
  chainOf : Nat → List TypeLevel

/-- The level of a type itself (`getMetadata(curType.prototype)` and the class
name read off the prototype's constructor). -/
def ownLevel (env : TypeEnv) (t : Nat) : TypeLevel :=
  (env.chainOf t).headD defaultLevel

/-! ## The DOM node tree (external xmldom, modelled) -/

/-- An attribute entry on an element node: qualified node name, prefix (only
set by namespaced attribute creation), and string value. -/
structure XAttr where
  nm : String
  pfx : Option String
  value : String
deriving DecidableEq, Repr

/-- A DOM node: an element (qualified node name, namespace URI, attributes,
ordered child nodes) or a text node. -/
inductive XNode where
  | el (nm : String) (nsURI : Option String) (attrs : List XAttr) (kids : List XNode)
  | txt (s : String)

mutual

/-- Concatenated text content of a node (`node.textContent`). -/
def XNode.textContent : XNode → String
  | .txt s => s
  | .el _ _ _ kids => textContentList kids

/-- Concatenated text content of a node list. -/
def textContentList : List XNode → String
  | [] => ""
  | k :: rest => k.textContent ++ textContentList rest

end

/-- Attributes of an element node (empty for text nodes, which have none). -/
def XNode.attrList : XNode → List XAttr
  | .el _ _ as _ => as
  | .txt _ => []

/-- Child nodes of a node. -/
def XNode.kidList : XNode → List XNode
  | .el _ _ _ ks => ks
  | .txt _ => []

/-- Qualified node name. -/
def XNode.nodeName : XNode → String
  | .el n _ _ _ => n
  | .txt _ => "#text"

/-- Namespace URI of a node. -/
def XNode.namespaceURI : XNode → Option String
  | .el _ u _ _ => u
  | .txt _ => none

/-- DOM `setAttribute`-style write: replace the first attribute with the same
qualified name, else append. -/
def setAttrIn : List XAttr → XAttr → List XAttr
  | [], a => [a]
  | a' :: rest, a => if a'.nm == a.nm then a :: rest else a' :: setAttrIn rest a

/-- Write an attribute on an element node. -/
def XNode.setAttr (n : XNode) (a : XAttr) : XNode :=
  match n with
  | .el nm u as ks => .el nm u (setAttrIn as a) ks
  | .txt s => .txt s

/-- Append a child node to an element node. -/
def XNode.appendChild (n : XNode) (c : XNode) : XNode :=
  match n with
  | .el nm u as ks => .el nm u as (ks ++ [c])
  | .txt s => .txt s

/-! ## Instances and the heap -/

/-- The engine-visible state of one `XMLElement` instance: its type id (its
prototype chain's identity), dynamic property table, the protected `nsURI`
and `rawDom` fields, and the private `isSerializing` flag. -/
structure InstData where
  typeId : Nat
  props : Props
  nsURI : Option String := none
  rawDom : Option XNode := none
  isSerializing : Bool := false

/-- The heap of instances, addressed by numeric ids. -/
structure Heap where
  insts : List (Nat × InstData)

/-- Replace the first entry with the given id (no-op when absent). -/
def setFirstInst : List (Nat × InstData) → Nat → InstData → List (Nat × InstData)
  | [], _, _ => []
  | (i, d') :: rest, id, d =>
    if i == id then (i, d) :: rest else (i, d') :: setFirstInst rest id d

/-- Look up an instance. -/
def Heap.get (h : Heap) (id : Nat) : Option InstData :=
  (List.find? (fun pr => pr.1 == id) h.insts).map (·.2)

/-- Update an instance in place. -/
def Heap.set (h : Heap) (id : Nat) (d : InstData) : Heap :=
  ⟨setFirstInst h.insts id d⟩

/-- An id unused by the heap. -/
def Heap.fresh (h : Heap) : Nat :=
  h.insts.foldr (fun pr a => max pr.1 a) 0 + 1

/-- Allocate a new instance, returning its id. -/
def Heap.alloc (h : Heap) (d : InstData) : Nat × Heap :=
  (h.fresh, ⟨(h.fresh, d) :: h.insts⟩)

/-- Write the `isSerializing` flag of an instance (the scoped release in
`toXmlObject`'s `finally`). -/
def Heap.setFlag (h : Heap) (id : Nat) (b : Bool) : Heap :=
  match h.get id with
  | none => h
  | some d => h.set id { d with isSerializing := b }

mutual

/-- Structural equality test on node trees. -/
def xnodeBeq : XNode → XNode → Bool
  | .txt s, .txt s' => s == s'
  | .el nm u as ks, .el nm' u' as' ks' =>
    nm == nm' && u == u' && as == as' && xnodeListBeq ks ks'
  | .txt _, .el _ _ _ _ => false
  | .el _ _ _ _, .txt _ => false

/-- Structural equality test on node lists. -/
def xnodeListBeq : List XNode → List XNode → Bool
  | [], [] => true
  | a :: as, b :: bs => xnodeBeq a b && xnodeListBeq as bs
  | [], _ :: _ => false
  | _ :: _, [] => false

end

mutual

theorem xnodeBeq_iff : ∀ (a b : XNode), xnodeBeq a b = true ↔ a = b
  | .txt s, .txt s' => by simp [xnodeBeq]
  | .txt _, .el _ _ _ _ => by simp [xnodeBeq]
  | .el _ _ _ _, .txt _ => by simp [xnodeBeq]
  | .el nm u as ks, .el nm' u' as' ks' => by
    simp [xnodeBeq, xnodeListBeq_iff ks ks', and_assoc]

theorem xnodeListBeq_iff : ∀ (as bs : List XNode), xnodeListBeq as bs = true ↔ as = bs
  | [], [] => by simp [xnodeListBeq]
  | [], _ :: _ => by simp [xnodeListBeq]
  | _ :: _, [] => by simp [xnodeListBeq]
  | a :: as, b :: bs => by
    simp [xnodeListBeq, xnodeBeq_iff a b, xnodeListBeq_iff as bs]

end

instance : DecidableEq XNode := fun a b =>
  decidable_of_iff (xnodeBeq a b = true) (xnodeBeq_iff a b)

deriving instance DecidableEq for InstData
deriving instance DecidableEq for Heap

/-! ## Errors -/

/-- The error values the library can raise: plain `Error(msg)` (from
`mustBeTrue`/`notNil` and direct throws), the two wrapper classes from
errors.ts, runtime `TypeError`s from operating on `undefined`, and the
model-internal fuel marker (which sufficient fuel rules out). -/
inductive JsError where
  | error (msg : String)
  | customParse (inner : String)
  | customValidation (inner : String)
  | typeError (msg : String)
  | outOfFuel
deriving DecidableEq, Repr

/-! ## Schema resolution, parser side (parser.ts) -/

/-- A resolved attribute-map entry (`AttrMapEntry`): the spread copy of the
declaring `AttrDef` with the resolved attribute name and the `exist` flag. -/
structure AttrMapEntry where
  ad : AttrDef
  name : String
  exist : Bool

/-- The resolved attribute map, keyed by resolved attribute name in insertion
order. -/
abbrev AttrMap := List (String × AttrMapEntry)

/-- A resolved child-map entry (`ChildMapEntry`): the declaring `ChildDef`
plus the accumulated results (instance ids). -/
structure ChildMapEntry where
  cd : ChildDef
  result : List Nat
deriving DecidableEq, Repr

/-- The resolved child map, keyed by the child class's own tag in insertion
order. -/
abbrev ChildMap := List (String × ChildMapEntry)

/-- Resolve the XML attribute name of a binding at its declaring level:
the explicit name if truthy, else the level's generator applied to the
property name, else the property name itself. -/
def resolveAttrName (md : XMLMetadata) (ad : AttrDef) : String :=
  if strTruthy ad.name then showJs ad.name
  else
    match md.attrNameGen with
    | some gen => gen ad.prop
    | none => ad.prop

/-- Process one chain level's attribute definitions into the map
(skipping names already recorded by more specific levels). -/
def attrMapLevel (md : XMLMetadata) : List AttrDef → AttrMap → AttrMap
  | [], map => map
  | ad :: rest, map =>
    let nm := resolveAttrName md ad
    if (List.find? (fun pr => pr.1 == nm) map).isSome then
      attrMapLevel md rest map
    else
      attrMapLevel md rest (map ++ [(nm, ⟨ad, nm, false⟩)])

/-- Walk the chain levels accumulating the attribute map. -/
def attrMapChain : List TypeLevel → AttrMap → AttrMap
  | [], map => map
  | lvl :: rest, map => attrMapChain rest (attrMapLevel lvl.md lvl.md.attrs map)

/-- parser.ts `getAttrMap`: walk the prototype chain from the type down to
ancestors, recording each attribute definition under its resolved name unless
that name is already recorded. -/
def getAttrMap (chain : List TypeLevel) : AttrMap :=
  attrMapChain chain []

/-- Process one chain level's child definitions into the map.  Each referenced
class must itself declare a tag (checked before the duplicate test), and tags
already recorded by more specific levels are skipped. -/
def childMapLevel (env : TypeEnv) : List ChildDef → ChildMap → Except JsError ChildMap
  | [], map => .ok map
  | cd :: rest, map =>
    match (ownLevel env cd.clazz).md.tag with
    | none => .error (.error "Tag must be defined on every node")
    | some tag =>
      if (List.find? (fun pr => pr.1 == tag) map).isSome then
        childMapLevel env rest map
      else
        childMapLevel env rest (map ++ [(tag, ⟨cd, []⟩)])

/-- Walk the chain levels accumulating the child map. -/
def childMapChain (env : TypeEnv) : List TypeLevel → ChildMap → Except JsError ChildMap
  | [], map => .ok map
  | lvl :: rest, map => do
    childMapChain env rest (← childMapLevel env lvl.md.children map)

/-- parser.ts `getChildMap`: walk the prototype chain from the type down to
ancestors, recording each child definition under its class's own tag unless
that tag is already recorded; a referenced class without its own tag is a
fatal schema error. -/
def getChildMap (env : TypeEnv) (chain : List TypeLevel) : Except JsError ChildMap :=
  childMapChain env chain []

/-- Shared by parser.ts and base.ts (two identical implementations in the
source): the first text binding found walking from the type to its
ancestors. -/
def getTextValueDef : List TypeLevel → Option TextValueDef
  | [] => none
  | lvl :: rest =>
    match lvl.md.text with
    | some td => some td
    | none => getTextValueDef rest

/-! ## Schema resolution, serializer side (base.ts) -/

/-- A serializer-side attribute entry (`AttrEntry`): the declaring `AttrDef`
together with its declaring level's metadata. -/
structure AttrEntry where
  ad : AttrDef
  md : XMLMetadata

/-- One level's contribution to `getAttrList`, given the properties already
seen; returns the new entries and the updated seen set. -/
def attrListLevel (md : XMLMetadata) :
    List AttrDef → List String → List AttrEntry × List String
  | [], seen => ([], seen)
  | ad :: rest, seen =>
    if seen.contains ad.prop then attrListLevel md rest seen
    else
      let pr := attrListLevel md rest (ad.prop :: seen)
      (⟨ad, md⟩ :: pr.1, pr.2)

/-- Walk the chain levels accumulating the serializer-side attribute list
(subclass level's entries first, by `result.push`). -/
def attrListChain : List TypeLevel → List String → List AttrEntry
  | [], _ => []
  | lvl :: rest, seen =>
    let pr := attrListLevel lvl.md lvl.md.attrs seen
    pr.1 ++ attrListChain rest pr.2

/-- base.ts `XMLElement.getAttrList`: deduplicate attribute bindings by
property name, subclass level winning. -/
def getAttrList (chain : List TypeLevel) : List AttrEntry :=
  attrListChain chain []

/-- One level's contribution to `getChildList`. -/
def childListLevel : List ChildDef → List String → List ChildDef × List String
  | [], seen => ([], seen)
  | cd :: rest, seen =>
    if seen.contains cd.prop then childListLevel rest seen
    else
      let pr := childListLevel rest (cd.prop :: seen)
      (cd :: pr.1, pr.2)

/-- Walk the chain levels accumulating the serializer-side child list; each
level's batch is `unshift`ed, so ancestor levels end up first. -/
def childListChain : List TypeLevel → List String → List ChildDef
  | [], _ => []
  | lvl :: rest, seen =>
    let pr := childListLevel lvl.md.children seen
    childListChain rest pr.2 ++ pr.1

/-- base.ts `XMLElement.getChildList`: deduplicate child bindings by property
name, subclass level winning, ancestor levels ordered first. -/
def getChildList (chain : List TypeLevel) : List ChildDef :=
  childListChain chain []

/-! ## Error message templates (the template literals of the source) -/

/-- `${md.name}: Multiple attribute "${fieldName}"` -/
def multipleAttrMsg (mdName : Option String) (fieldName : String) : String :=
  let nmS := showJs mdName
  s!"{nmS}: Multiple attribute \"{fieldName}\""

/-- `${x}.${prop}: @Attr must be defined` (with the metadata name on the parse
side and the class name on the serialize side). -/
def attrMustBeDefinedMsg (owner p : String) : String :=
  s!"{owner}.{p}: @Attr must be defined"

/-- `${md.name}.${prop}: Unknown enum value ${raw}` -/
def unknownEnumMsg (mdName : Option String) (p raw : String) : String :=
  let nmS := showJs mdName
  s!"{nmS}.{p}: Unknown enum value {raw}"

/-- `${md.name}: Required text content not exists` -/
def requiredTextMsg (mdName : Option String) : String :=
  let nmS := showJs mdName
  s!"{nmS}: Required text content not exists"

/-- `${md.name}: Too few child node "${tag}": ${len} out of ${minOccur}` -/
def tooFewChildMsg (mdName : Option String) (tag : String) (len mn : Nat) : String :=
  let nmS := showJs mdName
  s!"{nmS}: Too few child node \"{tag}\": {len} out of {mn}"

/-- `${md.name}: Too many child node "${tag}": ${len} out of ${maxOccur}` -/
def tooManyChildMsg (mdName : Option String) (tag : String) (len mx : Nat) : String :=
  let nmS := showJs mdName
  s!"{nmS}: Too many child node \"{tag}\": {len} out of {mx}"

/-- `${md.name}: Required attribute "${name}" not exists` -/
def requiredAttrMsg (mdName : Option String) (anm : String) : String :=
  let nmS := showJs mdName
  s!"{nmS}: Required attribute \"{anm}\" not exists"

/-- `${clsName}: missing Tag decorator` -/
def missingTagDecoratorMsg (clsName : String) : String :=
  s!"{clsName}: missing Tag decorator"

/-- `${clsName}: circular reference detected` -/
def circularRefMsg (clsName : String) : String :=
  s!"{clsName}: circular reference detected"

/-- `${clsName}.${prop}: missing child object` -/
def missingChildMsg (clsName p : String) : String :=
  s!"{clsName}.{p}: missing child object"

/-- `${clsName}.${prop}: maxOccur must not equal to 1 if using array type` -/
def arrayNeedsPluralMsg (clsName p : String) : String :=
  s!"{clsName}.{p}: maxOccur must not equal to 1 if using array type"

/-- `${clsName}.${prop}: too many child objects` -/
def tooManyObjsMsg (clsName p : String) : String :=
  s!"{clsName}.{p}: too many child objects"

/-- `${clsName}.${prop}: too few child objects` -/
def tooFewObjsMsg (clsName p : String) : String :=
  s!"{clsName}.{p}: too few child objects"

/-- `${clsName}.${prop}: maxOccur must equal to 1 if not using array type` -/
def singleNeedsSingularMsg (clsName p : String) : String :=
  s!"{clsName}.{p}: maxOccur must equal to 1 if not using array type"

/-- `${clsName}.${prop}: invalid child object type: ${typeof}` -/
def invalidChildTypeMsg (clsName p tyname : String) : String :=
  s!"{clsName}.{p}: invalid child object type: {tyname}"

/-- `${clsName}: text property must be string` -/
def textMustBeStringMsg (clsName : String) : String :=
  s!"{clsName}: text property must be string"

/-- `${clsName}: missing text property` -/
def missingTextMsg (clsName : String) : String :=
  s!"{clsName}: missing text property"

/-! ## The deserializer (parser.ts `parseXMLElement`) -/

/-- Value conversion of a raw attribute string: a converter's string-to-value
direction (its errors wrapped as parse errors), else coercion by declared
kind — boolean by strict equality with "true", number by `parseFloat`,
string verbatim, enum by membership among the declared values.  An absent
`typ` reaches the enum branch, where `Object.values(undefined)` throws. -/
def coerceAttrValue (mdName : Option String) (ent : AttrMapEntry) (raw : String) :
    Except JsError PropValue :=
  match ent.ad.converter with
  | some cv =>
    match cv.toProp raw with
    | .ok v => .ok v
    | .error e => .error (.customParse e)
  | none =>
    match ent.ad.typ with
    | some .boolean => .ok (.boolean (raw == "true"))
    | some .number => .ok (.num (parseFloat raw))
    | some .string => .ok (.str raw)
    | some (.enumTyp vals) =>
      if vals.any (fun v => enumEqStr v raw) then .ok (.str raw)
      else .error (.error (unknownEnumMsg mdName ent.ad.prop raw))
    | none => .error (.typeError "Cannot convert undefined or null to object")

/-- Run the declared validators in order against the converted value; a
throwing validator is wrapped as a validation error. -/
def runValidators (vs : List (PropValue → Except String Unit)) (v : PropValue) :
    Except JsError Unit :=
  match vs with
  | [] => .ok ()
  | f :: rest =>
    match f v with
    | .ok _ => runValidators rest v
    | .error e => .error (.customValidation e)

/-- Mark an attribute-map entry as seen (`entry.exist = true`). -/
def setExist : AttrMap → String → AttrMap
  | [], _ => []
  | (k, ent) :: rest, nm =>
    if k == nm then (k, { ent with exist := true }) :: rest
    else (k, ent) :: setExist rest nm

/-- The attribute loop of `parseXMLElement`: skip namespace declarations,
strip the prefix from the node name, skip unknown attributes, guard against
duplicates and undefined bindings, convert, validate, assign. -/
def parseAttrLoop (mdName : Option String) :
    List XAttr → AttrMap → Props → Except JsError (AttrMap × Props)
  | [], map, ps => .ok (map, ps)
  | a :: rest, map, ps =>
    if a.pfx == some "xmlns" || a.nm == "xmlns" then parseAttrLoop mdName rest map ps
    else
      match List.find? (fun pr => pr.1 == jsReplaceFirst a.nm (showJs a.pfx ++ ":")) map with
      | none => parseAttrLoop mdName rest map ps
      | some pr =>
        if pr.2.exist then
          .error (.error (multipleAttrMsg mdName (jsReplaceFirst a.nm (showJs a.pfx ++ ":"))))
        else if !pr.2.ad.defined then
          .error (.error (attrMustBeDefinedMsg (showJs mdName) pr.2.ad.prop))
        else do
          let v ← coerceAttrValue mdName pr.2 a.value
          let _ ← runValidators pr.2.ad.validator v
          parseAttrLoop mdName rest (setExist map (jsReplaceFirst a.nm (showJs a.pfx ++ ":")))
            (setProp ps pr.2.ad.prop v)

/-- Append a recursively parsed child instance to its tag's accumulated
results. -/
def pushChildResult : ChildMap → String → Nat → ChildMap
  | [], _, _ => []
  | (k, ent) :: rest, tag, cid =>
    if k == tag then (k, { ent with result := ent.result ++ [cid] }) :: rest
    else (k, ent) :: pushChildResult rest tag cid

/-- The child loop of `parseXMLElement`: skip text nodes, skip children whose
local tag has no binding, recursively deserialize matched children with the
binding's class, accumulating results per tag. -/
def parseChildLoop (recurse : Nat → XNode → Heap → Except JsError (Nat × Heap)) :
    List XNode → ChildMap → Heap → Except JsError (ChildMap × Heap)
  | [], cm, h => .ok (cm, h)
  | .txt _ :: rest, cm, h => parseChildLoop recurse rest cm h
  | .el nm u as ks :: rest, cm, h =>
    let tag := childLocalName nm
    match List.find? (fun pr => pr.1 == tag) cm with
    | none => parseChildLoop recurse rest cm h
    | some pr => do
      let r ← recurse pr.2.cd.clazz (.el nm u as ks) h
      parseChildLoop recurse rest (pushChildResult cm tag r.1) r.2

/-- Property assignment after cardinality checks: the single element
unwrapped when exactly one accumulated and the maximum is exactly one, the
accumulated list when anything accumulated otherwise, nothing when nothing
accumulated. -/
def assignChildProp (ent : ChildMapEntry) (ps : Props) : Props :=
  if ent.result.length = 1 ∧ ent.cd.maxOccur = .num 1 then
    setProp ps ent.cd.prop (.emRef (ent.result.headD 0))
  else if ent.result.length > 0 then
    setProp ps ent.cd.prop (.list ent.result)
  else ps

/-- Cardinality enforcement and assignment for one resolved child binding. -/
def applyChildEntry (mdName : Option String) (tag : String) (ent : ChildMapEntry)
    (ps : Props) : Except JsError Props :=
  let len := ent.result.length
  let mn := ent.cd.minOccur
  if len < mn then
    .error (.error (tooFewChildMsg mdName tag len mn))
  else
    match ent.cd.maxOccur with
    | .num mx =>
      if len > mx then
        .error (.error (tooManyChildMsg mdName tag len mx))
      else .ok (assignChildProp ent ps)
    | .unlimited => .ok (assignChildProp ent ps)

/-- Cardinality enforcement over every resolved child binding, in map order. -/
def applyChildEntries (mdName : Option String) : ChildMap → Props → Except JsError Props
  | [], ps => .ok ps
  | (tag, ent) :: rest, ps => do
    applyChildEntries mdName rest (← applyChildEntry mdName tag ent ps)

/-- Text-content assignment: assign the trimmed text when a text binding
exists and the text is non-empty; otherwise fail when the binding requires
text. -/
def applyText (mdName : Option String) (textDef : Option TextValueDef) (text : String)
    (ps : Props) : Except JsError Props :=
  match textDef with
  | some td =>
    if !text.data.isEmpty then .ok (setProp ps td.prop (.str text))
    else if td.required then
      .error (.error (requiredTextMsg mdName))
    else .ok ps
  | none => .ok ps

/-- Required-attribute completeness check over the resolved attribute map. -/
def checkRequiredAttrs (mdName : Option String) : AttrMap → Except JsError Unit
  | [] => .ok ()
  | (_, ent) :: rest =>
    if ent.exist || !ent.ad.required then checkRequiredAttrs mdName rest
    else
      .error (.error (requiredAttrMsg mdName ent.name))

/-- One unfolding of `parseXMLElement` (`recurse` standing for the recursive
call): exactly the statement sequence of parser.ts. -/
def parseStep (env : TypeEnv) (recurse : Nat → XNode → Heap → Except JsError (Nat × Heap))
    (curType : Nat) (node : XNode) (h : Heap) : Except JsError (Nat × Heap) :=
  let md := (ownLevel env curType).md
  let chain := env.chainOf curType
  match md.tag with
  | none => .error (.error "Tag must be defined on every node")
  | some _ => do
    let ares ← parseAttrLoop md.name node.attrList (getAttrMap chain) []
    let nsURI := node.namespaceURI
    let childMap₀ ← getChildMap env chain
    let cres ← parseChildLoop recurse node.kidList childMap₀ h
    let h₁ := cres.2
    let text := jsTrim node.textContent
    let ps₁ ← applyText md.name (getTextValueDef chain) text ares.2
    let ps₂ ← applyChildEntries md.name cres.1 ps₁
    let _ ← checkRequiredAttrs md.name ares.1
    let d₀ : InstData :=
      { typeId := curType, props := ps₂, nsURI := nsURI
        rawDom := some node, isSerializing := false }
    match md.readyFunc with
    | some f =>
      match f d₀.props with
      | .ok ps₃ => .ok (Heap.alloc h₁ { d₀ with props := ps₃ })
      | .error e => .error (.customValidation e)
    | none => .ok (Heap.alloc h₁ d₀)

/-- parser.ts `parseXMLElement`, fuel-indexed (sufficient fuel — any bound on
the node tree's depth — never runs out). -/
def parseXMLElement (env : TypeEnv) : Nat → Nat → XNode → Heap → Except JsError (Nat × Heap)
  | 0 => fun _ _ _ => .error .outOfFuel
  | fuel + 1 => parseStep env (parseXMLElement env fuel)

/-- Modelled from the spec: `parseXML` runs the external `DOMParser` (the
xmldom dependency, outside this repository and black-boxed by the
specification) over the XML text and deserializes the resulting document
element.  Text parsing being the inverse of the pure formatting step that
produced the text, the document element obtained from the rendered text of a
node tree is that node tree itself, so the model takes the document element
directly. -/
def parseXML (env : TypeEnv) (fuel : Nat) (rootType : Nat) (documentElement : XNode)
    (h : Heap) : Except JsError (Nat × Heap) :=
  parseXMLElement env fuel rootType documentElement h

/-! ## The serializer (base.ts `XMLElement.toXmlObject`) -/

/-- A namespace-override map, keyed by namespace prefix. -/
abbrev NsMap := List (String × String)

/-- Look up a prefix in the override map. -/
def nsGet (m : NsMap) (k : String) : Option String :=
  (List.find? (fun pr => pr.1 == k) m).map (·.2)

/-- Write a prefix into the override map. -/
def nsSet : NsMap → String → String → NsMap
  | [], k, v => [(k, v)]
  | (k', v') :: rest, k, v =>
    if k' == k then (k, v) :: rest else (k', v') :: nsSet rest k v

/-- The namespace resolution step of `toXmlObject`: take the override map's
entry for the schema's prefix (the prefix defaulting to `*`), fall back to the
schema's default URI, and let the instance's own namespace URI win over both,
writing it back into the map handed to descendants. -/
def resolveNs (nsDef : NsMap) (md : XMLMetadata) (instNs : Option String) :
    Option String × NsMap :=
  let ns := if strTruthy md.ns then showJs md.ns else "*"
  let nsURI := jsOr (nsGet nsDef ns) md.nsURI
  if strTruthy instNs then (instNs, nsSet nsDef ns (showJs instNs))
  else (nsURI, nsDef)

/-- Create the output element: namespace-qualified under the resolved URI when
one is in effect, else unqualified. -/
def createElem (md : XMLMetadata) (nsURIr : Option String) : XNode :=
  let ns := if strTruthy md.ns then showJs md.ns else "*"
  let tg := showJs md.tag
  if strTruthy nsURIr then .el (ns ++ ":" ++ tg) nsURIr [] []
  else .el tg none [] []

/-- The stringification of one attribute's property value: through the
converter when one is declared (converter errors wrapped as parse errors),
else JavaScript `toString`. -/
def attrFieldValue (e : AttrEntry) (ps : Props) : Except JsError String :=
  match e.ad.converter with
  | some cv =>
    match cv.toAttr (getProp ps e.ad.prop) with
    | .ok s => .ok s
    | .error er => .error (.customParse er)
  | none => .ok (getProp ps e.ad.prop).jsToString

/-- Serialize one attribute binding onto the element: the defined-flag guard
runs unconditionally; a nil property value is skipped; otherwise the
stringified value is written under the resolved name, namespace-qualified
when the binding declares a prefix (the reserved `xml` prefix written
without a URI). -/
def serializeAttrEntry (clsName : String) (e : AttrEntry) (ps : Props) (elem : XNode) :
    Except JsError XNode :=
  if !e.ad.defined then
    .error (.error (attrMustBeDefinedMsg clsName e.ad.prop))
  else if (getProp ps e.ad.prop).isNil then .ok elem
  else
    match attrFieldValue e ps with
    | .error er => .error er
    | .ok fvStr =>
      if strTruthy e.ad.ns then
        if showJs e.ad.ns == "xml" then
          .ok (elem.setAttr ⟨"xml:" ++ resolveAttrName e.md e.ad, none, fvStr⟩)
        else
          .ok (elem.setAttr ⟨showJs e.ad.ns ++ ":" ++ resolveAttrName e.md e.ad,
            some (showJs e.ad.ns), fvStr⟩)
      else .ok (elem.setAttr ⟨resolveAttrName e.md e.ad, none, fvStr⟩)

/-- The attribute loop of `toXmlObject`. -/
def serializeAttrs (clsName : String) : List AttrEntry → Props → XNode → Except JsError XNode
  | [], _, elem => .ok elem
  | e :: rest, ps, elem => do
    serializeAttrs clsName rest ps (← serializeAttrEntry clsName e ps elem)

/-- Does the maximum admit this many children? -/
def maxAllows : MaxOccur → Nat → Bool
  | .unlimited, _ => true
  | .num mx, len => decide (len ≤ mx)

/-- Recursively serialize a run of child instances, appending each produced
node (each child receives its own copy of the current override map). -/
def serializeIds (recurse : Heap → Nat → NsMap → (Except JsError XNode) × Heap) :
    List Nat → Heap → NsMap → XNode → (Except JsError XNode) × Heap
  | [], h, _, elem => (.ok elem, h)
  | cid :: rest, h, nsDef, elem =>
    match recurse h cid nsDef with
    | (.ok ce, h') => serializeIds recurse rest h' nsDef (elem.appendChild ce)
    | (.error e, h') => (.error e, h')

/-- Serialize one child binding: an absent value is admitted only when the
minimum is zero; an array value requires a non-singular maximum and a length
within bounds; a single object value requires a singular maximum; any other
value shape is a type error. -/
def serializeChildEntry (clsName : String)
    (recurse : Heap → Nat → NsMap → (Except JsError XNode) × Heap)
    (cd : ChildDef) (ps : Props) (h : Heap) (nsDef : NsMap) (elem : XNode) :
    (Except JsError XNode) × Heap :=
  match getProp ps cd.prop with
  | .undef =>
    if cd.minOccur = 0 then (.ok elem, h)
    else (.error (.error (missingChildMsg clsName cd.prop)), h)
  | .list ids =>
    if cd.maxOccur = .num 1 then
      (.error (.error (arrayNeedsPluralMsg clsName cd.prop)), h)
    else if !maxAllows cd.maxOccur ids.length then
      (.error (.error (tooManyObjsMsg clsName cd.prop)), h)
    else if !(decide (cd.minOccur ≤ ids.length)) then
      (.error (.error (tooFewObjsMsg clsName cd.prop)), h)
    else serializeIds recurse ids h nsDef elem
  | .emRef cid =>
    if cd.maxOccur = .num 1 then serializeIds recurse [cid] h nsDef elem
    else (.error (.error (singleNeedsSingularMsg clsName cd.prop)), h)
  | .str _ => (.error (.error (invalidChildTypeMsg clsName cd.prop "string")), h)
  | .boolean _ => (.error (.error (invalidChildTypeMsg clsName cd.prop "boolean")), h)
  | .num _ => (.error (.error (invalidChildTypeMsg clsName cd.prop "number")), h)

/-- The child loop of `toXmlObject`. -/
def serializeChildren (clsName : String)
    (recurse : Heap → Nat → NsMap → (Except JsError XNode) × Heap) :
    List ChildDef → Props → Heap → NsMap → XNode → (Except JsError XNode) × Heap
  | [], _, h, _, elem => (.ok elem, h)
  | cd :: rest, ps, h, nsDef, elem =>
    match serializeChildEntry clsName recurse cd ps h nsDef elem with
    | (.ok elem', h') => serializeChildren clsName recurse rest ps h' nsDef elem'
    | (.error e, h') => (.error e, h')

/-- The text step of `toXmlObject`: a present value must be a string and is
appended as a text node; an absent value is admitted only for optional text. -/
def serializeText (clsName : String) (textDef : Option TextValueDef) (ps : Props)
    (elem : XNode) : Except JsError XNode :=
  match textDef with
  | none => .ok elem
  | some td =>
    match getProp ps td.prop with
    | .undef =>
      if td.required then .error (.error (missingTextMsg clsName))
      else .ok elem
    | .str s => .ok (elem.appendChild (.txt s))
    | _ => .error (.error (textMustBeStringMsg clsName))

/-- The body of `toXmlObject` inside the try/finally: raw passthrough when the
type is raw-output and a source node is stored, else namespace resolution,
element creation, attributes, children, text. -/
def toXmlBody (env : TypeEnv) (recurse : Heap → Nat → NsMap → (Except JsError XNode) × Heap)
    (md : XMLMetadata) (clsName : String) (d : InstData) (h₁ : Heap) (nsDef₀ : NsMap) :
    (Except JsError XNode) × Heap :=
  match (if md.rawOutput then d.rawDom else none) with
  | some raw => (.ok raw, h₁)
  | none =>
    let chain := env.chainOf d.typeId
    let nsr := resolveNs nsDef₀ md d.nsURI
    let nsDef := nsr.2
    let elem₀ := createElem md nsr.1
    match serializeAttrs clsName (getAttrList chain) d.props elem₀ with
    | .error e => (.error e, h₁)
    | .ok elem₁ =>
      match serializeChildren clsName recurse (getChildList chain) d.props h₁ nsDef elem₁ with
      | (.error e, h₂) => (.error e, h₂)
      | (.ok elem₂, h₂) =>
        match serializeText clsName (getTextValueDef chain) d.props elem₂ with
        | .error e => (.error e, h₂)
        | .ok elem₃ => (.ok elem₃, h₂)

/-- One unfolding of `toXmlObject`: the metadata guard, the circular-reference
guard before the try, the flag acquisition, the body, and the scoped flag
release on both exits of the try. -/
def toXmlStep (env : TypeEnv) (recurse : Heap → Nat → NsMap → (Except JsError XNode) × Heap)
    (h : Heap) (id : Nat) (nsDef : NsMap) : (Except JsError XNode) × Heap :=
  match h.get id with
  | none => (.error (.typeError "Cannot read properties of undefined"), h)
  | some d =>
    let lvl := ownLevel env d.typeId
    let clsName := lvl.clsName
    let md := lvl.md
    if !md.defined then (.error (.error (missingTagDecoratorMsg clsName)), h)
    else if d.isSerializing then
      (.error (.error (circularRefMsg clsName)), h)
    else
      let h₁ := h.set id { d with isSerializing := true }
      let br := toXmlBody env recurse md clsName d h₁ nsDef
      (br.1, br.2.setFlag id false)

/-- base.ts `XMLElement.toXmlObject`, fuel-indexed (sufficient fuel — more
than the number of not-currently-serializing instances — never runs out).
The heap is returned on both outcomes, so the flag discipline is observable. -/
def toXmlObject (env : TypeEnv) : Nat → Heap → Nat → NsMap → (Except JsError XNode) × Heap
  | 0 => fun h _ _ => (.error .outOfFuel, h)
  | fuel + 1 => toXmlStep env (fun h id nsDef => toXmlObject env fuel h id nsDef)

/-- Modelled from the spec: `toXml` feeds `toXmlObject`'s node tree to the
external `XMLSerializer` (outside this repository); rendering being "a pure,
stateless formatting step over the returned node tree", the model exposes the
node tree itself as the rendered document. -/
def toXml (env : TypeEnv) (fuel : Nat) (h : Heap) (id : Nat) (nsDef : NsMap) :
    (Except JsError XNode) × Heap :=
  toXmlObject env fuel h id nsDef


/-! ## Concrete environments used by witnesses and counterexamples -/

/-- The uniform text of the missing-tag schema error. -/
def missingTagMsg : String := "Tag must be defined on every node"

/-- A two-type environment: type 0 ("Son") has a tagless own fragment over a
tagged ancestor ("Father"); type 1 ("Holder") is tagged and has a child
binding referencing type 0. -/
def c8Env : TypeEnv :=
  ⟨fun t =>
    if t = 0 then
      [⟨"Son", { defined := true }⟩, ⟨"Father", { defined := true, tag := some "Dad" }⟩]
    else if t = 1 then
      [⟨"Holder", { name := some "Holder", defined := true, tag := some "Holder",
                    children := [⟨"kid", 0, 1, .num 1⟩] }⟩]
    else []⟩

deriving instance DecidableEq for Except

/-- A parent type ("P", type 0) with one child binding `p` referencing type 1
("C") at minimum one, maximum one. -/
def c4Env : TypeEnv :=
  ⟨fun t =>
    if t = 0 then
      [⟨"P", { name := some "P", defined := true, tag := some "P",
               children := [⟨"p", 1, 1, .num 1⟩] }⟩]
    else if t = 1 then
      [⟨"C", { name := some "C", defined := true, tag := some "C" }⟩]
    else []⟩

/-- A `P` node with `k` matching `C` element children. -/
def c4Node (k : Nat) : XNode :=
  .el "P" none [] (List.replicate k (.el "C" none [] []))

/-- All attribute declarations of the chain in traversal order (subclass
level first, each level's declarations in insertion order), paired with their
level's metadata. -/
def attrDecls (lvls : List TypeLevel) : List AttrEntry :=
  (lvls.map (fun lvl => lvl.md.attrs.map (fun ad => AttrEntry.mk ad lvl.md))).flatten

/-- All child declarations of the chain in traversal order. -/
def childDecls (lvls : List TypeLevel) : List ChildDef :=
  (lvls.map (fun lvl => lvl.md.children)).flatten

/-- All attribute declarations (with their level's metadata) whose resolved
attribute name is `nm`, in traversal order. -/
def attrNameDecls (lvls : List TypeLevel) (nm : String) : List (AttrDef × XMLMetadata) :=
  ((lvls.map (fun lvl => lvl.md.attrs.map (fun ad => (ad, lvl.md)))).flatten).filter
    (fun pr => resolveAttrName pr.2 pr.1 == nm)

/-- All child declarations whose referenced class's own tag is `tag`, in
traversal order. -/
def childTagDecls (env : TypeEnv) (lvls : List TypeLevel) (tag : String) : List ChildDef :=
  (childDecls lvls).filter (fun cd => (ownLevel env cd.clazz).md.tag == some tag)

/-- A two-level chain for the override counterexample: the subclass binds
property `p` to attribute name "a" (string kind), the ancestor binds the same
property `p` to attribute name "b" (boolean kind). -/
def c2Env : TypeEnv :=
  ⟨fun t =>
    if t = 0 then
      [⟨"Son", { name := some "Son", defined := true, tag := some "Son",
                 attrs := [{ prop := "p", defined := true, name := some "a",
                             typ := some .string, required := false, converter := none,
                             validator := [], ns := none, nsURI := none }] }⟩,
       ⟨"Father", { name := some "Father", defined := true,
                    attrs := [{ prop := "p", defined := true, name := some "b",
                                typ := some .boolean, required := false, converter := none,
                                validator := [], ns := none, nsURI := none }] }⟩]
    else []⟩

/-- Rewrite one attribute binding's required flag. -/
def mapAttrReq (rf : AttrDef → Bool) (ad : AttrDef) : AttrDef :=
  { ad with required := rf ad }

/-- Rewrite every attribute binding's required flag in a fragment. -/
def mdMapAttrReq (rf : AttrDef → Bool) (md : XMLMetadata) : XMLMetadata :=
  { md with attrs := md.attrs.map (mapAttrReq rf) }

/-- Rewrite every attribute binding's required flag in an environment. -/
def envMapAttrReq (rf : AttrDef → Bool) (env : TypeEnv) : TypeEnv :=
  ⟨fun t => (env.chainOf t).map (fun lvl => TypeLevel.mk lvl.clsName (mdMapAttrReq rf lvl.md))⟩

/-- A type ("R") with one required string attribute `a`. -/
def c9Env : TypeEnv :=
  ⟨fun t =>
    if t = 0 then
      [⟨"R", { name := some "R", defined := true, tag := some "R",
               attrs := [{ prop := "a", defined := true, name := some "a",
                           typ := some .string, required := true, converter := none,
                           validator := [], ns := none, nsURI := none }] }⟩]
    else []⟩

/-- A self-referential schema: type 0 ("A") declares itself as its sole
child. -/
def c3Env : TypeEnv :=
  ⟨fun t =>
    if t = 0 then
      [⟨"A", { name := some "A", defined := true, tag := some "A",
               children := [⟨"p", 0, 1, .num 1⟩] }⟩]
    else []⟩

/-- An `A` instance holding itself as its child. -/
def c3Heap : Heap :=
  ⟨[(0, { typeId := 0, props := [("p", .emRef 0)] })]⟩

/-- An `A` instance observed mid-serialization: its flag is already set. -/
def c3HeapTrue : Heap :=
  ⟨[(0, { typeId := 0, props := [("p", .emRef 0)], isSerializing := true })]⟩

/-- A bare tagged type ("B"), for observing the flag discipline. -/
def c10Env : TypeEnv :=
  ⟨fun t =>
    if t = 0 then [⟨"B", { name := some "B", defined := true, tag := some "B" }⟩]
    else []⟩

/-- A `B` instance whose flag is already set. -/
def c10HeapTrue : Heap :=
  ⟨[(0, { typeId := 0, props := [], isSerializing := true })]⟩

/-- A parent type ("P", prefix `myns`, schema default URI) whose child type
("C") shares the prefix and carries its own schema default. -/
def c6Env : TypeEnv :=
  ⟨fun t =>
    if t = 0 then
      [⟨"P", { name := some "P", defined := true, tag := some "P", ns := some "myns",
               nsURI := some "http://schema-default",
               children := [⟨"c", 1, 1, .num 1⟩] }⟩]
    else if t = 1 then
      [⟨"C", { name := some "C", defined := true, tag := some "C", ns := some "myns",
               nsURI := some "http://child-default" }⟩]
    else []⟩

/-- A `P` instance with an instance-level namespace-URI override, holding one
`C` child instance. -/
def c6Heap : Heap :=
  ⟨[(0, { typeId := 0, props := [("c", .emRef 1)], nsURI := some "http://inst" }),
    (1, { typeId := 1, props := [] })]⟩

/-! ## Basic lemmas on Except -/

lemma except_bind_ok {α β ε : Type} (a : α) (f : α → Except ε β) :
    (Except.ok a : Except ε α) >>= f = f a := rfl

lemma except_bind_error {α β ε : Type} (e : ε) (f : α → Except ε β) :
    (Except.error e : Except ε α) >>= f = .error e := rfl

/-! ## Lemmas on schema resolution -/

lemma childMapLevel_ok (env : TypeEnv) (cds : List ChildDef) (map : ChildMap)
    (hall : ∀ cd ∈ cds, ((ownLevel env cd.clazz).md.tag).isSome) :
    ∃ m, childMapLevel env cds map = .ok m := by
  induction cds generalizing map with
  | nil => exact ⟨map, rfl⟩
  | cons cd rest ih =>
    have hcd := hall cd (by simp)
    obtain ⟨tg, htg⟩ := Option.isSome_iff_exists.mp hcd
    have hrest : ∀ cd' ∈ rest, ((ownLevel env cd'.clazz).md.tag).isSome :=
      fun cd' hm => hall cd' (by simp [hm])
    simp only [childMapLevel, htg]
    split <;> exact ih _ hrest

lemma childMapLevel_error (env : TypeEnv) (cds : List ChildDef) (map : ChildMap)
    (hbad : ∃ cd ∈ cds, (ownLevel env cd.clazz).md.tag = none) :
    childMapLevel env cds map = .error (.error missingTagMsg) := by
  induction cds generalizing map with
  | nil => simp at hbad
  | cons cd rest ih =>
    by_cases hhd : (ownLevel env cd.clazz).md.tag = none
    · simp [childMapLevel, hhd, missingTagMsg]
    · obtain ⟨cd', hm, hnone⟩ := hbad
      have hrest : cd' ∈ rest := by
        rcases List.mem_cons.mp hm with h | h
        · exact absurd (h ▸ hnone) hhd
        · exact h
      obtain ⟨tg, htg⟩ := Option.isSome_iff_exists.mp (Option.isSome_iff_ne_none.mpr hhd)
      simp only [childMapLevel, htg]
      split <;> exact ih _ ⟨cd', hrest, hnone⟩

lemma childMapChain_ok (env : TypeEnv) (lvls : List TypeLevel) (map : ChildMap)
    (hall : ∀ lvl ∈ lvls, ∀ cd ∈ lvl.md.children, ((ownLevel env cd.clazz).md.tag).isSome) :
    ∃ m, childMapChain env lvls map = .ok m := by
  induction lvls generalizing map with
  | nil => exact ⟨map, rfl⟩
  | cons lvl rest ih =>
    obtain ⟨m₁, hm₁⟩ := childMapLevel_ok env lvl.md.children map (hall lvl (by simp))
    obtain ⟨m₂, hm₂⟩ := ih m₁ (fun lvl' hm cd hc => hall lvl' (by simp [hm]) cd hc)
    exact ⟨m₂, by simp only [childMapChain, hm₁, except_bind_ok, hm₂]⟩

lemma childMapChain_error (env : TypeEnv) (lvls : List TypeLevel) (map : ChildMap)
    (hbad : ∃ lvl ∈ lvls, ∃ cd ∈ lvl.md.children, (ownLevel env cd.clazz).md.tag = none) :
    childMapChain env lvls map = .error (.error missingTagMsg) := by
  induction lvls generalizing map with
  | nil => simp at hbad
  | cons lvl rest ih =>
    by_cases hlvl : ∃ cd ∈ lvl.md.children, (ownLevel env cd.clazz).md.tag = none
    · simp only [childMapChain, childMapLevel_error env _ _ hlvl, except_bind_error]
    · obtain ⟨lvl', hm, hcd⟩ := hbad
      have hrest : lvl' ∈ rest := by
        rcases List.mem_cons.mp hm with h | h
        · exact absurd (h ▸ hcd) hlvl
        · exact h
      obtain ⟨m₁, hm₁⟩ := childMapLevel_ok env lvl.md.children map
        (fun cd hc => Option.isSome_iff_ne_none.mpr fun hn => hlvl ⟨cd, hc, hn⟩)
      simp only [childMapChain, hm₁, except_bind_ok]
      exact ih m₁ ⟨lvl', hrest, hcd⟩

/-- `getChildMap` fails exactly when some traversed child binding references a
class whose own fragment declares no tag, and then always with the
missing-schema message. -/
lemma getChildMap_error_iff (env : TypeEnv) (lvls : List TypeLevel) :
    (∃ e, getChildMap env lvls = .error e) ↔
      ∃ lvl ∈ lvls, ∃ cd ∈ lvl.md.children, (ownLevel env cd.clazz).md.tag = none := by
  constructor
  · intro ⟨e, he⟩
    by_contra hno
    push_neg at hno
    obtain ⟨m, hm⟩ := childMapChain_ok env lvls []
      (fun lvl hl cd hc => Option.isSome_iff_ne_none.mpr (hno lvl hl cd hc))
    rw [getChildMap, hm] at he
    exact Except.noConfusion he
  · intro hbad
    exact ⟨_, childMapChain_error env lvls [] hbad⟩

/-! ## Claim C8: self-declared bindability -/

/-- C8: a type whose own schema fragment declares no tag cannot be
deserialized — as the root type the parse fails immediately with the
missing-schema error (whatever the node and however its ancestors are
tagged, as only the type's own fragment is constrained), and as a child
binding's referenced type it poisons the resolved child map, which fails
exactly when some traversed binding references a tagless class; the
referring type's parse then surfaces that error (shown for nodes whose
attribute phase is trivially clean). -/
theorem c8_tag_must_be_self_declared (env : TypeEnv) (fuel : Nat) (t : Nat)
    (node : XNode) (h : Heap) :
    ((ownLevel env t).md.tag = none →
      parseXMLElement env (fuel + 1) t node h = .error (.error missingTagMsg)) ∧
    (∀ er, ((ownLevel env t).md.tag).isSome → node.attrList = [] →
      getChildMap env (env.chainOf t) = .error er →
      parseXMLElement env (fuel + 1) t node h = .error er) ∧
    ((∃ e, getChildMap env (env.chainOf t) = .error e) ↔
      ∃ lvl ∈ env.chainOf t, ∃ cd ∈ lvl.md.children,
        (ownLevel env cd.clazz).md.tag = none) := by
  refine ⟨?_, ?_, getChildMap_error_iff env (env.chainOf t)⟩
  · intro hnone
    simp [parseXMLElement, parseStep, hnone, missingTagMsg]
  · intro er htag hattrs herr
    obtain ⟨tg, htg⟩ := Option.isSome_iff_exists.mp htag
    simp [parseXMLElement, parseStep, htg, hattrs, parseAttrLoop, herr,
      except_bind_ok, except_bind_error]

/-- Witness for C8 at `c8Env`: deserializing the tagless type 0 directly, and
deserializing type 1 whose child binding references type 0, both fail with the
missing-schema error. -/
theorem c8_witness :
    (ownLevel c8Env 0).md.tag = none ∧
    parseXMLElement c8Env 5 0 (.el "Son" none [] []) ⟨[]⟩ =
      .error (.error missingTagMsg) ∧
    parseXMLElement c8Env 5 1 (.el "Holder" none [] []) ⟨[]⟩ =
      .error (.error missingTagMsg) := by
  refine ⟨by decide, ?_, ?_⟩
  · exact (c8_tag_must_be_self_declared c8Env 4 0 _ _).1 (by decide)
  · exact (c8_tag_must_be_self_declared c8Env 4 1 _ _).2.1
      (.error missingTagMsg) (by decide) (by decide) (by decide)


/-! ## Claim C5: attribute coercion -/

lemma mkFin_ne_nan (m e : Int) : mkFin m e ≠ .nan := by
  unfold mkFin
  split <;> simp

lemma parseFloatAfterSign_nan_iff (neg : Bool) (cs₀ : List Char) :
    parseFloatAfterSign neg cs₀ = .nan ↔ numericStartCore cs₀ = false := by
  unfold parseFloatAfterSign numericStartCore
  by_cases hinf : listStartsWith cs₀ "Infinity".data
  · cases neg <;> simp [hinf]
  · simp only [hinf, if_false, Bool.false_or]
    cases cs₀ with
    | nil => simp [takeDigits]
    | cons c rest =>
      by_cases hd : c.isDigit
      · simp [takeDigits, List.takeWhile_cons, hd, mkFin_ne_nan]
      · by_cases hdot : c = '.'
        · subst hdot
          cases rest with
          | nil => simp [takeDigits, List.takeWhile_cons, List.dropWhile_cons, hd]
          | cons c₂ r₂ =>
            by_cases hd₂ : c₂.isDigit
            · simp [takeDigits, List.takeWhile_cons, List.dropWhile_cons, hd, hd₂,
                mkFin_ne_nan]
            · simp [takeDigits, List.takeWhile_cons, List.dropWhile_cons, hd, hd₂]
        · simp only [takeDigits, List.takeWhile_cons, List.dropWhile_cons, hd,
            Bool.false_eq_true, if_false, List.isEmpty_nil, Bool.true_and]
          split
          next heq => simp [hd, hdot]
          next hne =>
            exfalso
            apply hne
            cases rest <;> simp_all

lemma parseFloat_nan_iff (s : String) :
    parseFloat s = .nan ↔ hasNumericStart s = false := by
  unfold parseFloat hasNumericStart
  exact parseFloatAfterSign_nan_iff _ _
/-- C5: converter-free attribute coercion in `parseXMLElement`, per declared
kind: boolean kind assigns `true` exactly when the raw string is the literal
"true"; number kind always succeeds with `parseFloat`'s value, which is NaN
exactly when the text lacks a numeric start (malformed text never raises);
string kind is verbatim; enum kind admits exactly the raw strings strictly
equal to a declared enum value and otherwise fails with the unknown-enum-value
validation error. -/
theorem c5_attribute_coercion (mdName : Option String) (ent : AttrMapEntry)
    (raw : String) (hconv : ent.ad.converter = none) :
    (ent.ad.typ = some .boolean →
      coerceAttrValue mdName ent raw = .ok (.boolean (raw == "true")) ∧
      ((raw == "true") = true ↔ raw = "true")) ∧
    (ent.ad.typ = some .number →
      coerceAttrValue mdName ent raw = .ok (.num (parseFloat raw)) ∧
      (parseFloat raw = .nan ↔ hasNumericStart raw = false)) ∧
    (ent.ad.typ = some .string →
      coerceAttrValue mdName ent raw = .ok (.str raw)) ∧
    (∀ vals, ent.ad.typ = some (.enumTyp vals) →
      (vals.any (fun v => enumEqStr v raw) = true →
        coerceAttrValue mdName ent raw = .ok (.str raw)) ∧
      (vals.any (fun v => enumEqStr v raw) = false →
        coerceAttrValue mdName ent raw =
          .error (.error (unknownEnumMsg mdName ent.ad.prop raw)))) := by
  refine ⟨?_, ?_, ?_, ?_⟩
  · intro hty
    exact ⟨by simp [coerceAttrValue, hconv, hty], by simp⟩
  · intro hty
    exact ⟨by simp [coerceAttrValue, hconv, hty], parseFloat_nan_iff raw⟩
  · intro hty
    simp [coerceAttrValue, hconv, hty]
  · intro vals hty
    constructor
    · intro hin
      simp [coerceAttrValue, hconv, hty, hin]
    · intro hout
      simp [coerceAttrValue, hconv, hty, hout]

/-- Witness for C5 at concrete bindings: a boolean-kind attribute on "true",
a number-kind attribute on the malformed "abc" (NaN, no error), a string-kind
attribute taken verbatim, and an enum whose only values are "foo" and the
number 1, rejecting the raw string "1". -/
theorem c5_witness :
    coerceAttrValue (some "Foo")
      ⟨⟨"b", true, none, some .boolean, false, none, [], none, none⟩, "b", false⟩
      "true" = .ok (.boolean true) ∧
    coerceAttrValue (some "Foo")
      ⟨⟨"n", true, none, some .number, false, none, [], none, none⟩, "n", false⟩
      "abc" = .ok (.num .nan) ∧
    hasNumericStart "abc" = false ∧
    coerceAttrValue (some "Foo")
      ⟨⟨"s", true, none, some .string, false, none, [], none, none⟩, "s", false⟩
      "hi" = .ok (.str "hi") ∧
    coerceAttrValue (some "Foo")
      ⟨⟨"e", true, none, some (.enumTyp [.str "foo", .num (.fin 1 0)]), false,
        none, [], none, none⟩, "e", false⟩
      "1" = .error (.error (unknownEnumMsg (some "Foo") "e" "1")) := by
  refine ⟨?_, ?_, by decide, ?_, ?_⟩
  · rw [((c5_attribute_coercion (some "Foo") _ "true" rfl).1 rfl).1]
    decide
  · rw [((c5_attribute_coercion (some "Foo") _ "abc" rfl).2.1 rfl).1]
    decide
  · exact (c5_attribute_coercion (some "Foo") _ "hi" rfl).2.2.1 rfl
  · exact ((c5_attribute_coercion (some "Foo") _ "1" rfl).2.2.2 _ rfl).2 (by decide)
/-! ## Claim C4: child cardinality -/

/-- C4: cardinality enforcement for a resolved child binding.  At minimum one
and maximum one, zero accumulated children fail with the too-few error, two
fail with the too-many error, and exactly one succeeds assigning the single
instance unwrapped; in general, when the checks pass, the accumulated list is
assigned whenever something accumulated and not (exactly one accumulated with
maximum exactly one), and the property is left untouched when nothing
accumulated and the minimum is zero.  The min-1/max-1 boundary is also
exhibited on full deserializations of a one-binding schema over zero, two and
one matching child elements. -/
theorem c4_cardinality (mdName : Option String) (tag : String) (ent : ChildMapEntry)
    (ps : Props) :
    (ent.cd.minOccur = 1 → ent.cd.maxOccur = .num 1 →
      (ent.result = [] →
        applyChildEntry mdName tag ent ps =
          .error (.error (tooFewChildMsg mdName tag 0 1))) ∧
      (∀ a b, ent.result = [a, b] →
        applyChildEntry mdName tag ent ps =
          .error (.error (tooManyChildMsg mdName tag 2 1))) ∧
      (∀ a, ent.result = [a] →
        applyChildEntry mdName tag ent ps =
          .ok (setProp ps ent.cd.prop (.emRef a)))) ∧
    (ent.cd.minOccur ≤ ent.result.length →
      (∀ mx, ent.cd.maxOccur = .num mx → ent.result.length ≤ mx) →
      ¬(ent.result.length = 1 ∧ ent.cd.maxOccur = .num 1) →
      0 < ent.result.length →
      applyChildEntry mdName tag ent ps =
        .ok (setProp ps ent.cd.prop (.list ent.result))) ∧
    (ent.result = [] → ent.cd.minOccur = 0 →
      applyChildEntry mdName tag ent ps = .ok ps) ∧
    parseXMLElement c4Env 3 0 (c4Node 0) ⟨[]⟩ =
      .error (.error (tooFewChildMsg (some "P") "C" 0 1)) ∧
    parseXMLElement c4Env 3 0 (c4Node 2) ⟨[]⟩ =
      .error (.error (tooManyChildMsg (some "P") "C" 2 1)) ∧
    (match parseXMLElement c4Env 3 0 (c4Node 1) ⟨[]⟩ with
      | .ok (id, h) => (h.get id).map (fun d => getProp d.props "p")
      | .error _ => none) = some (.emRef 1) := by
  refine ⟨?_, ?_, ?_, by decide, by decide, by decide⟩
  · intro hmin hmax
    refine ⟨?_, ?_, ?_⟩
    · intro hr
      simp [applyChildEntry, hr, hmin, hmax]
    · intro a b hr
      simp [applyChildEntry, hr, hmin, hmax]
    · intro a hr
      simp [applyChildEntry, assignChildProp, hr, hmin, hmax]
  · intro hmn hmx hnot hpos
    have hnlt : ¬(ent.result.length < ent.cd.minOccur) := Nat.not_lt.mpr hmn
    unfold applyChildEntry
    simp only [hnlt, if_false]
    cases hcase : ent.cd.maxOccur with
    | unlimited =>
      have hcond : ¬(ent.result.length = 1 ∧ MaxOccur.unlimited = MaxOccur.num 1) := by
        rintro ⟨-, h⟩; cases h
      unfold assignChildProp
      rw [hcase, if_neg hcond, if_pos hpos]
    | num mx =>
      have hle := hmx mx hcase
      have hngt : ¬(ent.result.length > mx) := Nat.not_lt.mpr hle
      have hcond : ¬(ent.result.length = 1 ∧ MaxOccur.num mx = MaxOccur.num 1) := by
        rintro ⟨h1, h2⟩
        exact hnot ⟨h1, hcase.trans h2⟩
      simp only [hngt, if_false]
      unfold assignChildProp
      rw [hcase, if_neg hcond, if_pos hpos]
  · intro hr hmin
    unfold applyChildEntry assignChildProp
    simp only [hr, hmin, List.length_nil]
    simp only [Nat.lt_irrefl, if_false]
    cases ent.cd.maxOccur <;> simp

/-- Witness for C4 at concrete bindings: the three min-1/max-1 boundary
outcomes, a list assignment under unlimited maximum, and the untouched
property at zero occurrences with minimum zero. -/
theorem c4_witness :
    applyChildEntry (some "P") "C" ⟨⟨"p", 1, 1, .num 1⟩, []⟩ [] =
      .error (.error (tooFewChildMsg (some "P") "C" 0 1)) ∧
    applyChildEntry (some "P") "C" ⟨⟨"p", 1, 1, .num 1⟩, [7, 8]⟩ [] =
      .error (.error (tooManyChildMsg (some "P") "C" 2 1)) ∧
    applyChildEntry (some "P") "C" ⟨⟨"p", 1, 1, .num 1⟩, [7]⟩ [] =
      .ok (setProp [] "p" (.emRef 7)) ∧
    applyChildEntry (some "P") "C" ⟨⟨"q", 1, 0, .unlimited⟩, [4]⟩ [] =
      .ok (setProp [] "q" (.list [4])) ∧
    applyChildEntry (some "P") "C" ⟨⟨"q", 1, 0, .unlimited⟩, []⟩ [] = .ok [] := by
  refine ⟨?_, ?_, ?_, ?_, ?_⟩
  · exact ((c4_cardinality _ _ _ _).1 rfl rfl).1 rfl
  · exact ((c4_cardinality _ _ _ _).1 rfl rfl).2.1 7 8 rfl
  · exact ((c4_cardinality _ _ _ _).1 rfl rfl).2.2 7 rfl
  · exact (c4_cardinality _ _ _ _).2.1 (by decide) (fun mx h => by cases h)
      (by decide) (by decide)
  · exact (c4_cardinality _ _ _ _).2.2.1 rfl rfl
/-! ## Claim C2: inheritance override resolution -/

lemma attrListLevel_seen (md : XMLMetadata) (ads : List AttrDef) (seen : List String)
    (p : String) :
    (p ∈ (attrListLevel md ads seen).2) ↔
      (p ∈ seen ∨ p ∈ ads.map (fun ad => ad.prop)) := by
  induction ads generalizing seen with
  | nil => simp [attrListLevel]
  | cons ad rest ih =>
    by_cases hs : seen.contains ad.prop
    · simp only [attrListLevel, hs, if_true, ih]
      by_cases hp : p = ad.prop
      · subst hp
        have := List.elem_iff.mp hs
        simp_all
      · simp [hp]
    · simp only [attrListLevel, hs, Bool.false_eq_true, if_false]
      simp only [ih, List.mem_cons, List.map_cons]
      tauto

lemma attrListLevel_filter (md : XMLMetadata) (ads : List AttrDef) (seen : List String)
    (p : String) :
    ((attrListLevel md ads seen).1.filter (fun e => e.ad.prop == p)) =
      if p ∈ seen then []
      else ((ads.filter (fun ad => ad.prop == p)).map (fun ad => AttrEntry.mk ad md)).take 1 := by
  induction ads generalizing seen with
  | nil => simp [attrListLevel]
  | cons ad rest ih =>
    by_cases hs : seen.contains ad.prop
    · have hmem := List.elem_iff.mp hs
      simp only [attrListLevel, hs, if_true, ih]
      by_cases hp : p = ad.prop
      · subst hp
        simp [hmem]
      · have hbp : (ad.prop == p) = false := by
          simp [beq_iff_eq]
          exact fun h => hp h.symm
        simp [List.filter_cons, hbp]
    · have hmem : ad.prop ∉ seen := fun hm => hs (List.elem_iff.mpr hm)
      by_cases hp : p = ad.prop
      · subst hp
        simp only [attrListLevel, hs, if_false, List.filter_cons, beq_self_eq_true,
          if_true, if_neg hmem]
        have hrest := ih (ad.prop :: seen)
        rw [if_pos (by simp)] at hrest
        simp_all
      · have hbp : (ad.prop == p) = false := by
          simp only [beq_eq_false_iff_ne, ne_eq]
          exact fun h => hp h.symm
        simp only [attrListLevel, hs, Bool.false_eq_true, if_false, List.filter_cons,
          hbp]
        rw [ih (ad.prop :: seen)]
        by_cases hsp : p ∈ seen
        · rw [if_pos (by simp [hp, hsp]), if_pos hsp]
        · rw [if_neg (by simp [hp, hsp]), if_neg hsp]

lemma attrListChain_filter (lvls : List TypeLevel) (seen : List String) (p : String) :
    ((attrListChain lvls seen).filter (fun e => e.ad.prop == p)) =
      if p ∈ seen then []
      else ((attrDecls lvls).filter (fun e => e.ad.prop == p)).take 1 := by
  induction lvls generalizing seen with
  | nil => simp [attrListChain, attrDecls]
  | cons lvl rest ih =>
    simp only [attrListChain, List.filter_append]
    rw [attrListLevel_filter]
    have hdecls : attrDecls (lvl :: rest) =
        lvl.md.attrs.map (fun ad => AttrEntry.mk ad lvl.md) ++ attrDecls rest := by
      simp [attrDecls]
    rw [hdecls, List.filter_append, ih,
      show ((lvl.md.attrs.map (fun ad => AttrEntry.mk ad lvl.md)).filter
          (fun e => e.ad.prop == p)) =
        ((lvl.md.attrs.filter (fun ad => ad.prop == p)).map
          (fun ad => AttrEntry.mk ad lvl.md)) from List.map_filter _ _]
    by_cases hsp : p ∈ seen
    · rw [if_pos hsp, if_pos hsp,
        if_pos ((attrListLevel_seen lvl.md lvl.md.attrs seen p).mpr (Or.inl hsp))]
      simp
    · rw [if_neg hsp]
      by_cases hlvl : p ∈ lvl.md.attrs.map (fun ad => ad.prop)
      · rw [if_pos ((attrListLevel_seen lvl.md lvl.md.attrs seen p).mpr (Or.inr hlvl))]
        obtain ⟨ad, had, hadp⟩ := List.mem_map.mp hlvl
        have hne : lvl.md.attrs.filter (fun ad => ad.prop == p) ≠ [] := by
          intro hnil
          have := List.filter_eq_nil_iff.mp hnil ad had
          simp [beq_iff_eq, hadp] at this
        cases hflt : lvl.md.attrs.filter (fun ad => ad.prop == p) with
        | nil => exact absurd hflt hne
        | cons a as => simp [hsp]
      · rw [if_neg ((fun h => by
            rcases (attrListLevel_seen lvl.md lvl.md.attrs seen p).mp h with h | h
            · exact hsp h
            · exact hlvl h) : ¬ p ∈ (attrListLevel lvl.md lvl.md.attrs seen).2)]
        have hnil : lvl.md.attrs.filter (fun ad => ad.prop == p) = [] := by
          rw [List.filter_eq_nil_iff]
          intro ad had
          simp only [beq_iff_eq]
          intro hadp
          exact hlvl (List.mem_map.mpr ⟨ad, had, hadp⟩)
        simp [hnil, hsp]

lemma childListLevel_seen (cds : List ChildDef) (seen : List String) (p : String) :
    (p ∈ (childListLevel cds seen).2) ↔
      (p ∈ seen ∨ p ∈ cds.map (fun cd => cd.prop)) := by
  induction cds generalizing seen with
  | nil => simp [childListLevel]
  | cons cd rest ih =>
    by_cases hs : seen.contains cd.prop
    · simp only [childListLevel, hs, if_true, ih]
      by_cases hp : p = cd.prop
      · subst hp
        have := List.elem_iff.mp hs
        simp_all
      · simp [hp]
    · simp only [childListLevel, hs, Bool.false_eq_true, if_false]
      simp only [ih, List.mem_cons, List.map_cons]
      tauto

lemma childListLevel_filter (cds : List ChildDef) (seen : List String) (p : String) :
    ((childListLevel cds seen).1.filter (fun cd => cd.prop == p)) =
      if p ∈ seen then []
      else (cds.filter (fun cd => cd.prop == p)).take 1 := by
  induction cds generalizing seen with
  | nil => simp [childListLevel]
  | cons cd rest ih =>
    by_cases hs : seen.contains cd.prop
    · have hmem := List.elem_iff.mp hs
      simp only [childListLevel, hs, if_true, ih]
      by_cases hp : p = cd.prop
      · subst hp
        simp [hmem]
      · have hbp : (cd.prop == p) = false := by
          simp only [beq_eq_false_iff_ne, ne_eq]
          exact fun h => hp h.symm
        simp [List.filter_cons, hbp]
    · have hmem : cd.prop ∉ seen := fun hm => hs (List.elem_iff.mpr hm)
      by_cases hp : p = cd.prop
      · subst hp
        simp only [childListLevel, hs, if_false, List.filter_cons, beq_self_eq_true,
          if_true, if_neg hmem]
        have hrest := ih (cd.prop :: seen)
        rw [if_pos (by simp)] at hrest
        simp_all
      · have hbp : (cd.prop == p) = false := by
          simp only [beq_eq_false_iff_ne, ne_eq]
          exact fun h => hp h.symm
        simp only [childListLevel, hs, Bool.false_eq_true, if_false, List.filter_cons,
          hbp]
        rw [ih (cd.prop :: seen)]
        by_cases hsp : p ∈ seen
        · rw [if_pos (by simp [hp, hsp]), if_pos hsp]
        · rw [if_neg (by simp [hp, hsp]), if_neg hsp]

lemma childListChain_filter (lvls : List TypeLevel) (seen : List String) (p : String) :
    ((childListChain lvls seen).filter (fun cd => cd.prop == p)) =
      if p ∈ seen then []
      else ((childDecls lvls).filter (fun cd => cd.prop == p)).take 1 := by
  induction lvls generalizing seen with
  | nil => simp [childListChain, childDecls]
  | cons lvl rest ih =>
    simp only [childListChain, List.filter_append]
    rw [childListLevel_filter, ih]
    have hdecls : childDecls (lvl :: rest) = lvl.md.children ++ childDecls rest := by
      simp [childDecls]
    rw [hdecls, List.filter_append]
    by_cases hsp : p ∈ seen
    · rw [if_pos hsp, if_pos hsp,
        if_pos ((childListLevel_seen lvl.md.children seen p).mpr (Or.inl hsp))]
      simp
    · rw [if_neg hsp, if_neg hsp]
      by_cases hlvl : p ∈ lvl.md.children.map (fun cd => cd.prop)
      · rw [if_pos ((childListLevel_seen lvl.md.children seen p).mpr (Or.inr hlvl))]
        obtain ⟨cd, hcd, hcdp⟩ := List.mem_map.mp hlvl
        have hne : lvl.md.children.filter (fun cd => cd.prop == p) ≠ [] := by
          intro hnil
          have := List.filter_eq_nil_iff.mp hnil cd hcd
          simp [beq_iff_eq, hcdp] at this
        cases hflt : lvl.md.children.filter (fun cd => cd.prop == p) with
        | nil => exact absurd hflt hne
        | cons a as => simp [hsp]
      · rw [if_neg ((fun h => by
            rcases (childListLevel_seen lvl.md.children seen p).mp h with h | h
            · exact hsp h
            · exact hlvl h) : ¬ p ∈ (childListLevel lvl.md.children seen).2)]
        have hnil : lvl.md.children.filter (fun cd => cd.prop == p) = [] := by
          rw [List.filter_eq_nil_iff]
          intro cd hcd
          simp only [beq_iff_eq]
          intro hcdp
          exact hlvl (List.mem_map.mpr ⟨cd, hcd, hcdp⟩)
        simp [hnil, hsp]
lemma attrMapLevel_lookup (md : XMLMetadata) (ads : List AttrDef) (map : AttrMap)
    (nm : String) :
    List.find? (fun pr => pr.1 == nm) (attrMapLevel md ads map) =
      (List.find? (fun pr => pr.1 == nm) map).or
        (((ads.filter (fun ad => resolveAttrName md ad == nm)).head?).map
          (fun ad => (nm, AttrMapEntry.mk ad nm false))) := by
  induction ads generalizing map with
  | nil => simp [attrMapLevel]
  | cons ad rest ih =>
    by_cases hsome : (List.find? (fun pr => pr.1 == resolveAttrName md ad) map).isSome = true
    · simp only [attrMapLevel, hsome, if_true, ih]
      by_cases hnm : resolveAttrName md ad = nm
      · rw [hnm] at hsome
        obtain ⟨w, hw⟩ := Option.isSome_iff_exists.mp hsome
        rw [hw]
        simp [Option.or]
      · have hbp : (resolveAttrName md ad == nm) = false := by
          simp [beq_iff_eq, hnm]
        simp [List.filter_cons, hbp]
    · have hnone : List.find? (fun pr => pr.1 == resolveAttrName md ad) map = none :=
        Option.not_isSome_iff_eq_none.mp hsome
      simp only [attrMapLevel, hsome, Bool.false_eq_true, if_false, ih]
      rw [List.find?_append]
      by_cases hnm : resolveAttrName md ad = nm
      · rw [hnm] at hnone ⊢
        rw [hnone]
        have hbq : (resolveAttrName md ad == nm) = true := by simp [hnm]
        simp [List.filter_cons, List.find?, Option.or, hbq]
      · have hbp : (resolveAttrName md ad == nm) = false := by
          simp [beq_iff_eq, hnm]
        have hone : List.find? (fun pr => pr.1 == nm)
            [(resolveAttrName md ad, AttrMapEntry.mk ad (resolveAttrName md ad) false)] =
            none := by
          simp [List.find?, hbp]
        rw [hone]
        simp only [List.filter_cons, hbp, Bool.false_eq_true, if_false]
        cases List.find? (fun pr => pr.1 == nm) map <;> simp [Option.or]

lemma attrMapChain_lookup (lvls : List TypeLevel) (map : AttrMap) (nm : String) :
    List.find? (fun pr => pr.1 == nm) (attrMapChain lvls map) =
      (List.find? (fun pr => pr.1 == nm) map).or
        (((attrNameDecls lvls nm).head?).map
          (fun pr => (nm, AttrMapEntry.mk pr.1 nm false))) := by
  induction lvls generalizing map with
  | nil => simp [attrMapChain, attrNameDecls]
  | cons lvl rest ih =>
    simp only [attrMapChain]
    rw [ih, attrMapLevel_lookup]
    have hdecls : attrNameDecls (lvl :: rest) nm =
        ((lvl.md.attrs.filter (fun ad => resolveAttrName lvl.md ad == nm)).map
          (fun ad => (ad, lvl.md))) ++ attrNameDecls rest nm := by
      simp only [attrNameDecls, List.map_cons, List.flatten_cons, List.filter_append]
      rw [List.map_filter]
      rfl
    rw [hdecls, List.head?_append, List.head?_map]
    cases List.find? (fun pr => pr.1 == nm) map <;>
      cases (List.filter (fun ad => resolveAttrName lvl.md ad == nm) lvl.md.attrs).head? <;>
        cases (attrNameDecls rest nm).head? <;>
          simp [Option.or]
/-! ## Claim C9: required flags and serialization -/

lemma attrListLevel_mapreq (rf : AttrDef → Bool) (md : XMLMetadata) (ads : List AttrDef)
    (seen : List String) :
    attrListLevel (mdMapAttrReq rf md) (ads.map (mapAttrReq rf)) seen =
      ((attrListLevel md ads seen).1.map
        (fun e => AttrEntry.mk (mapAttrReq rf e.ad) (mdMapAttrReq rf e.md)),
       (attrListLevel md ads seen).2) := by
  induction ads generalizing seen with
  | nil => simp [attrListLevel]
  | cons ad rest ih =>
    by_cases hs : seen.contains ad.prop
    · have : seen.contains (mapAttrReq rf ad).prop = seen.contains ad.prop := rfl
      simp only [List.map_cons, attrListLevel, this, hs, if_true, ih]
    · have : seen.contains (mapAttrReq rf ad).prop = seen.contains ad.prop := rfl
      simp only [List.map_cons, attrListLevel, this, hs, Bool.false_eq_true, if_false]
      have harg : (mapAttrReq rf ad).prop = ad.prop := rfl
      rw [harg, ih]

lemma attrListChain_mapreq (rf : AttrDef → Bool) (lvls : List TypeLevel)
    (seen : List String) :
    attrListChain (lvls.map (fun lvl => TypeLevel.mk lvl.clsName (mdMapAttrReq rf lvl.md))) seen =
      (attrListChain lvls seen).map
        (fun e => AttrEntry.mk (mapAttrReq rf e.ad) (mdMapAttrReq rf e.md)) := by
  induction lvls generalizing seen with
  | nil => simp [attrListChain]
  | cons lvl rest ih =>
    simp only [List.map_cons, attrListChain]
    have hlst : (TypeLevel.mk lvl.clsName (mdMapAttrReq rf lvl.md)).md.attrs =
        lvl.md.attrs.map (mapAttrReq rf) := rfl
    rw [hlst, attrListLevel_mapreq, List.map_append, ih]

lemma childListChain_mapreq (rf : AttrDef → Bool) (lvls : List TypeLevel)
    (seen : List String) :
    childListChain (lvls.map (fun lvl => TypeLevel.mk lvl.clsName (mdMapAttrReq rf lvl.md))) seen =
      childListChain lvls seen := by
  induction lvls generalizing seen with
  | nil => rfl
  | cons lvl rest ih =>
    simp only [List.map_cons, childListChain]
    have hch : (TypeLevel.mk lvl.clsName (mdMapAttrReq rf lvl.md)).md.children =
        lvl.md.children := rfl
    rw [hch, ih]

lemma getTextValueDef_mapreq (rf : AttrDef → Bool) (lvls : List TypeLevel) :
    getTextValueDef (lvls.map (fun lvl => TypeLevel.mk lvl.clsName (mdMapAttrReq rf lvl.md))) =
      getTextValueDef lvls := by
  induction lvls with
  | nil => rfl
  | cons lvl rest ih =>
    simp only [List.map_cons, getTextValueDef]
    have htx : (TypeLevel.mk lvl.clsName (mdMapAttrReq rf lvl.md)).md.text = lvl.md.text := rfl
    rw [htx, ih]

lemma serializeAttrEntry_mapreq (rf : AttrDef → Bool) (clsName : String) (e : AttrEntry)
    (ps : Props) (elem : XNode) :
    serializeAttrEntry clsName (AttrEntry.mk (mapAttrReq rf e.ad) (mdMapAttrReq rf e.md)) ps elem =
      serializeAttrEntry clsName e ps elem := rfl

lemma serializeAttrs_mapreq (rf : AttrDef → Bool) (clsName : String) (es : List AttrEntry)
    (ps : Props) (elem : XNode) :
    serializeAttrs clsName
        (es.map (fun e => AttrEntry.mk (mapAttrReq rf e.ad) (mdMapAttrReq rf e.md))) ps elem =
      serializeAttrs clsName es ps elem := by
  induction es generalizing elem with
  | nil => rfl
  | cons e rest ih =>
    simp only [List.map_cons, serializeAttrs, serializeAttrEntry_mapreq]
    cases serializeAttrEntry clsName e ps elem with
    | error er => rfl
    | ok elem' => simp only [except_bind_ok, ih]

lemma toXmlBody_mapreq (rf : AttrDef → Bool) (env : TypeEnv)
    (recurse : Heap → Nat → NsMap → (Except JsError XNode) × Heap)
    (md : XMLMetadata) (clsName : String) (d : InstData) (h₁ : Heap) (nsd : NsMap) :
    toXmlBody (envMapAttrReq rf env) recurse (mdMapAttrReq rf md) clsName d h₁ nsd =
      toXmlBody env recurse md clsName d h₁ nsd := by
  unfold toXmlBody
  have hraw : (mdMapAttrReq rf md).rawOutput = md.rawOutput := rfl
  rw [hraw]
  cases hro : (if md.rawOutput then d.rawDom else none) with
  | some raw => rfl
  | none =>
    have hga : getAttrList ((envMapAttrReq rf env).chainOf d.typeId) =
        (getAttrList (env.chainOf d.typeId)).map
          (fun e => AttrEntry.mk (mapAttrReq rf e.ad) (mdMapAttrReq rf e.md)) :=
      attrListChain_mapreq rf _ []
    have hgc : getChildList ((envMapAttrReq rf env).chainOf d.typeId) =
        getChildList (env.chainOf d.typeId) := childListChain_mapreq rf _ []
    have hgt : getTextValueDef ((envMapAttrReq rf env).chainOf d.typeId) =
        getTextValueDef (env.chainOf d.typeId) := getTextValueDef_mapreq rf _
    simp only [hga, hgc, hgt, serializeAttrs_mapreq]
    rfl

lemma toXmlObject_mapreq (rf : AttrDef → Bool) (env : TypeEnv) :
    ∀ (n : Nat) (h : Heap) (id : Nat) (nsd : NsMap),
      toXmlObject (envMapAttrReq rf env) n h id nsd = toXmlObject env n h id nsd := by
  intro n
  induction n with
  | zero => intro h id nsd; rfl
  | succ n ih =>
    intro h id nsd
    have hfn : (fun h id nsd => toXmlObject (envMapAttrReq rf env) n h id nsd) =
        (fun h id nsd => toXmlObject env n h id nsd) := by
      funext h' id' nsd'
      exact ih h' id' nsd'
    show toXmlStep (envMapAttrReq rf env) _ h id nsd = toXmlStep env _ h id nsd
    rw [hfn]
    unfold toXmlStep
    cases hget : h.get id with
    | none => rfl
    | some d =>
      have hown : ownLevel (envMapAttrReq rf env) d.typeId =
          TypeLevel.mk (ownLevel env d.typeId).clsName
            (mdMapAttrReq rf (ownLevel env d.typeId).md) := by
        show (((env.chainOf d.typeId).map
            (fun lvl => TypeLevel.mk lvl.clsName (mdMapAttrReq rf lvl.md))).headD
              defaultLevel) =
          TypeLevel.mk (((env.chainOf d.typeId).headD defaultLevel).clsName)
            (mdMapAttrReq rf (((env.chainOf d.typeId).headD defaultLevel).md))
        cases env.chainOf d.typeId with
        | nil => rfl
        | cons a l => rfl
      simp only []
      rw [hown]
      have hdef : (mdMapAttrReq rf (ownLevel env d.typeId).md).defined =
          (ownLevel env d.typeId).md.defined := rfl
      simp only [hdef]
      by_cases hd : (ownLevel env d.typeId).md.defined
      · by_cases hser : d.isSerializing
        · simp [hd, hser]
        · simp only [hd, hser, Bool.not_true, Bool.false_eq_true, if_false,
            Bool.not_false, if_true]
          rw [toXmlBody_mapreq]
      · simp [hd]
lemma serializeAttrs_skips_nil (clsName : String) (e : AttrEntry) (es : List AttrEntry)
    (ps : Props) (elem : XNode) (hdef : e.ad.defined = true)
    (hnil : getProp ps e.ad.prop = .undef) :
    serializeAttrs clsName (e :: es) ps elem = serializeAttrs clsName es ps elem := by
  simp only [serializeAttrs, serializeAttrEntry, hdef, Bool.not_true, Bool.false_eq_true,
    if_false, hnil]
  simp [PropValue.isNil, except_bind_ok]

lemma checkRequiredAttrs_ok (mdName : Option String) (amap : AttrMap)
    (h : checkRequiredAttrs mdName amap = .ok ()) :
    ∀ pr ∈ amap, pr.2.ad.required = true → pr.2.exist = true := by
  induction amap with
  | nil => intro pr hm; simp at hm
  | cons e rest ih =>
    obtain ⟨k, ent⟩ := e
    intro pr hm hreq
    simp only [checkRequiredAttrs] at h
    by_cases hc : (ent.exist || !ent.ad.required) = true
    · rw [if_pos hc] at h
      rcases List.mem_cons.mp hm with heq | hmem
      · subst heq
        rcases Bool.or_eq_true_iff.mp hc with h1 | h1
        · exact h1
        · rw [Bool.not_eq_true'] at h1
          rw [hreq] at h1
          cases h1
      · exact ih h pr hmem hreq
    · rw [if_neg hc] at h
      cases h

lemma setExist_find?_other (amap : AttrMap) (nm other : String) (hne : other ≠ nm) :
    List.find? (fun pr => pr.1 == nm) (setExist amap other) =
      List.find? (fun pr => pr.1 == nm) amap := by
  induction amap with
  | nil => rfl
  | cons e rest ih =>
    obtain ⟨k, ent⟩ := e
    simp only [setExist]
    by_cases hk : (k == other) = true
    · have hkeq : k = other := by simpa [beq_iff_eq] using hk
      subst hkeq
      rw [if_pos hk]
      have hknm : (k == nm) = false := by simp [beq_iff_eq]; exact hne
      simp [List.find?, hknm]
    · rw [if_neg hk]
      by_cases hknm : (k == nm) = true
      · simp [List.find?, hknm]
      · simp only [List.find?, Bool.not_eq_true] at hknm ⊢
        simp [hknm, ih]

lemma parseAttrLoop_find?_stable (mdName : Option String) (attrs : List XAttr)
    (nm : String) :
    ∀ (amap : AttrMap) (ps : Props) (amap' : AttrMap) (ps' : Props),
      (∀ a ∈ attrs, (a.pfx == some "xmlns" || a.nm == "xmlns") = true ∨
        jsReplaceFirst a.nm (showJs a.pfx ++ ":") ≠ nm) →
      parseAttrLoop mdName attrs amap ps = .ok (amap', ps') →
      List.find? (fun pr => pr.1 == nm) amap' = List.find? (fun pr => pr.1 == nm) amap := by
  induction attrs with
  | nil =>
    intro amap ps amap' ps' _ h
    simp only [parseAttrLoop, Except.ok.injEq, Prod.mk.injEq] at h
    rw [h.1]
  | cons a rest ih =>
    intro amap ps amap' ps' hno h
    have hrest : ∀ a' ∈ rest, (a'.pfx == some "xmlns" || a'.nm == "xmlns") = true ∨
        jsReplaceFirst a'.nm (showJs a'.pfx ++ ":") ≠ nm :=
      fun a' hm => hno a' (by simp [hm])
    by_cases hskip : (a.pfx == some "xmlns" || a.nm == "xmlns") = true
    · rw [parseAttrLoop, if_pos hskip] at h
      exact ih amap ps amap' ps' hrest h
    · rw [parseAttrLoop, if_neg hskip] at h
      have hne : jsReplaceFirst a.nm (showJs a.pfx ++ ":") ≠ nm := by
        rcases hno a (by simp) with h1 | h1
        · exact absurd h1 hskip
        · exact h1
      cases hfind : List.find? (fun pr =>
          pr.1 == jsReplaceFirst a.nm (showJs a.pfx ++ ":")) amap with
      | none =>
        rw [hfind] at h
        exact ih amap ps amap' ps' hrest h
      | some pr =>
        rw [hfind] at h
        simp only [] at h
        by_cases hex : pr.2.exist = true
        · rw [if_pos hex] at h
          cases h
        · rw [if_neg hex] at h
          by_cases hdef : (!pr.2.ad.defined) = true
          · rw [if_pos hdef] at h
            cases h
          · rw [if_neg hdef] at h
            cases hco : coerceAttrValue mdName pr.2 a.value with
            | error e => rw [hco, except_bind_error] at h; cases h
            | ok v =>
              rw [hco, except_bind_ok] at h
              cases hval : runValidators pr.2.ad.validator v with
              | error e => rw [hval, except_bind_error] at h; cases h
              | ok u =>
                rw [hval, except_bind_ok] at h
                rw [ih _ _ amap' ps' hrest h]
                exact setExist_find?_other amap nm _ hne

lemma getAttrMap_find?_exist (chain : List TypeLevel) (nm : String) (pr : String × AttrMapEntry)
    (h : List.find? (fun x => x.1 == nm) (getAttrMap chain) = some pr) :
    pr.2.exist = false := by
  have hl : List.find? (fun x => x.1 == nm) (getAttrMap chain) =
      ((attrNameDecls chain nm).head?).map (fun q => (nm, AttrMapEntry.mk q.1 nm false)) := by
    rw [getAttrMap, attrMapChain_lookup]
    rfl
  rw [hl] at h
  cases hh : (attrNameDecls chain nm).head? with
  | none => rw [hh] at h; cases h
  | some q =>
    rw [hh] at h
    have h2 : some ((nm : String), AttrMapEntry.mk q.1 nm false) = some pr := h
    cases h2
    rfl

/-- C9: serialization never enforces attribute required-ness.  First,
`toXmlObject` is invariant under arbitrary rewriting of every binding's
required flag; second, an attribute binding whose property value is absent is
skipped by the attribute loop — no attribute written, no error — whatever its
flag; third, deserialization does enforce it: when the resolved attribute map
holds a required binding under a name no attribute of the node resolves to,
`parseXMLElement` cannot succeed. -/
theorem c9_required_is_parse_only (rf : AttrDef → Bool) (env : TypeEnv) (n : Nat)
    (h : Heap) (id : Nat) (nsd : NsMap) (clsName : String) (e : AttrEntry)
    (es : List AttrEntry) (ps : Props) (elem : XNode) (t fuel : Nat) (node : XNode)
    (hp : Heap) (nm : String) (ent : AttrMapEntry) (r : Nat × Heap) :
    (toXmlObject (envMapAttrReq rf env) n h id nsd = toXmlObject env n h id nsd) ∧
    (e.ad.defined = true → getProp ps e.ad.prop = .undef →
      serializeAttrs clsName (e :: es) ps elem = serializeAttrs clsName es ps elem) ∧
    (List.find? (fun pr => pr.1 == nm) (getAttrMap (env.chainOf t)) = some (nm, ent) →
      ent.ad.required = true →
      (∀ a ∈ node.attrList, (a.pfx == some "xmlns" || a.nm == "xmlns") = true ∨
        jsReplaceFirst a.nm (showJs a.pfx ++ ":") ≠ nm) →
      parseXMLElement env (fuel + 1) t node hp ≠ .ok r) := by
  refine ⟨toXmlObject_mapreq rf env n h id nsd, serializeAttrs_skips_nil clsName e es ps elem, ?_⟩
  intro hfind hreq hno hok
  have hex : ent.exist = false := getAttrMap_find?_exist _ nm (nm, ent) hfind
  rw [show parseXMLElement env (fuel + 1) t node hp =
      parseStep env (parseXMLElement env fuel) t node hp from rfl] at hok
  simp only [parseStep] at hok
  cases htag : (ownLevel env t).md.tag with
  | none => rw [htag] at hok; cases hok
  | some tg =>
    rw [htag] at hok
    simp only [] at hok
    cases hal : parseAttrLoop (ownLevel env t).md.name node.attrList
        (getAttrMap (env.chainOf t)) [] with
    | error er => rw [hal, except_bind_error] at hok; cases hok
    | ok apair =>
      rw [hal, except_bind_ok] at hok
      have hstable := parseAttrLoop_find?_stable (ownLevel env t).md.name node.attrList nm
        (getAttrMap (env.chainOf t)) [] apair.1 apair.2 hno (by rw [hal])
      cases hcm : getChildMap env (env.chainOf t) with
      | error er => rw [hcm, except_bind_error] at hok; cases hok
      | ok cmap =>
        rw [hcm, except_bind_ok] at hok
        cases hcl : parseChildLoop (parseXMLElement env fuel) node.kidList cmap hp with
        | error er => rw [hcl, except_bind_error] at hok; cases hok
        | ok cpair =>
          rw [hcl, except_bind_ok] at hok
          cases hat : applyText (ownLevel env t).md.name
              (getTextValueDef (env.chainOf t)) (jsTrim node.textContent) apair.2 with
          | error er => rw [hat, except_bind_error] at hok; cases hok
          | ok ps₁ =>
            rw [hat, except_bind_ok] at hok
            cases hce : applyChildEntries (ownLevel env t).md.name cpair.1 ps₁ with
            | error er => rw [hce, except_bind_error] at hok; cases hok
            | ok ps₂ =>
              rw [hce, except_bind_ok] at hok
              cases hcr : checkRequiredAttrs (ownLevel env t).md.name apair.1 with
              | error er => rw [hcr, except_bind_error] at hok; cases hok
              | ok u =>
                have hmem : (nm, ent) ∈ apair.1 := by
                  apply List.mem_of_find?_eq_some
                  rw [hstable]
                  exact hfind
                cases u
                have := checkRequiredAttrs_ok (ownLevel env t).md.name apair.1 hcr
                  (nm, ent) hmem hreq
                rw [hex] at this
                cases this

/-- Witness for C9: the required-flag rewrite leaves a concrete serialization
unchanged; a defined binding over an absent property is skipped; and parsing
an `R` node carrying no attributes, against `c9Env`'s required attribute `a`,
cannot succeed. -/
theorem c9_witness :
    (toXmlObject (envMapAttrReq (fun _ => true) c2Env) 3
        ⟨[(0, { typeId := 0, props := [("p", .str "v")] })]⟩ 0 [] =
      toXmlObject c2Env 3 ⟨[(0, { typeId := 0, props := [("p", .str "v")] })]⟩ 0 []) ∧
    (serializeAttrs "R"
        [⟨{ prop := "a", defined := true, name := some "a", typ := some .string,
            required := true, converter := none, validator := [], ns := none,
            nsURI := none }, defaultMd⟩] [] (.el "R" none [] []) =
      serializeAttrs "R" [] [] (.el "R" none [] [])) ∧
    parseXMLElement c9Env 3 0 (.el "R" none [] []) ⟨[]⟩ ≠ .ok (1, ⟨[]⟩) := by
  refine ⟨?_, ?_, ?_⟩
  · exact (c9_required_is_parse_only (fun _ => true) c2Env 3
      ⟨[(0, { typeId := 0, props := [("p", .str "v")] })]⟩ 0 [] "R"
      ⟨{ prop := "a", defined := true, name := some "a", typ := some .string,
         required := true, converter := none, validator := [], ns := none,
         nsURI := none }, defaultMd⟩ [] [] (.el "R" none [] []) 0 2
      (.el "R" none [] []) ⟨[]⟩ "a"
      ⟨{ prop := "a", defined := true, name := some "a", typ := some .string,
         required := true, converter := none, validator := [], ns := none,
         nsURI := none }, "a", false⟩ (1, ⟨[]⟩)).1
  · exact (c9_required_is_parse_only (fun _ => true) c2Env 3
      ⟨[(0, { typeId := 0, props := [("p", .str "v")] })]⟩ 0 [] "R"
      ⟨{ prop := "a", defined := true, name := some "a", typ := some .string,
         required := true, converter := none, validator := [], ns := none,
         nsURI := none }, defaultMd⟩ [] [] (.el "R" none [] []) 0 2
      (.el "R" none [] []) ⟨[]⟩ "a"
      ⟨{ prop := "a", defined := true, name := some "a", typ := some .string,
         required := true, converter := none, validator := [], ns := none,
         nsURI := none }, "a", false⟩ (1, ⟨[]⟩)).2.1 rfl rfl
  · exact (c9_required_is_parse_only (fun _ => true) c9Env 3
      ⟨[(0, { typeId := 0, props := [("p", .str "v")] })]⟩ 0 [] "R"
      ⟨{ prop := "a", defined := true, name := some "a", typ := some .string,
         required := true, converter := none, validator := [], ns := none,
         nsURI := none }, defaultMd⟩ [] [] (.el "R" none [] []) 0 2
      (.el "R" none [] []) ⟨[]⟩ "a"
      ⟨{ prop := "a", defined := true, name := some "a", typ := some .string,
         required := true, converter := none, validator := [], ns := none,
         nsURI := none }, "a", false⟩ (1, ⟨[]⟩)).2.2 rfl rfl
      (by intro a hm; cases hm)
lemma setFirstInst_setFirstInst (l : List (Nat × InstData)) (id : Nat) (a b : InstData) :
    setFirstInst (setFirstInst l id a) id b = setFirstInst l id b := by
  induction l with
  | nil => rfl
  | cons e rest ih =>
    obtain ⟨i, d'⟩ := e
    by_cases hi : (i == id) = true
    · simp [setFirstInst, hi]
    · simp [setFirstInst, hi, ih]

lemma setFirstInst_self (l : List (Nat × InstData)) (id : Nat) (d : InstData)
    (h : (List.find? (fun pr => pr.1 == id) l).map (·.2) = some d) :
    setFirstInst l id d = l := by
  induction l with
  | nil => simp [List.find?] at h
  | cons e rest ih =>
    obtain ⟨i, d'⟩ := e
    by_cases hi : (i == id) = true
    · simp only [List.find?, hi, Option.map_some'] at h
      simp only [Option.some.injEq] at h
      simp [setFirstInst, hi, ← h]
    · simp only [List.find?, hi] at h
      simp [setFirstInst, hi, ih h]

lemma find?_setFirstInst (l : List (Nat × InstData)) (id : Nat) (d d₀ : InstData)
    (h : (List.find? (fun pr => pr.1 == id) l).map (·.2) = some d₀) :
    (List.find? (fun pr => pr.1 == id) (setFirstInst l id d)).map (·.2) = some d := by
  induction l with
  | nil => simp [List.find?] at h
  | cons e rest ih =>
    obtain ⟨i, d'⟩ := e
    by_cases hi : (i == id) = true
    · simp [setFirstInst, hi, List.find?]
    · simp only [List.find?, hi] at h
      simp [setFirstInst, hi, List.find?, ih h]

lemma Heap.get_set (h : Heap) (id : Nat) (d d₀ : InstData) (hg : h.get id = some d₀) :
    (h.set id d).get id = some d := by
  obtain ⟨l⟩ := h
  exact find?_setFirstInst l id d d₀ hg

lemma Heap.set_set (h : Heap) (id : Nat) (a b : InstData) :
    (h.set id a).set id b = h.set id b := by
  obtain ⟨l⟩ := h
  show Heap.mk (setFirstInst (setFirstInst l id a) id b) = Heap.mk (setFirstInst l id b)
  rw [setFirstInst_setFirstInst]

lemma Heap.set_self (h : Heap) (id : Nat) (d : InstData) (hg : h.get id = some d) :
    h.set id d = h := by
  obtain ⟨l⟩ := h
  show Heap.mk (setFirstInst l id d) = Heap.mk l
  rw [setFirstInst_self l id d hg]

lemma Heap.setFlag_of_get (h : Heap) (id : Nat) (b : Bool) (d : InstData)
    (hg : h.get id = some d) :
    h.setFlag id b = h.set id { d with isSerializing := b } := by
  rw [Heap.setFlag, hg]

lemma heap_roundtrip (h : Heap) (id : Nat) (d : InstData) (hg : h.get id = some d)
    (hfl : d.isSerializing = false) :
    (h.set id { d with isSerializing := true }).setFlag id false = h := by
  rw [Heap.setFlag_of_get _ id false { d with isSerializing := true }
      (Heap.get_set h id _ d hg)]
  rw [Heap.set_set]
  have hd : ({ { d with isSerializing := true } with isSerializing := false } : InstData) = d := by
    cases d
    simp_all
  rw [hd]
  exact Heap.set_self h id d hg

lemma serializeIds_heap (recurse : Heap → Nat → NsMap → (Except JsError XNode) × Heap)
    (hrec : ∀ h id nsd, (recurse h id nsd).2 = h) (ids : List Nat) :
    ∀ (h : Heap) (nsd : NsMap) (elem : XNode),
      (serializeIds recurse ids h nsd elem).2 = h := by
  induction ids with
  | nil => intro h nsd elem; rfl
  | cons cid rest ih =>
    intro h nsd elem
    have h2 := hrec h cid nsd
    cases hr : recurse h cid nsd with
    | mk e h' =>
      rw [hr] at h2
      cases e with
      | ok ce =>
        rw [show serializeIds recurse (cid :: rest) h nsd elem =
            (match recurse h cid nsd with
             | (.ok ce, h') => serializeIds recurse rest h' nsd (elem.appendChild ce)
             | (.error e, h') => (.error e, h')) from rfl, hr]
        rw [ih h' nsd (elem.appendChild ce)]
        exact h2
      | error er =>
        rw [show serializeIds recurse (cid :: rest) h nsd elem =
            (match recurse h cid nsd with
             | (.ok ce, h') => serializeIds recurse rest h' nsd (elem.appendChild ce)
             | (.error e, h') => (.error e, h')) from rfl, hr]
        exact h2

lemma serializeChildEntry_heap (clsName : String)
    (recurse : Heap → Nat → NsMap → (Except JsError XNode) × Heap)
    (hrec : ∀ h id nsd, (recurse h id nsd).2 = h) (cd : ChildDef) (ps : Props)
    (h : Heap) (nsd : NsMap) (elem : XNode) :
    (serializeChildEntry clsName recurse cd ps h nsd elem).2 = h := by
  rw [serializeChildEntry]
  cases getProp ps cd.prop with
  | undef =>
    by_cases hm : cd.minOccur = 0
    · simp [hm]
    · simp [hm]
  | list ids =>
    simp only []
    by_cases h1 : cd.maxOccur = .num 1
    · simp [h1]
    · rw [if_neg h1]
      by_cases h2 : (!maxAllows cd.maxOccur ids.length) = true
      · simp [h2]
      · rw [if_neg h2]
        by_cases h3 : (!(decide (cd.minOccur ≤ ids.length))) = true
        · simp [h3]
        · rw [if_neg h3]
          exact serializeIds_heap recurse hrec ids h nsd elem
  | emRef cid =>
    simp only []
    by_cases h1 : cd.maxOccur = .num 1
    · rw [if_pos h1]
      exact serializeIds_heap recurse hrec [cid] h nsd elem
    · simp [h1]
  | str s => rfl
  | boolean b => rfl
  | num n => rfl

lemma serializeChildren_heap (clsName : String)
    (recurse : Heap → Nat → NsMap → (Except JsError XNode) × Heap)
    (hrec : ∀ h id nsd, (recurse h id nsd).2 = h) (cds : List ChildDef) :
    ∀ (ps : Props) (h : Heap) (nsd : NsMap) (elem : XNode),
      (serializeChildren clsName recurse cds ps h nsd elem).2 = h := by
  induction cds with
  | nil => intro ps h nsd elem; rfl
  | cons cd rest ih =>
    intro ps h nsd elem
    have h2 := serializeChildEntry_heap clsName recurse hrec cd ps h nsd elem
    cases hr : serializeChildEntry clsName recurse cd ps h nsd elem with
    | mk e h' =>
      rw [hr] at h2
      cases e with
      | ok elem' =>
        rw [show serializeChildren clsName recurse (cd :: rest) ps h nsd elem =
            (match serializeChildEntry clsName recurse cd ps h nsd elem with
             | (.ok elem', h') => serializeChildren clsName recurse rest ps h' nsd elem'
             | (.error e, h') => (.error e, h')) from rfl, hr]
        rw [ih ps h' nsd elem']
        exact h2
      | error er =>
        rw [show serializeChildren clsName recurse (cd :: rest) ps h nsd elem =
            (match serializeChildEntry clsName recurse cd ps h nsd elem with
             | (.ok elem', h') => serializeChildren clsName recurse rest ps h' nsd elem'
             | (.error e, h') => (.error e, h')) from rfl, hr]
        exact h2

lemma toXmlBody_heap (env : TypeEnv)
    (recurse : Heap → Nat → NsMap → (Except JsError XNode) × Heap)
    (hrec : ∀ h id nsd, (recurse h id nsd).2 = h) (md : XMLMetadata)
    (clsName : String) (d : InstData) (h₁ : Heap) (nsd : NsMap) :
    (toXmlBody env recurse md clsName d h₁ nsd).2 = h₁ := by
  rw [toXmlBody]
  cases (if md.rawOutput then d.rawDom else none) with
  | some raw => rfl
  | none =>
    simp only []
    cases serializeAttrs clsName (getAttrList (env.chainOf d.typeId)) d.props
        (createElem md (resolveNs nsd md d.nsURI).1) with
    | error e => rfl
    | ok elem₁ =>
      simp only []
      have h2 := serializeChildren_heap clsName recurse hrec
        (getChildList (env.chainOf d.typeId)) d.props h₁
        (resolveNs nsd md d.nsURI).2 elem₁
      cases hr : serializeChildren clsName recurse (getChildList (env.chainOf d.typeId))
          d.props h₁ (resolveNs nsd md d.nsURI).2 elem₁ with
      | mk e h₂ =>
        rw [hr] at h2
        cases e with
        | error er => exact h2
        | ok elem₂ =>
          simp only []
          cases serializeText clsName (getTextValueDef (env.chainOf d.typeId))
              d.props elem₂ with
          | error e => exact h2
          | ok elem₃ => exact h2

lemma toXmlObject_heap (env : TypeEnv) :
    ∀ (fuel : Nat) (h : Heap) (id : Nat) (nsd : NsMap),
      (toXmlObject env fuel h id nsd).2 = h := by
  intro fuel
  induction fuel with
  | zero => intro h id nsd; rfl
  | succ fuel ih =>
    intro h id nsd
    rw [show toXmlObject env (fuel + 1) h id nsd =
        toXmlStep env (fun h id nsd => toXmlObject env fuel h id nsd) h id nsd from rfl]
    rw [toXmlStep]
    cases hg : h.get id with
    | none => rfl
    | some d =>
      simp only []
      by_cases hdef : (!(ownLevel env d.typeId).md.defined) = true
      · rw [if_pos hdef]
      · rw [if_neg hdef]
        by_cases hser : d.isSerializing = true
        · rw [if_pos hser]
        · rw [if_neg hser]
          simp only []
          rw [toXmlBody_heap env _ (fun h id nsd => ih h id nsd)]
          exact heap_roundtrip h id d hg (Bool.not_eq_true _ ▸ hser)
/-- Counterexample to C3's clearing clause: entering `toXmlObject` on an
instance already mid-serialization raises the circular-reference error, and
on that raising exit the flag is still set, not cleared — the guard sits
before the try/finally that releases the flag. -/
theorem c3_counterexample :
    (toXmlObject c3Env 1 c3HeapTrue 0 []).1 =
      .error (.error (circularRefMsg "A")) ∧
    ((toXmlObject c3Env 1 c3HeapTrue 0 []).2.get 0).map InstData.isSerializing =
      some true :=
  ⟨rfl, rfl⟩

/-- C3 (amended): entering `toXmlObject` on an instance whose serialization
flag is already set fails with the circular-reference error; every call
returns the heap it was given, so the flag holds its entry value on every
exit — cleared on the exits that acquired it, still set on the re-entrant
failure exit; and serializing the concrete self-containing instance `c3Heap`
fails with the circular-reference error instead of recursing unboundedly. -/
theorem c3_circular_reference (env : TypeEnv) (fuel : Nat) (h : Heap) (id : Nat)
    (nsd : NsMap) (d : InstData) (hg : h.get id = some d)
    (hdef : (ownLevel env d.typeId).md.defined = true)
    (hser : d.isSerializing = true) :
    toXmlObject env (fuel + 1) h id nsd =
      (.error (.error (circularRefMsg (ownLevel env d.typeId).clsName)), h) ∧
    (toXmlObject env fuel h id nsd).2 = h ∧
    toXmlObject c3Env 3 c3Heap 0 [] =
      (.error (.error (circularRefMsg "A")), c3Heap) := by
  refine ⟨?_, toXmlObject_heap env fuel h id nsd, rfl⟩
  rw [show toXmlObject env (fuel + 1) h id nsd =
      toXmlStep env (fun h id nsd => toXmlObject env fuel h id nsd) h id nsd from rfl]
  rw [toXmlStep, hg]
  simp only []
  simp [hdef, hser]

/-- Witness for C3: the flag-holding instance is rejected with the
circular-reference error and the heap comes back unchanged. -/
theorem c3_witness :
    toXmlObject c3Env (0 + 1) c3HeapTrue 0 [] =
      (.error (.error (circularRefMsg "A")), c3HeapTrue) ∧
    (toXmlObject c3Env 0 c3HeapTrue 0 []).2 = c3HeapTrue ∧
    toXmlObject c3Env 3 c3Heap 0 [] =
      (.error (.error (circularRefMsg "A")), c3Heap) :=
  c3_circular_reference c3Env 0 c3HeapTrue 0 []
    { typeId := 0, props := [("p", .emRef 0)], isSerializing := true } rfl rfl rfl

/-- Counterexample to C10's restoration clause: a call that enters on an
instance whose flag is set returns (raising the circular-reference error)
with the flag still true — the flag is not restored to false on this path. -/
theorem c10_counterexample :
    ((toXmlObject c10Env 1 c10HeapTrue 0 []).2.get 0).map InstData.isSerializing =
      some true ∧
    (toXmlObject c10Env 1 c10HeapTrue 0 []).1 =
      .error (.error (circularRefMsg "B")) :=
  ⟨rfl, rfl⟩

/-- C10 (amended): `toXmlObject` returns exactly the heap it was given, so
every bound property value, the namespace-URI field, and the stored source
node of every instance are unchanged, and the serialization flag holds its
entry value on exit — in particular it is false on exit whenever it was
false on entry; the failure path entered with the flag already set is the
one exit on which it is not false. -/
theorem c10_serialization_frame (env : TypeEnv) (fuel : Nat) (h : Heap) (id : Nat)
    (nsd : NsMap) (d : InstData) (hg : h.get id = some d)
    (hser : d.isSerializing = false) :
    (toXmlObject env fuel h id nsd).2 = h ∧
    ((toXmlObject env fuel h id nsd).2.get id).map InstData.props = some d.props ∧
    ((toXmlObject env fuel h id nsd).2.get id).map InstData.nsURI = some d.nsURI ∧
    ((toXmlObject env fuel h id nsd).2.get id).map InstData.rawDom = some d.rawDom ∧
    ((toXmlObject env fuel h id nsd).2.get id).map InstData.isSerializing = some false := by
  have hp := toXmlObject_heap env fuel h id nsd
  refine ⟨hp, ?_, ?_, ?_, ?_⟩ <;> rw [hp, hg] <;> simp [hser]

/-- Witness for C10: a concrete serialization hands back the entry heap with
the instance's fields intact and the flag clear. -/
theorem c10_witness :
    (toXmlObject c10Env 2 ⟨[(0, { typeId := 0, props := [("q", .str "v")] })]⟩ 0 []).2 =
      ⟨[(0, { typeId := 0, props := [("q", .str "v")] })]⟩ ∧
    ((toXmlObject c10Env 2 ⟨[(0, { typeId := 0, props := [("q", .str "v")] })]⟩ 0 []).2.get 0).map
        InstData.props = some [("q", .str "v")] ∧
    ((toXmlObject c10Env 2 ⟨[(0, { typeId := 0, props := [("q", .str "v")] })]⟩ 0 []).2.get 0).map
        InstData.nsURI = some none ∧
    ((toXmlObject c10Env 2 ⟨[(0, { typeId := 0, props := [("q", .str "v")] })]⟩ 0 []).2.get 0).map
        InstData.rawDom = some none ∧
    ((toXmlObject c10Env 2 ⟨[(0, { typeId := 0, props := [("q", .str "v")] })]⟩ 0 []).2.get 0).map
        InstData.isSerializing = some false :=
  c10_serialization_frame c10Env 2 ⟨[(0, { typeId := 0, props := [("q", .str "v")] })]⟩ 0 []
    { typeId := 0, props := [("q", .str "v")] } rfl rfl
lemma nsGet_nsSet (m : NsMap) (k v : String) : nsGet (nsSet m k v) k = some v := by
  induction m with
  | nil => simp [nsSet, nsGet, List.find?]
  | cons e rest ih =>
    obtain ⟨k', v'⟩ := e
    by_cases hk : (k' == k) = true
    · simp [nsSet, hk, nsGet, List.find?]
    · simp only [nsSet, hk, Bool.false_eq_true, if_false]
      simp only [nsGet, List.find?, hk] at ih ⊢
      exact ih

lemma namespaceURI_setAttr (n : XNode) (a : XAttr) :
    (n.setAttr a).namespaceURI = n.namespaceURI := by
  cases n <;> rfl

lemma namespaceURI_appendChild (n c : XNode) :
    (n.appendChild c).namespaceURI = n.namespaceURI := by
  cases n <;> rfl

lemma serializeAttrEntry_ns (clsName : String) (e : AttrEntry) (ps : Props)
    (elem elem' : XNode)
    (h : serializeAttrEntry clsName e ps elem = .ok elem') :
    elem'.namespaceURI = elem.namespaceURI := by
  rw [serializeAttrEntry] at h
  by_cases h1 : (!e.ad.defined) = true
  · rw [if_pos h1] at h; cases h
  · rw [if_neg h1] at h
    by_cases h2 : (getProp ps e.ad.prop).isNil = true
    · rw [if_pos h2] at h
      cases h
      rfl
    · rw [if_neg h2] at h
      cases hfv : attrFieldValue e ps with
      | error er => rw [hfv] at h; cases h
      | ok fvStr =>
        rw [hfv] at h
        simp only [] at h
        by_cases h3 : strTruthy e.ad.ns = true
        · rw [if_pos h3] at h
          by_cases h4 : (showJs e.ad.ns == "xml") = true
          · rw [if_pos h4] at h; cases h; exact namespaceURI_setAttr elem _
          · rw [if_neg h4] at h; cases h; exact namespaceURI_setAttr elem _
        · rw [if_neg h3] at h; cases h; exact namespaceURI_setAttr elem _

lemma serializeAttrs_ns (clsName : String) (es : List AttrEntry) :
    ∀ (ps : Props) (elem elem' : XNode),
      serializeAttrs clsName es ps elem = .ok elem' →
      elem'.namespaceURI = elem.namespaceURI := by
  induction es with
  | nil =>
    intro ps elem elem' h
    cases h
    rfl
  | cons e rest ih =>
    intro ps elem elem' h
    rw [show serializeAttrs clsName (e :: rest) ps elem =
        (serializeAttrEntry clsName e ps elem >>= fun el₁ =>
          serializeAttrs clsName rest ps el₁) from rfl] at h
    cases hse : serializeAttrEntry clsName e ps elem with
    | error er => rw [hse, except_bind_error] at h; cases h
    | ok el₁ =>
      rw [hse, except_bind_ok] at h
      rw [ih ps el₁ elem' h]
      exact serializeAttrEntry_ns clsName e ps elem el₁ hse

lemma serializeIds_ns (recurse : Heap → Nat → NsMap → (Except JsError XNode) × Heap)
    (ids : List Nat) :
    ∀ (h : Heap) (nsd : NsMap) (elem : XNode) (nd : XNode) (h' : Heap),
      serializeIds recurse ids h nsd elem = (.ok nd, h') →
      nd.namespaceURI = elem.namespaceURI := by
  induction ids with
  | nil =>
    intro h nsd elem nd h' hr
    simp only [serializeIds, Prod.mk.injEq, Except.ok.injEq] at hr
    rw [← hr.1]
  | cons cid rest ih =>
    intro h nsd elem nd h' hr
    rw [show serializeIds recurse (cid :: rest) h nsd elem =
        (match recurse h cid nsd with
         | (.ok ce, h₁) => serializeIds recurse rest h₁ nsd (elem.appendChild ce)
         | (.error e, h₁) => (.error e, h₁)) from rfl] at hr
    cases hc : recurse h cid nsd with
    | mk e h₁ =>
      rw [hc] at hr
      cases e with
      | error er => cases hr
      | ok ce =>
        rw [ih h₁ nsd (elem.appendChild ce) nd h' hr]
        exact namespaceURI_appendChild elem ce

lemma serializeChildEntry_ns (clsName : String)
    (recurse : Heap → Nat → NsMap → (Except JsError XNode) × Heap) (cd : ChildDef)
    (ps : Props) (h : Heap) (nsd : NsMap) (elem : XNode) (nd : XNode) (h' : Heap)
    (hr : serializeChildEntry clsName recurse cd ps h nsd elem = (.ok nd, h')) :
    nd.namespaceURI = elem.namespaceURI := by
  rw [serializeChildEntry] at hr
  cases hgp : getProp ps cd.prop with
  | undef =>
    rw [hgp] at hr
    simp only [] at hr
    by_cases hm : cd.minOccur = 0
    · rw [if_pos hm] at hr
      simp only [Prod.mk.injEq, Except.ok.injEq] at hr
      rw [← hr.1]
    · rw [if_neg hm] at hr
      simp at hr
  | list ids =>
    rw [hgp] at hr
    simp only [] at hr
    by_cases h1 : cd.maxOccur = .num 1
    · rw [if_pos h1] at hr
      simp at hr
    · rw [if_neg h1] at hr
      by_cases h2 : (!maxAllows cd.maxOccur ids.length) = true
      · rw [if_pos h2] at hr
        simp at hr
      · rw [if_neg h2] at hr
        by_cases h3 : (!(decide (cd.minOccur ≤ ids.length))) = true
        · rw [if_pos h3] at hr
          simp at hr
        · rw [if_neg h3] at hr
          exact serializeIds_ns recurse ids h nsd elem nd h' hr
  | emRef cid =>
    rw [hgp] at hr
    simp only [] at hr
    by_cases h1 : cd.maxOccur = .num 1
    · rw [if_pos h1] at hr
      exact serializeIds_ns recurse [cid] h nsd elem nd h' hr
    · rw [if_neg h1] at hr
      simp at hr
  | str s =>
    rw [hgp] at hr
    simp at hr
  | boolean b =>
    rw [hgp] at hr
    simp at hr
  | num n =>
    rw [hgp] at hr
    simp at hr

lemma serializeChildren_ns (clsName : String)
    (recurse : Heap → Nat → NsMap → (Except JsError XNode) × Heap)
    (cds : List ChildDef) :
    ∀ (ps : Props) (h : Heap) (nsd : NsMap) (elem : XNode) (nd : XNode) (h' : Heap),
      serializeChildren clsName recurse cds ps h nsd elem = (.ok nd, h') →
      nd.namespaceURI = elem.namespaceURI := by
  induction cds with
  | nil =>
    intro ps h nsd elem nd h' hr
    simp only [serializeChildren, Prod.mk.injEq, Except.ok.injEq] at hr
    rw [← hr.1]
  | cons cd rest ih =>
    intro ps h nsd elem nd h' hr
    rw [show serializeChildren clsName recurse (cd :: rest) ps h nsd elem =
        (match serializeChildEntry clsName recurse cd ps h nsd elem with
         | (.ok elem₁, h₁) => serializeChildren clsName recurse rest ps h₁ nsd elem₁
         | (.error e, h₁) => (.error e, h₁)) from rfl] at hr
    cases hc : serializeChildEntry clsName recurse cd ps h nsd elem with
    | mk e h₁ =>
      rw [hc] at hr
      cases e with
      | error er => cases hr
      | ok elem₁ =>
        rw [ih ps h₁ nsd elem₁ nd h' hr]
        exact serializeChildEntry_ns clsName recurse cd ps h nsd elem elem₁ h₁ hc

lemma serializeText_ns (clsName : String) (td : Option TextValueDef) (ps : Props)
    (elem nd : XNode) (hr : serializeText clsName td ps elem = .ok nd) :
    nd.namespaceURI = elem.namespaceURI := by
  rw [serializeText.eq_def] at hr
  cases td with
  | none => cases hr; rfl
  | some t =>
    simp only [] at hr
    cases hgp : getProp ps t.prop with
    | undef =>
      rw [hgp] at hr
      simp only [] at hr
      by_cases h1 : t.required = true
      · rw [if_pos h1] at hr
        simp at hr
      · rw [if_neg h1] at hr
        simp only [Except.ok.injEq] at hr
        rw [← hr]
    | str s =>
      rw [hgp] at hr
      simp only [Except.ok.injEq] at hr
      rw [← hr]
      exact namespaceURI_appendChild elem _
    | boolean b =>
      rw [hgp] at hr
      simp at hr
    | num n =>
      rw [hgp] at hr
      simp at hr
    | list l =>
      rw [hgp] at hr
      simp at hr
    | emRef i =>
      rw [hgp] at hr
      simp at hr

lemma createElem_ns (md : XMLMetadata) (u : Option String) :
    (createElem md u).namespaceURI = (if strTruthy u then u else none) := by
  rw [createElem]
  by_cases h : strTruthy u = true
  · rw [if_pos h, if_pos h]
    rfl
  · rw [if_neg h, if_neg h]
    rfl

lemma toXmlBody_ns (env : TypeEnv)
    (recurse : Heap → Nat → NsMap → (Except JsError XNode) × Heap)
    (md : XMLMetadata) (clsName : String) (d : InstData) (h₁ h' : Heap)
    (nsd : NsMap) (nd : XNode)
    (hraw : (if md.rawOutput then d.rawDom else none) = none)
    (hok : toXmlBody env recurse md clsName d h₁ nsd = (.ok nd, h')) :
    nd.namespaceURI = (if strTruthy (resolveNs nsd md d.nsURI).1
      then (resolveNs nsd md d.nsURI).1 else none) := by
  rw [toXmlBody, hraw] at hok
  simp only [] at hok
  cases hsa : serializeAttrs clsName (getAttrList (env.chainOf d.typeId)) d.props
      (createElem md (resolveNs nsd md d.nsURI).1) with
  | error e => rw [hsa] at hok; cases hok
  | ok elem₁ =>
    rw [hsa] at hok
    simp only [] at hok
    cases hsc : serializeChildren clsName recurse (getChildList (env.chainOf d.typeId))
        d.props h₁ (resolveNs nsd md d.nsURI).2 elem₁ with
    | mk e h₂ =>
      rw [hsc] at hok
      cases e with
      | error er => cases hok
      | ok elem₂ =>
        simp only [] at hok
        cases hst : serializeText clsName (getTextValueDef (env.chainOf d.typeId))
            d.props elem₂ with
        | error e => rw [hst] at hok; cases hok
        | ok elem₃ =>
          rw [hst] at hok
          simp only [Prod.mk.injEq, Except.ok.injEq] at hok
          rw [← hok.1]
          rw [serializeText_ns clsName _ d.props elem₂ elem₃ hst]
          rw [serializeChildren_ns clsName recurse _ d.props h₁ _ elem₁ elem₂ h₂ hsc]
          rw [serializeAttrs_ns clsName _ d.props _ elem₁ hsa]
          exact createElem_ns md (resolveNs nsd md d.nsURI).1

/-- C6: the namespace resolution law of `toXmlObject`.  The instance's own
namespace-URI override wins outright and is written into the override map
under the schema's prefix, so descendants sharing the prefix read it back;
without it, a truthy caller-supplied entry for the schema's prefix is used;
without either, the schema's own default URI; and a successfully serialized
element carries exactly the resolved URI (or none when it is not truthy).
The concrete run shows the parent's instance override propagating to its
child in place of both the child's schema default and the parent's. -/
theorem c6_namespace_resolution (nsDef : NsMap) (md : XMLMetadata)
    (instNs : Option String) (env : TypeEnv)
    (recurse : Heap → Nat → NsMap → (Except JsError XNode) × Heap)
    (clsName : String) (d : InstData) (h₁ h' : Heap) (nd : XNode) :
    (strTruthy instNs = true →
      resolveNs nsDef md instNs =
        (instNs, nsSet nsDef (if strTruthy md.ns then showJs md.ns else "*")
          (showJs instNs))) ∧
    (strTruthy instNs = true →
      nsGet (nsSet nsDef (if strTruthy md.ns then showJs md.ns else "*") (showJs instNs))
        (if strTruthy md.ns then showJs md.ns else "*") = some (showJs instNs)) ∧
    (strTruthy instNs = false →
      strTruthy (nsGet nsDef (if strTruthy md.ns then showJs md.ns else "*")) = true →
      resolveNs nsDef md instNs =
        (nsGet nsDef (if strTruthy md.ns then showJs md.ns else "*"), nsDef)) ∧
    (strTruthy instNs = false →
      strTruthy (nsGet nsDef (if strTruthy md.ns then showJs md.ns else "*")) = false →
      resolveNs nsDef md instNs = (md.nsURI, nsDef)) ∧
    ((if md.rawOutput then d.rawDom else none) = none →
      toXmlBody env recurse md clsName d h₁ nsDef = (.ok nd, h') →
      nd.namespaceURI = (if strTruthy (resolveNs nsDef md d.nsURI).1
        then (resolveNs nsDef md d.nsURI).1 else none)) ∧
    toXmlObject c6Env 3 c6Heap 0 [] =
      (.ok (.el "myns:P" (some "http://inst") []
        [.el "myns:C" (some "http://inst") [] []]), c6Heap) := by
  refine ⟨?_, ?_, ?_, ?_, ?_, ?_⟩
  · intro hi
    simp [resolveNs, hi]
  · intro hi
    exact nsGet_nsSet nsDef _ (showJs instNs)
  · intro h1 h2
    simp [resolveNs, h1, jsOr, h2]
  · intro h1 h2
    simp [resolveNs, h1, jsOr, h2]
  · intro hraw hok
    exact toXmlBody_ns env recurse md clsName d h₁ h' nsDef nd hraw hok
  · rfl

/-- Witness for C6: each precedence case evaluated on concrete inputs, the
element of a concrete body run carrying the resolved URI, and the concrete
parent-to-child propagation run. -/
theorem c6_witness :
    resolveNs [("other", "x")] { ns := some "myns", nsURI := some "http://d" }
      (some "u") = (some "u", [("other", "x"), ("myns", "u")]) ∧
    nsGet [("other", "x"), ("myns", "u")] "myns" = some "u" ∧
    resolveNs [("myns", "m")] { ns := some "myns", nsURI := some "http://d" }
      none = (some "m", [("myns", "m")]) ∧
    resolveNs [] { ns := some "myns", nsURI := some "http://d" } none =
      (some "http://d", []) ∧
    (XNode.el "B" none [] []).namespaceURI = none ∧
    toXmlObject c6Env 3 c6Heap 0 [] =
      (.ok (.el "myns:P" (some "http://inst") []
        [.el "myns:C" (some "http://inst") [] []]), c6Heap) := by
  refine ⟨?_, ?_, ?_, ?_, ?_, ?_⟩
  · exact (c6_namespace_resolution [("other", "x")]
      { ns := some "myns", nsURI := some "http://d" } (some "u") c6Env
      (fun h _ _ => (.error .outOfFuel, h)) "B" { typeId := 0, props := [] }
      ⟨[]⟩ ⟨[]⟩ (.el "B" none [] [])).1 rfl
  · exact (c6_namespace_resolution [("other", "x")]
      { ns := some "myns", nsURI := some "http://d" } (some "u") c6Env
      (fun h _ _ => (.error .outOfFuel, h)) "B" { typeId := 0, props := [] }
      ⟨[]⟩ ⟨[]⟩ (.el "B" none [] [])).2.1 rfl
  · exact (c6_namespace_resolution [("myns", "m")]
      { ns := some "myns", nsURI := some "http://d" } none c6Env
      (fun h _ _ => (.error .outOfFuel, h)) "B" { typeId := 0, props := [] }
      ⟨[]⟩ ⟨[]⟩ (.el "B" none [] [])).2.2.1 rfl rfl
  · exact (c6_namespace_resolution []
      { ns := some "myns", nsURI := some "http://d" } none c6Env
      (fun h _ _ => (.error .outOfFuel, h)) "B" { typeId := 0, props := [] }
      ⟨[]⟩ ⟨[]⟩ (.el "B" none [] [])).2.2.2.1 rfl rfl
  · exact (c6_namespace_resolution []
      { name := some "B", defined := true, tag := some "B" } none c10Env
      (fun h _ _ => (.error .outOfFuel, h)) "B" { typeId := 0, props := [] }
      ⟨[]⟩ ⟨[]⟩ (.el "B" none [] [])).2.2.2.2.1 rfl rfl
  · exact (c6_namespace_resolution []
      { name := some "B", defined := true, tag := some "B" } none c10Env
      (fun h _ _ => (.error .outOfFuel, h)) "B" { typeId := 0, props := [] }
      ⟨[]⟩ ⟨[]⟩ (.el "B" none [] [])).2.2.2.2.2
/-- C7: unknown input is skipped, never fatal.  An attribute that is not a
namespace declaration and whose prefix-stripped name has no entry in the
resolved attribute map leaves the attribute loop's behaviour exactly as if
the attribute were absent; a text node and a child element whose local tag
has no entry in the resolved child map likewise leave the child loop's
behaviour unchanged; and a node carrying only an unknown attribute and an
unknown child element parses successfully. -/
theorem c7_unknown_input_skipped (mdName : Option String) (a : XAttr)
    (rest : List XAttr) (amap : AttrMap) (ps : Props)
    (recurse : Nat → XNode → Heap → Except JsError (Nat × Heap)) (s : String)
    (kids : List XNode) (cmap : ChildMap) (h : Heap) (nm : String)
    (u : Option String) (attrs : List XAttr) (ks : List XNode) :
    ((a.pfx == some "xmlns" || a.nm == "xmlns") = false →
      List.find? (fun pr => pr.1 == jsReplaceFirst a.nm (showJs a.pfx ++ ":")) amap =
        none →
      parseAttrLoop mdName (a :: rest) amap ps = parseAttrLoop mdName rest amap ps) ∧
    (parseChildLoop recurse (.txt s :: kids) cmap h =
      parseChildLoop recurse kids cmap h) ∧
    (List.find? (fun pr => pr.1 == childLocalName nm) cmap = none →
      parseChildLoop recurse (.el nm u attrs ks :: kids) cmap h =
        parseChildLoop recurse kids cmap h) ∧
    parseXMLElement c10Env 2 0
        (.el "B" none [⟨"junk", none, "v"⟩] [.el "Zed" none [] []]) ⟨[]⟩ =
      .ok (1, ⟨[(1, ⟨0, [], none,
        some (.el "B" none [⟨"junk", none, "v"⟩] [.el "Zed" none [] []]), false⟩)]⟩) := by
  refine ⟨?_, rfl, ?_, rfl⟩
  · intro h1 h2
    rw [parseAttrLoop, if_neg (by rw [h1]; simp)]
    rw [h2]
  · intro h2
    rw [show parseChildLoop recurse (XNode.el nm u attrs ks :: kids) cmap h =
        (match List.find? (fun pr => pr.1 == childLocalName nm) cmap with
         | none => parseChildLoop recurse kids cmap h
         | some pr =>
           (recurse pr.2.cd.clazz (.el nm u attrs ks) h).bind (fun r =>
             parseChildLoop recurse kids (pushChildResult cmap (childLocalName nm) r.1)
               r.2)) from rfl]
    rw [h2]

/-- Witness for C7: the unknown attribute `junk` and the unknown child tag
`Zed` are skipped on concrete inputs and the whole parse succeeds. -/
theorem c7_witness :
    parseAttrLoop (some "B") [⟨"junk", none, "v"⟩] [] [] =
      parseAttrLoop (some "B") [] [] [] ∧
    parseChildLoop (fun _ _ _ => .error .outOfFuel) [.txt "hi"] [] ⟨[]⟩ =
      parseChildLoop (fun _ _ _ => .error .outOfFuel) [] [] ⟨[]⟩ ∧
    parseChildLoop (fun _ _ _ => .error .outOfFuel) [.el "Zed" none [] []] [] ⟨[]⟩ =
      parseChildLoop (fun _ _ _ => .error .outOfFuel) [] [] ⟨[]⟩ ∧
    parseXMLElement c10Env 2 0
        (.el "B" none [⟨"junk", none, "v"⟩] [.el "Zed" none [] []]) ⟨[]⟩ =
      .ok (1, ⟨[(1, ⟨0, [], none,
        some (.el "B" none [⟨"junk", none, "v"⟩] [.el "Zed" none [] []]), false⟩)]⟩) := by
  have hc := c7_unknown_input_skipped (some "B") ⟨"junk", none, "v"⟩ [] [] []
    (fun _ _ _ => .error .outOfFuel) "hi" [] [] ⟨[]⟩ "Zed" none [] []
  exact ⟨hc.1 rfl rfl, hc.2.1, hc.2.2.1 rfl, hc.2.2.2⟩
lemma digitChar_isDigit (d : Nat) (h : d < 10) : (digitChar d).isDigit = true := by
  interval_cases d <;> decide

lemma digitChar_toNat (d : Nat) (h : d < 10) : (digitChar d).toNat - Char.toNat '0' = d := by
  interval_cases d <;> decide

lemma natDigitsAux_val (fuel : Nat) : ∀ n, n ≤ fuel → digitsVal (natDigitsAux fuel n) = n := by
  induction fuel with
  | zero =>
    intro n h
    interval_cases n
    rfl
  | succ fuel ih =>
    intro n h
    rw [natDigitsAux]
    by_cases h0 : n = 0
    · rw [if_pos h0, h0]
      rfl
    · rw [if_neg h0]
      rw [digitsVal, ih (n / 10) (by omega)]
      omega

lemma natDigitsAux_lt (fuel : Nat) : ∀ n, ∀ d ∈ natDigitsAux fuel n, d < 10 := by
  induction fuel with
  | zero => intro n d hd; simp [natDigitsAux] at hd
  | succ fuel ih =>
    intro n d hd
    rw [natDigitsAux] at hd
    by_cases h0 : n = 0
    · rw [if_pos h0] at hd; simp at hd
    · rw [if_neg h0] at hd
      rcases List.mem_cons.mp hd with h | h
      · omega
      · exact ih (n / 10) d h

lemma natDigitsAux_len (fuel : Nat) : ∀ n k, n ≤ fuel → n < 10 ^ k →
    (natDigitsAux fuel n).length ≤ k := by
  induction fuel with
  | zero => intro n k h hk; simp [natDigitsAux]
  | succ fuel ih =>
    intro n k h hk
    rw [natDigitsAux]
    by_cases h0 : n = 0
    · simp [h0]
    · rw [if_neg h0]
      cases k with
      | zero => simp at hk; omega
      | succ k =>
        simp only [List.length_cons]
        have h2 : n / 10 < 10 ^ k := by
          refine (Nat.div_lt_iff_lt_mul (by norm_num)).mpr ?_
          rw [← pow_succ]
          exact hk
        have := ih (n / 10) k (by omega) h2
        omega

lemma digitsToNat_append (cs : List Char) (c : Char) :
    digitsToNat (cs ++ [c]) = 10 * digitsToNat cs + (c.toNat - Char.toNat '0') := by
  simp [digitsToNat, List.foldl_append]
  ring

lemma digitsToNat_rev_map (ds : List Nat) (h : ∀ d ∈ ds, d < 10) :
    digitsToNat ((ds.map digitChar).reverse) = digitsVal ds := by
  induction ds with
  | nil => rfl
  | cons d rest ih =>
    simp only [List.map_cons, List.reverse_cons]
    rw [digitsToNat_append, ih (fun x hx => h x (by simp [hx])),
      digitChar_toNat d (h d (by simp)), digitsVal]
    ring

lemma natDecString_val (n : Nat) : digitsToNat (natDecString n).data = n := by
  rw [natDecString]
  by_cases h0 : n = 0
  · rw [if_pos h0, h0]
    rfl
  · rw [if_neg h0]
    show digitsToNat ((natDigitsAux n n).map digitChar).reverse = n
    rw [digitsToNat_rev_map _ (natDigitsAux_lt n n), natDigitsAux_val n n le_rfl]

lemma natDecString_digits (n : Nat) : ∀ c ∈ (natDecString n).data, c.isDigit = true := by
  rw [natDecString]
  by_cases h0 : n = 0
  · rw [if_pos h0]
    intro c hc
    simp at hc
    rw [hc]
    decide
  · rw [if_neg h0]
    intro c hc
    have hc2 : c ∈ (natDigits n).map digitChar := by
      have : c ∈ ((natDigits n).map digitChar).reverse := hc
      simpa using this
    rcases List.mem_map.mp hc2 with ⟨d, hd, rfl⟩
    exact digitChar_isDigit d (natDigitsAux_lt n n d hd)

lemma natDecString_ne_nil (n : Nat) : (natDecString n).data ≠ [] := by
  rw [natDecString]
  by_cases h0 : n = 0
  · rw [if_pos h0]
    simp [String.data]
  · rw [if_neg h0]
    show ((natDigitsAux n n).map digitChar).reverse ≠ []
    simp only [ne_eq, List.reverse_eq_nil_iff, List.map_eq_nil_iff]
    cases n with
    | zero => exact absurd rfl h0
    | succ k =>
      rw [show natDigitsAux (k + 1) (k + 1) =
          (if k + 1 = 0 then [] else (k + 1) % 10 :: natDigitsAux k ((k + 1) / 10)) from rfl]
      rw [if_neg h0]
      simp

lemma natDecString_len (n k : Nat) (hk : 1 ≤ k) (h : n < 10 ^ k) :
    (natDecString n).length ≤ k := by
  rw [natDecString]
  by_cases h0 : n = 0
  · rw [if_pos h0]
    exact hk
  · rw [if_neg h0]
    show ((natDigitsAux n n).map digitChar).reverse.length ≤ k
    rw [List.length_reverse, List.length_map]
    exact natDigitsAux_len n n k le_rfl h
lemma padZeros_data (s : String) (k : Nat) :
    (padZeros s k).data = List.replicate (k - s.length) '0' ++ s.data := rfl

lemma padZeros_len (s : String) (k : Nat) (h : s.length ≤ k) :
    ((padZeros s k).data).length = k := by
  rw [padZeros_data]
  simp only [List.length_append, List.length_replicate]
  have : s.length = s.data.length := rfl
  omega

lemma digitsToNat_replicate_zero (j : Nat) (cs : List Char) :
    digitsToNat (List.replicate j '0' ++ cs) = digitsToNat cs := by
  induction j with
  | zero => rfl
  | succ j ih =>
    rw [show List.replicate (j + 1) '0' = '0' :: List.replicate j '0' from rfl]
    show digitsToNat ('0' :: (List.replicate j '0' ++ cs)) = digitsToNat cs
    rw [show digitsToNat ('0' :: (List.replicate j '0' ++ cs)) =
        List.foldl (fun a c => a * 10 + (c.toNat - Char.toNat '0'))
          (0 * 10 + (Char.toNat '0' - Char.toNat '0'))
          (List.replicate j '0' ++ cs) from rfl]
    exact ih

lemma padZeros_digits (s : String) (k : Nat) (h : ∀ c ∈ s.data, c.isDigit = true) :
    ∀ c ∈ (padZeros s k).data, c.isDigit = true := by
  rw [padZeros_data]
  intro c hc
  rcases List.mem_append.mp hc with h1 | h1
  · rw [List.eq_of_mem_replicate h1]
    decide
  · exact h c h1

lemma padZeros_val (s : String) (k : Nat) :
    digitsToNat (padZeros s k).data = digitsToNat s.data := by
  rw [padZeros_data, digitsToNat_replicate_zero]

lemma takeDigits_split (ds rest : List Char) (h1 : ∀ c ∈ ds, c.isDigit = true)
    (h2 : rest = [] ∨ ∃ c r, rest = c :: r ∧ c.isDigit = false) :
    takeDigits (ds ++ rest) = (ds, rest) := by
  induction ds with
  | nil =>
    rcases h2 with h | ⟨c, r, hr, hc⟩
    · subst h; rfl
    · subst hr
      simp [takeDigits, List.takeWhile, List.dropWhile, hc]
  | cons d dst ih =>
    have hd : d.isDigit = true := h1 d (by simp)
    have ih2 := ih (fun c hc => h1 c (by simp [hc]))
    have ht : (dst ++ rest).takeWhile Char.isDigit = dst := congrArg Prod.fst ih2
    have hdr : (dst ++ rest).dropWhile Char.isDigit = rest := congrArg Prod.snd ih2
    show ((d :: (dst ++ rest)).takeWhile Char.isDigit,
      (d :: (dst ++ rest)).dropWhile Char.isDigit) = (d :: dst, rest)
    rw [List.takeWhile_cons, List.dropWhile_cons]
    simp [hd, ht, hdr]

lemma digit_beq_false (c o : Char) (h : c.isDigit = true) (ho : o.isDigit = false) :
    (c == o) = false := by
  by_cases he : c = o
  · subst he
    rw [h] at ho
    cases ho
  · simp [he]

lemma digit_not_space (c : Char) (h : c.isDigit = true) : isJsSpace c = false := by
  rw [isJsSpace]
  rw [digit_beq_false c ' ' h (by decide), digit_beq_false c '\t' h (by decide),
    digit_beq_false c '\n' h (by decide), digit_beq_false c '\r' h (by decide),
    digit_beq_false c '\x0b' h (by decide), digit_beq_false c '\x0c' h (by decide)]
  rfl

lemma dropWhile_nospace (c : Char) (r : List Char) (h : isJsSpace c = false) :
    (c :: r).dropWhile isJsSpace = c :: r := by
  simp [List.dropWhile, h]

lemma splitSign_no_sign (c : Char) (r : List Char) (h1 : (c == '-') = false)
    (h2 : (c == '+') = false) : splitSign (c :: r) = (false, c :: r) := by
  unfold splitSign
  split <;> simp_all

lemma splitSign_digit (c : Char) (r : List Char) (h : c.isDigit = true) :
    splitSign (c :: r) = (false, c :: r) :=
  splitSign_no_sign c r (digit_beq_false c '-' h (by decide))
    (digit_beq_false c '+' h (by decide))

lemma startsWith_inf_false (c : Char) (r : List Char) (h : c.isDigit = true) :
    listStartsWith (c :: r) "Infinity".data = false := by
  have he : listStartsWith (c :: r) "Infinity".data =
      ((c == 'I') && listStartsWith r "nfinity".data) := rfl
  rw [he, digit_beq_false c 'I' h (by decide)]
  rfl

lemma stripTens_stuck (a : Int) (ha : a % 10 ≠ 0) (fuel : Nat) (e : Int) :
    stripTens fuel a e = (a, e) := by
  cases fuel with
  | zero => rfl
  | succ f => simp [stripTens, ha]

lemma stripTens_pow (a : Int) (ha : a % 10 ≠ 0) :
    ∀ (k fuel : Nat) (e : Int), k ≤ fuel →
      stripTens fuel (a * 10 ^ k) e = (a, e + k) := by
  intro k
  induction k with
  | zero =>
    intro fuel e _
    rw [show a * 10 ^ 0 = a from by ring, stripTens_stuck a ha fuel e]
    simp
  | succ k ih =>
    intro fuel e hf
    cases fuel with
    | zero => omega
    | succ f =>
      rw [stripTens]
      have hmod : a * 10 ^ (k + 1) % 10 = 0 := by
        rw [show a * 10 ^ (k + 1) = a * 10 ^ k * 10 from by ring]
        exact Int.mul_emod_left _ _
      rw [if_pos hmod]
      have hdiv : a * 10 ^ (k + 1) / 10 = a * 10 ^ k := by
        rw [show a * 10 ^ (k + 1) = a * 10 ^ k * 10 from by ring]
        exact Int.mul_ediv_cancel _ (by norm_num)
      rw [hdiv, ih f (e + 1) (by omega)]
      have : e + 1 + (k : Int) = e + ((k : Nat) + 1 : Nat) := by push_cast; ring
      rw [this]

lemma emod_ten_ne_zero (m : Int) (hnd : ¬ (10 : Int) ∣ m) : m % 10 ≠ 0 :=
  fun h => hnd (Int.dvd_of_emod_eq_zero h)

lemma mkFin_of_norm_pow (m : Int) (k : Nat) (hm : m ≠ 0) (hnd : ¬ (10 : Int) ∣ m) :
    mkFin (m * 10 ^ k) 0 = .fin m k := by
  rw [mkFin]
  have h0 : ¬ m * 10 ^ k = 0 := by
    intro h
    rcases mul_eq_zero.mp h with h | h
    · exact hm h
    · exact absurd h (by positivity)
  rw [if_neg h0]
  have hfuel : k ≤ (m * 10 ^ k).natAbs := by
    rw [Int.natAbs_mul]
    have h1 : (10 ^ k : Int).natAbs = 10 ^ k := by
      rw [show (10 ^ k : Int) = ((10 ^ k : Nat) : Int) from by push_cast; ring]
      exact Int.natAbs_ofNat _
    rw [h1]
    have h2 : 1 ≤ m.natAbs := by omega
    have h3 : k < 10 ^ k := Nat.lt_pow_self (by norm_num) k
    calc k ≤ 10 ^ k := le_of_lt h3
    _ = 1 * 10 ^ k := by ring
    _ ≤ m.natAbs * 10 ^ k := Nat.mul_le_mul_right _ h2
  show JSNumber.fin (stripTens (m * 10 ^ k).natAbs (m * 10 ^ k) 0).1
      (stripTens (m * 10 ^ k).natAbs (m * 10 ^ k) 0).2 = JSNumber.fin m k
  rw [stripTens_pow m (emod_ten_ne_zero m hnd) k _ 0 hfuel]
  simp

lemma mkFin_of_norm_neg (m : Int) (k : Nat) (hm : m ≠ 0) (hnd : ¬ (10 : Int) ∣ m)
    (hk : 1 ≤ k) :
    mkFin m (-(k : Int)) = .fin m (Int.negSucc (k - 1)) := by
  rw [mkFin, if_neg hm]
  show JSNumber.fin (stripTens m.natAbs m (-(k : Int))).1
      (stripTens m.natAbs m (-(k : Int))).2 = JSNumber.fin m (Int.negSucc (k - 1))
  rw [stripTens_stuck m (emod_ten_ne_zero m hnd) m.natAbs _]
  congr 1
  rw [Int.negSucc_eq]
  push_cast
  omega
/-- The normalization invariant on JavaScript number values: finite values
carry their unique normalized representation. -/
def normNum : JSNumber → Prop
  | .fin m e => IsNormNum m e
  | _ => True

lemma parseFloatAfterSign_int (neg : Bool) (c : Char) (r : List Char)
    (h1 : ∀ x ∈ c :: r, x.isDigit = true) :
    parseFloatAfterSign neg (c :: r) =
      mkFin (if neg then -(digitsToNat (c :: r) : Int) else (digitsToNat (c :: r) : Int))
        0 := by
  have hinf := startsWith_inf_false c r (h1 c (by simp))
  have ht := takeDigits_split (c :: r) [] h1 (Or.inl rfl)
  rw [List.append_nil] at ht
  unfold parseFloatAfterSign
  rw [hinf]
  simp only [Bool.false_eq_true, if_false, ht]
  simp [digitsToNat]

lemma parseFloatAfterSign_dec (neg : Bool) (c : Char) (r ps : List Char)
    (h1 : ∀ x ∈ c :: r, x.isDigit = true) (h2 : ∀ x ∈ ps, x.isDigit = true) :
    parseFloatAfterSign neg ((c :: r) ++ '.' :: ps) =
      mkFin (if neg then -((digitsToNat (c :: r) : Int) * 10 ^ ps.length + digitsToNat ps)
             else ((digitsToNat (c :: r) : Int) * 10 ^ ps.length + digitsToNat ps))
        (0 - (ps.length : Int)) := by
  have hinf := startsWith_inf_false c (r ++ '.' :: ps) (h1 c (by simp))
  have ht := takeDigits_split (c :: r) ('.' :: ps) h1 (Or.inr ⟨'.', ps, rfl, by decide⟩)
  have htp := takeDigits_split ps [] h2 (Or.inl rfl)
  rw [List.append_nil] at htp
  unfold parseFloatAfterSign
  rw [show (c :: r) ++ '.' :: ps = c :: (r ++ '.' :: ps) from rfl, hinf]
  simp only [Bool.false_eq_true, if_false]
  rw [show c :: (r ++ '.' :: ps) = (c :: r) ++ '.' :: ps from rfl, ht]
  simp only [htp]
  cases neg <;> simp

lemma parseFloat_jsToString (n : JSNumber) (h : normNum n) :
    parseFloat n.jsToString = n := by
  cases n with
  | nan => decide
  | inf => decide
  | ninf => decide
  | fin m e =>
    have hn : IsNormNum m e := h
    obtain ⟨h0, hnd⟩ := hn
    by_cases hm : m = 0
    · subst hm
      rw [h0 rfl]
      decide
    · have hnd' : ¬ (10 : Int) ∣ m := hnd hm
      cases e with
      | ofNat k =>
        have hdig := natDecString_digits (m.natAbs * 10 ^ k)
        obtain ⟨c, r, hcr⟩ :=
          List.exists_cons_of_ne_nil (natDecString_ne_nil (m.natAbs * 10 ^ k))
        have hdig2 : ∀ x ∈ c :: r, x.isDigit = true := by rw [← hcr]; exact hdig
        have hc : c.isDigit = true := hdig2 c (by simp)
        have hval : digitsToNat (c :: r) = m.natAbs * 10 ^ k := by
          rw [← hcr]
          exact natDecString_val (m.natAbs * 10 ^ k)
        by_cases hneg : m < 0
        · rw [show (JSNumber.fin m (Int.ofNat k)).jsToString =
              "-" ++ natDecString (m.natAbs * 10 ^ k) from by
            rw [JSNumber.jsToString, if_pos hneg]
            rfl]
          rw [show parseFloat ("-" ++ natDecString (m.natAbs * 10 ^ k)) =
              parseFloatAfterSign
                (splitSign (('-' :: (natDecString (m.natAbs * 10 ^ k)).data).dropWhile
                  isJsSpace)).1
                (splitSign (('-' :: (natDecString (m.natAbs * 10 ^ k)).data).dropWhile
                  isJsSpace)).2 from rfl]
          rw [dropWhile_nospace '-' _ (by decide), hcr]
          rw [show splitSign ('-' :: c :: r) = (true, c :: r) from rfl]
          show parseFloatAfterSign true (c :: r) = JSNumber.fin m (Int.ofNat k)
          rw [parseFloatAfterSign_int true c r hdig2]
          show mkFin (-(digitsToNat (c :: r) : Int)) 0 = JSNumber.fin m (Int.ofNat k)
          rw [hval]
          have hcast : -((m.natAbs * 10 ^ k : Nat) : Int) = m * 10 ^ k := by
            push_cast
            rw [abs_of_neg hneg]
            ring
          rw [hcast, mkFin_of_norm_pow m k hm hnd']
          rfl
        · rw [show (JSNumber.fin m (Int.ofNat k)).jsToString =
              natDecString (m.natAbs * 10 ^ k) from by
            rw [JSNumber.jsToString, if_neg hneg]
            rfl]
          rw [show parseFloat (natDecString (m.natAbs * 10 ^ k)) =
              parseFloatAfterSign
                (splitSign ((natDecString (m.natAbs * 10 ^ k)).data.dropWhile isJsSpace)).1
                (splitSign ((natDecString (m.natAbs * 10 ^ k)).data.dropWhile
                  isJsSpace)).2 from rfl]
          rw [hcr, dropWhile_nospace c r (digit_not_space c hc), splitSign_digit c r hc]
          show parseFloatAfterSign false (c :: r) = JSNumber.fin m (Int.ofNat k)
          rw [parseFloatAfterSign_int false c r hdig2]
          show mkFin ((digitsToNat (c :: r) : Int)) 0 = JSNumber.fin m (Int.ofNat k)
          rw [hval]
          have hcast : ((m.natAbs * 10 ^ k : Nat) : Int) = m * 10 ^ k := by
            push_cast
            rw [abs_of_nonneg (by omega : (0 : Int) ≤ m)]
          rw [hcast, mkFin_of_norm_pow m k hm hnd']
          rfl
      | negSucc k' =>
        have hk1 : 1 ≤ k' + 1 := by omega
        obtain ⟨c, r, hcr⟩ :=
          List.exists_cons_of_ne_nil (natDecString_ne_nil (m.natAbs / 10 ^ (k' + 1)))
        have hq2 : ∀ x ∈ c :: r, x.isDigit = true := by
          rw [← hcr]
          exact natDecString_digits _
        have hc : c.isDigit = true := hq2 c (by simp)
        have hqval : digitsToNat (c :: r) = m.natAbs / 10 ^ (k' + 1) := by
          rw [← hcr]
          exact natDecString_val _
        have hrlt : m.natAbs % 10 ^ (k' + 1) < 10 ^ (k' + 1) :=
          Nat.mod_lt _ (by positivity)
        have hps : ∀ x ∈ (padZeros (natDecString (m.natAbs % 10 ^ (k' + 1))) (k' + 1)).data,
            x.isDigit = true :=
          padZeros_digits _ _ (natDecString_digits _)
        have hplen : (padZeros (natDecString (m.natAbs % 10 ^ (k' + 1))) (k' + 1)).data.length
            = k' + 1 :=
          padZeros_len _ _ (natDecString_len _ _ hk1 hrlt)
        have hpval : digitsToNat
            (padZeros (natDecString (m.natAbs % 10 ^ (k' + 1))) (k' + 1)).data =
            m.natAbs % 10 ^ (k' + 1) := by
          rw [padZeros_val, natDecString_val]
        have hcore : (decCoreString m.natAbs (Int.negSucc k')).data =
            (c :: r) ++ '.' ::
              (padZeros (natDecString (m.natAbs % 10 ^ (k' + 1))) (k' + 1)).data := by
          show ((natDecString (m.natAbs / 10 ^ (k' + 1))).data ++ ['.']) ++
              (padZeros (natDecString (m.natAbs % 10 ^ (k' + 1))) (k' + 1)).data = _
          rw [hcr, List.append_assoc]
          rfl
        have hnat : m.natAbs / 10 ^ (k' + 1) * 10 ^ (k' + 1) + m.natAbs % 10 ^ (k' + 1) =
            m.natAbs := by
          have hdm := Nat.div_add_mod m.natAbs (10 ^ (k' + 1))
          rw [Nat.mul_comm (10 ^ (k' + 1)) (m.natAbs / 10 ^ (k' + 1))] at hdm
          exact hdm
        have hm0 : (digitsToNat (c :: r) : Int) *
            10 ^ (padZeros (natDecString (m.natAbs % 10 ^ (k' + 1))) (k' + 1)).data.length +
            (digitsToNat
              (padZeros (natDecString (m.natAbs % 10 ^ (k' + 1))) (k' + 1)).data : Int) =
            (m.natAbs : Int) := by
          rw [hplen, hqval, hpval]
          exact_mod_cast hnat
        by_cases hneg : m < 0
        · rw [show (JSNumber.fin m (Int.negSucc k')).jsToString =
              "-" ++ decCoreString m.natAbs (Int.negSucc k') from by
            rw [JSNumber.jsToString, if_pos hneg]]
          rw [show parseFloat ("-" ++ decCoreString m.natAbs (Int.negSucc k')) =
              parseFloatAfterSign
                (splitSign (('-' :: (decCoreString m.natAbs (Int.negSucc k')).data).dropWhile
                  isJsSpace)).1
                (splitSign (('-' :: (decCoreString m.natAbs (Int.negSucc k')).data).dropWhile
                  isJsSpace)).2 from rfl]
          rw [dropWhile_nospace '-' _ (by decide), hcore]
          rw [show splitSign ('-' :: ((c :: r) ++ '.' ::
              (padZeros (natDecString (m.natAbs % 10 ^ (k' + 1))) (k' + 1)).data)) =
              (true, (c :: r) ++ '.' ::
                (padZeros (natDecString (m.natAbs % 10 ^ (k' + 1))) (k' + 1)).data)
              from rfl]
          show parseFloatAfterSign true ((c :: r) ++ '.' ::
              (padZeros (natDecString (m.natAbs % 10 ^ (k' + 1))) (k' + 1)).data) =
            JSNumber.fin m (Int.negSucc k')
          rw [parseFloatAfterSign_dec true c r _ hq2 hps]
          show mkFin (-((digitsToNat (c :: r) : Int) *
              10 ^ (padZeros (natDecString (m.natAbs % 10 ^ (k' + 1))) (k' + 1)).data.length +
              (digitsToNat
                (padZeros (natDecString (m.natAbs % 10 ^ (k' + 1))) (k' + 1)).data : Int)))
            (0 - ((padZeros (natDecString (m.natAbs % 10 ^ (k' + 1))) (k' + 1)).data.length
              : Int)) = JSNumber.fin m (Int.negSucc k')
          rw [hm0, hplen]
          have hmeq : -(m.natAbs : Int) = m := by omega
          rw [hmeq]
          rw [show (0 : Int) - ((k' + 1 : Nat) : Int) = -(((k' + 1 : Nat) : Int)) from by
            ring]
          rw [mkFin_of_norm_neg m (k' + 1) hm hnd' hk1]
          rfl
        · rw [show (JSNumber.fin m (Int.negSucc k')).jsToString =
              decCoreString m.natAbs (Int.negSucc k') from by
            rw [JSNumber.jsToString, if_neg hneg]]
          rw [show parseFloat (decCoreString m.natAbs (Int.negSucc k')) =
              parseFloatAfterSign
                (splitSign ((decCoreString m.natAbs (Int.negSucc k')).data.dropWhile
                  isJsSpace)).1
                (splitSign ((decCoreString m.natAbs (Int.negSucc k')).data.dropWhile
                  isJsSpace)).2 from rfl]
          rw [hcore]
          rw [show ((c :: r) ++ '.' ::
              (padZeros (natDecString (m.natAbs % 10 ^ (k' + 1))) (k' + 1)).data) =
              (c :: (r ++ '.' ::
                (padZeros (natDecString (m.natAbs % 10 ^ (k' + 1))) (k' + 1)).data))
              from rfl]
          rw [dropWhile_nospace c _ (digit_not_space c hc), splitSign_digit c _ hc]
          show parseFloatAfterSign false ((c :: r) ++ '.' ::
              (padZeros (natDecString (m.natAbs % 10 ^ (k' + 1))) (k' + 1)).data) =
            JSNumber.fin m (Int.negSucc k')
          rw [parseFloatAfterSign_dec false c r _ hq2 hps]
          show mkFin ((digitsToNat (c :: r) : Int) *
              10 ^ (padZeros (natDecString (m.natAbs % 10 ^ (k' + 1))) (k' + 1)).data.length +
              (digitsToNat
                (padZeros (natDecString (m.natAbs % 10 ^ (k' + 1))) (k' + 1)).data : Int))
            (0 - ((padZeros (natDecString (m.natAbs % 10 ^ (k' + 1))) (k' + 1)).data.length
              : Int)) = JSNumber.fin m (Int.negSucc k')
          rw [hm0, hplen]
          have hmeq : (m.natAbs : Int) = m := by omega
          rw [hmeq]
          rw [show (0 : Int) - ((k' + 1 : Nat) : Int) = -(((k' + 1 : Nat) : Int)) from by
            ring]
          rw [mkFin_of_norm_neg m (k' + 1) hm hnd' hk1]
          rfl
lemma find?_setFirstInst_other (l : List (Nat × InstData)) (id i : Nat) (d : InstData)
    (hne : i ≠ id) :
    List.find? (fun pr => pr.1 == i) (setFirstInst l id d) =
      List.find? (fun pr => pr.1 == i) l := by
  induction l with
  | nil => rfl
  | cons e rest ih =>
    obtain ⟨k, dd⟩ := e
    by_cases hk : (k == id) = true
    · have hkeq : k = id := by simpa [beq_iff_eq] using hk
      subst hkeq
      rw [setFirstInst, if_pos hk]
      have hki : (k == i) = false := by simp [beq_iff_eq]; omega
      simp [List.find?, hki]
    · rw [setFirstInst, if_neg hk]
      by_cases hki : (k == i) = true
      · simp [List.find?, hki]
      · simp only [List.find?, hki] at *
        simp [hki, ih]

lemma Heap.get_set_other (h : Heap) (id i : Nat) (d : InstData) (hne : i ≠ id) :
    (h.set id d).get i = h.get i := by
  obtain ⟨l⟩ := h
  show (List.find? (fun pr => pr.1 == i) (setFirstInst l id d)).map (·.2) = _
  rw [find?_setFirstInst_other l id i d hne]
  rfl

/-- The parse-side heap only grows: every instance visible before stays. -/
def heapLe (h h' : Heap) : Prop :=
  ∀ i x, h.get i = some x → h'.get i = some x

lemma heapLe_refl (h : Heap) : heapLe h h := fun _ _ hx => hx

lemma heapLe_trans (h₁ h₂ h₃ : Heap) (a : heapLe h₁ h₂) (b : heapLe h₂ h₃) :
    heapLe h₁ h₃ := fun i x hx => b i x (a i x hx)

lemma mem_le_foldr_max (l : List (Nat × InstData)) :
    ∀ pr ∈ l, pr.1 ≤ l.foldr (fun pr a => max pr.1 a) 0 := by
  induction l with
  | nil => intro pr hpr; simp at hpr
  | cons e rest ih =>
    intro pr hpr
    rcases List.mem_cons.mp hpr with h | h
    · subst h
      simp only [List.foldr]
      omega
    · have := ih pr h
      simp only [List.foldr] at *
      omega

lemma get_key_mem (h : Heap) (i : Nat) (x : InstData) (hg : h.get i = some x) :
    (i, x) ∈ h.insts := by
  obtain ⟨l⟩ := h
  have : (List.find? (fun pr => pr.1 == i) l).map (·.2) = some x := hg
  cases hf : List.find? (fun pr => pr.1 == i) l with
  | none => rw [hf] at this; cases this
  | some pr =>
    rw [hf] at this
    have hmem := List.mem_of_find?_eq_some hf
    have hkey := List.find?_some hf
    have h1 : pr.1 = i := by simpa [beq_iff_eq] using hkey
    have h2 : pr.2 = x := by simpa using this
    have : pr = (i, x) := by
      obtain ⟨a, b⟩ := pr
      simp at h1 h2
      rw [h1, h2]
    rw [← this]
    exact hmem

lemma heapLe_alloc (h : Heap) (d : InstData) : heapLe h (h.alloc d).2 := by
  intro i x hg
  have hmem := get_key_mem h i x hg
  have hle := mem_le_foldr_max h.insts (i, x) hmem
  show (List.find? (fun pr => pr.1 == i) ((h.fresh, d) :: h.insts)).map (·.2) = some x
  have hne : (h.fresh == i) = false := by
    simp [beq_iff_eq]
    show ¬ _ = i
    have : h.fresh = h.insts.foldr (fun pr a => max pr.1 a) 0 + 1 := rfl
    omega
  simp only [List.find?, hne]
  exact hg

lemma alloc_get_self (h : Heap) (d : InstData) : (h.alloc d).2.get (h.alloc d).1 = some d := by
  show (List.find? (fun pr => pr.1 == h.fresh) ((h.fresh, d) :: h.insts)).map (·.2) = some d
  simp [List.find?]

/-- Heaps carrying the same engine data apart from the serialization flag. -/
def sameData (h h' : Heap) : Prop :=
  ∀ i, ((h.get i).map fun d => (d.typeId, d.props, d.nsURI, d.rawDom)) =
    ((h'.get i).map fun d => (d.typeId, d.props, d.nsURI, d.rawDom))

lemma sameData_refl (h : Heap) : sameData h h := fun _ => rfl

lemma sameData_symm (h h' : Heap) (hs : sameData h h') : sameData h' h :=
  fun i => (hs i).symm

lemma sameData_set_flag (h : Heap) (id : Nat) (d : InstData) (b : Bool)
    (hg : h.get id = some d) :
    sameData h (h.set id { d with isSerializing := b }) := by
  intro i
  by_cases hi : i = id
  · subst hi
    rw [hg, Heap.get_set h i _ d hg]
    simp
  · rw [Heap.get_set_other h id i _ hi]
/-- A round-trippable attribute binding: defined, converter-free,
validator-free, namespace-free, and carrying a resolved name the attribute
loop of the parser maps back to itself. -/
def goodAttrDef (md : XMLMetadata) (ad : AttrDef) : Prop :=
  ad.defined = true ∧ ad.converter = none ∧ ad.validator = [] ∧ ad.ns = none ∧
  (resolveAttrName md ad == "xmlns") = false ∧
  jsReplaceFirst (resolveAttrName md ad) (showJs (none : Option String) ++ ":") =
    resolveAttrName md ad

/-- A property value fitting its binding's declared kind; absent values are
admitted only for non-required bindings, numbers carry their normalized
representation, enum values are declared string members. -/
def attrValOk (ad : AttrDef) : PropValue → Prop
  | .undef => ad.required = false
  | .str s => ad.typ = some .string ∨
      ∃ vals, ad.typ = some (.enumTyp vals) ∧ vals.any (fun em => enumEqStr em s) = true
  | .boolean _ => ad.typ = some .boolean
  | .num n => ad.typ = some .number ∧ normNum n
  | .emRef _ => False
  | .list _ => False

/-- A round-trippable schema fragment: self-declared colon-free tag, no
namespace machinery, no raw passthrough, no ready hook, no text binding,
good attribute bindings under pairwise-distinct resolved names and
properties, child bindings referencing self-tagged classes under
pairwise-distinct tags and properties, and no attribute/child property
collisions. -/
def levelWf (env : TypeEnv) (lvl : TypeLevel) : Prop :=
  lvl.md.defined = true ∧
  (∃ tg, lvl.md.tag = some tg ∧ childLocalName tg = tg) ∧
  lvl.md.ns = none ∧ lvl.md.nsURI = none ∧ lvl.md.rawOutput = false ∧
  lvl.md.readyFunc = none ∧ lvl.md.text = none ∧
  (∀ ad ∈ lvl.md.attrs, goodAttrDef lvl.md ad) ∧
  (lvl.md.attrs.map (resolveAttrName lvl.md)).Nodup ∧
  (lvl.md.attrs.map AttrDef.prop).Nodup ∧
  (∀ cd ∈ lvl.md.children, ((ownLevel env cd.clazz).md.tag).isSome = true) ∧
  (lvl.md.children.map (fun cd => (ownLevel env cd.clazz).md.tag)).Nodup ∧
  (lvl.md.children.map ChildDef.prop).Nodup ∧
  (∀ cd ∈ lvl.md.children, ∀ ad ∈ lvl.md.attrs, cd.prop ≠ ad.prop)

/-- A round-trippable type: a single-level prototype chain carrying a
round-trippable fragment. -/
def typeWf (env : TypeEnv) (t : Nat) : Prop :=
  env.chainOf t = [ownLevel env t] ∧ levelWf env (ownLevel env t)

/-- A round-trippable instance, to the given structural depth: its type is
round-trippable, every attribute property value fits its binding, and every
child property value fits its binding's cardinality and recursively holds
round-trippable instances of the referenced class. -/
def instWf (env : TypeEnv) (h : Heap) : Nat → Nat → Prop
  | 0, _ => False
  | fuel + 1, id =>
    ∃ d, h.get id = some d ∧ d.nsURI = none ∧ typeWf env d.typeId ∧
      (∀ ad ∈ (ownLevel env d.typeId).md.attrs, attrValOk ad (getProp d.props ad.prop)) ∧
      (∀ cd ∈ (ownLevel env d.typeId).md.children,
        (getProp d.props cd.prop = .undef ∧ cd.minOccur = 0) ∨
        (∃ cid, getProp d.props cd.prop = .emRef cid ∧ cd.maxOccur = .num 1 ∧
          cd.minOccur ≤ 1 ∧
          (∃ dc, h.get cid = some dc ∧ dc.typeId = cd.clazz) ∧
          instWf env h fuel cid) ∨
        (∃ ids, getProp d.props cd.prop = .list ids ∧ cd.maxOccur ≠ .num 1 ∧
          maxAllows cd.maxOccur ids.length = true ∧ cd.minOccur ≤ ids.length ∧
          ids ≠ [] ∧
          ∀ cid ∈ ids, (∃ dc, h.get cid = some dc ∧ dc.typeId = cd.clazz) ∧
            instWf env h fuel cid))

lemma instWf_sameData (env : TypeEnv) (h h' : Heap) (hs : sameData h h') :
    ∀ fuel id, instWf env h fuel id → instWf env h' fuel id := by
  intro fuel
  induction fuel with
  | zero => intro id hw; exact hw.elim
  | succ fuel ih =>
    intro id hw
    obtain ⟨d, hg, hns, htw, hattrs, hkids⟩ := hw
    have hsd := hs id
    rw [hg] at hsd
    cases hg' : h'.get id with
    | none => rw [hg'] at hsd; cases hsd
    | some d' =>
      rw [hg'] at hsd
      simp only [Option.map_some', Option.some.injEq, Prod.mk.injEq] at hsd
      obtain ⟨ht, hp, hn, hr⟩ := hsd
      refine ⟨d', hg', by rw [← hn]; exact hns, by rw [← ht]; exact htw, ?_, ?_⟩
      · intro ad had
        rw [← ht] at had
        rw [← hp]
        exact hattrs ad had
      · intro cd hcd
        rw [← ht] at hcd
        rcases hkids cd hcd with ⟨hu, hmn⟩ | ⟨cid, hv, hmx, hmn, ⟨dc, hgc, htc⟩, hwc⟩ |
          ⟨ids, hv, hmx, hma, hmn, hne, hall⟩
        · exact Or.inl ⟨by rw [← hp]; exact hu, hmn⟩
        · refine Or.inr (Or.inl ⟨cid, by rw [← hp]; exact hv, hmx, hmn, ?_, ih cid hwc⟩)
          have hsc := hs cid
          rw [hgc] at hsc
          cases hgc' : h'.get cid with
          | none => rw [hgc'] at hsc; cases hsc
          | some dc' =>
            rw [hgc'] at hsc
            simp only [Option.map_some', Option.some.injEq, Prod.mk.injEq] at hsc
            exact ⟨dc', rfl, by rw [← hsc.1]; exact htc⟩
        · refine Or.inr (Or.inr ⟨ids, by rw [← hp]; exact hv, hmx, hma, hmn, hne, ?_⟩)
          intro cid hcid
          obtain ⟨⟨dc, hgc, htc⟩, hwc⟩ := hall cid hcid
          refine ⟨?_, ih cid hwc⟩
          have hsc := hs cid
          rw [hgc] at hsc
          cases hgc' : h'.get cid with
          | none => rw [hgc'] at hsc; cases hsc
          | some dc' =>
            rw [hgc'] at hsc
            simp only [Option.map_some', Option.some.injEq, Prod.mk.injEq] at hsc
            exact ⟨dc', rfl, by rw [← hsc.1]; exact htc⟩
lemma contains_eq_false (l : List String) (a : String) (h : a ∉ l) :
    l.contains a = false := by
  induction l with
  | nil => rfl
  | cons b r ih =>
    show (a == b || r.contains a) = false
    have hab : (a == b) = false := by
      simp only [beq_eq_false_iff_ne, ne_eq]
      intro hh
      exact h (by simp [hh])
    rw [hab, ih (fun hm => h (by simp [hm]))]
    rfl

lemma attrListLevel_all (md : XMLMetadata) :
    ∀ (ads : List AttrDef) (seen : List String),
      (∀ ad ∈ ads, ad.prop ∉ seen) → (ads.map AttrDef.prop).Nodup →
      (attrListLevel md ads seen).1 = ads.map (fun ad => ⟨ad, md⟩) := by
  intro ads
  induction ads with
  | nil => intro seen _ _; rfl
  | cons ad rest ih =>
    intro seen hni hnd
    rw [List.map_cons] at hnd
    have hnd' := List.nodup_cons.mp hnd
    rw [attrListLevel]
    rw [contains_eq_false seen ad.prop (hni ad (by simp))]
    simp only [Bool.false_eq_true, if_false]
    have hrest : ∀ a ∈ rest, a.prop ∉ ad.prop :: seen := by
      intro a ha
      simp only [List.mem_cons, not_or]
      refine ⟨?_, hni a (by simp [ha])⟩
      intro he
      exact hnd'.1 (he ▸ List.mem_map_of_mem AttrDef.prop ha)
    show (⟨ad, md⟩ : AttrEntry) :: (attrListLevel md rest (ad.prop :: seen)).1 =
      List.map (fun a => (⟨a, md⟩ : AttrEntry)) (ad :: rest)
    rw [ih (ad.prop :: seen) hrest hnd'.2]
    rfl

lemma getAttrList_single (lvl : TypeLevel)
    (hnd : (lvl.md.attrs.map AttrDef.prop).Nodup) :
    getAttrList [lvl] = lvl.md.attrs.map (fun ad => ⟨ad, lvl.md⟩) := by
  show (attrListLevel lvl.md lvl.md.attrs []).1 ++
    attrListChain [] (attrListLevel lvl.md lvl.md.attrs []).2 = _
  rw [attrListLevel_all lvl.md lvl.md.attrs [] (by intro a _ hc; cases hc) hnd]
  simp [attrListChain]

lemma childListLevel_all :
    ∀ (cds : List ChildDef) (seen : List String),
      (∀ cd ∈ cds, cd.prop ∉ seen) → (cds.map ChildDef.prop).Nodup →
      (childListLevel cds seen).1 = cds := by
  intro cds
  induction cds with
  | nil => intro seen _ _; rfl
  | cons cd rest ih =>
    intro seen hni hnd
    rw [List.map_cons] at hnd
    have hnd' := List.nodup_cons.mp hnd
    rw [childListLevel]
    rw [contains_eq_false seen cd.prop (hni cd (by simp))]
    simp only [Bool.false_eq_true, if_false]
    have hrest : ∀ a ∈ rest, a.prop ∉ cd.prop :: seen := by
      intro a ha
      simp only [List.mem_cons, not_or]
      refine ⟨?_, hni a (by simp [ha])⟩
      intro he
      exact hnd'.1 (he ▸ List.mem_map_of_mem ChildDef.prop ha)
    show cd :: (childListLevel rest (cd.prop :: seen)).1 = cd :: rest
    rw [ih (cd.prop :: seen) hrest hnd'.2]

lemma getChildList_single (lvl : TypeLevel)
    (hnd : (lvl.md.children.map ChildDef.prop).Nodup) :
    getChildList [lvl] = lvl.md.children := by
  show childListChain [] (childListLevel lvl.md.children []).2 ++
    (childListLevel lvl.md.children []).1 = _
  rw [childListLevel_all lvl.md.children [] (by intro a _ hc; cases hc) hnd]
  simp [childListChain]

lemma find?_append_none {p : String × AttrMapEntry → Bool} (l₁ l₂ : List (String × AttrMapEntry))
    (h : List.find? p l₁ = none) :
    List.find? p (l₁ ++ l₂) = List.find? p l₂ := by
  induction l₁ with
  | nil => rfl
  | cons e r ih =>
    simp only [List.find?] at h ⊢
    cases hp : p e with
    | true => rw [hp] at h; cases h
    | false =>
      rw [hp] at h
      simp only [List.cons_append, List.find?, hp]
      exact ih h

lemma attrMapLevel_all (md : XMLMetadata) :
    ∀ (ads : List AttrDef) (map : AttrMap),
      (∀ ad ∈ ads,
        List.find? (fun pr => pr.1 == resolveAttrName md ad) map = none) →
      (ads.map (resolveAttrName md)).Nodup →
      attrMapLevel md ads map =
        map ++ ads.map (fun ad =>
          (resolveAttrName md ad, ⟨ad, resolveAttrName md ad, false⟩)) := by
  intro ads
  induction ads with
  | nil =>
    intro map _ _
    show map = map ++ ([] : AttrMap)
    rw [List.append_nil]
  | cons ad rest ih =>
    intro map hni hnd
    rw [List.map_cons] at hnd
    have hndr := List.nodup_cons.mp hnd
    simp only [attrMapLevel]
    rw [hni ad (by simp)]
    simp only [Option.isSome_none, Bool.false_eq_true, if_false]
    have hrest : ∀ a ∈ rest,
        List.find? (fun pr => pr.1 == resolveAttrName md a)
          (map ++ [(resolveAttrName md ad, ⟨ad, resolveAttrName md ad, false⟩)]) = none := by
      intro a ha
      rw [find?_append_none _ _ (hni a (by simp [ha]))]
      have hne : (resolveAttrName md ad == resolveAttrName md a) = false := by
        simp only [beq_eq_false_iff_ne, ne_eq]
        intro he
        exact hndr.1 (by rw [he]; exact List.mem_map_of_mem _ ha)
      simp [List.find?, hne]
    rw [ih _ hrest hndr.2]
    simp

lemma getAttrMap_single (lvl : TypeLevel)
    (hnd : (lvl.md.attrs.map (resolveAttrName lvl.md)).Nodup) :
    getAttrMap [lvl] = lvl.md.attrs.map (fun ad =>
      (resolveAttrName lvl.md ad, ⟨ad, resolveAttrName lvl.md ad, false⟩)) := by
  show attrMapChain [] (attrMapLevel lvl.md lvl.md.attrs []) = _
  rw [attrMapChain, attrMapLevel_all lvl.md lvl.md.attrs [] (by intro a _; rfl) hnd]
  rfl

/-- The tag of a child binding's referenced class, as a plain string. -/
def childTag (env : TypeEnv) (cd : ChildDef) : String :=
  showJs (ownLevel env cd.clazz).md.tag

lemma childTag_some (env : TypeEnv) (cd : ChildDef)
    (h : ((ownLevel env cd.clazz).md.tag).isSome = true) :
    (ownLevel env cd.clazz).md.tag = some (childTag env cd) := by
  rw [childTag]
  cases hc : (ownLevel env cd.clazz).md.tag with
  | none => rw [hc] at h; cases h
  | some tg => rfl

lemma find?_append_none_c {p : String × ChildMapEntry → Bool}
    (l₁ l₂ : List (String × ChildMapEntry)) (h : List.find? p l₁ = none) :
    List.find? p (l₁ ++ l₂) = List.find? p l₂ := by
  induction l₁ with
  | nil => rfl
  | cons e r ih =>
    simp only [List.find?] at h ⊢
    cases hp : p e with
    | true => rw [hp] at h; cases h
    | false =>
      rw [hp] at h
      simp only [List.cons_append, List.find?, hp]
      exact ih h

lemma childMapLevel_all (env : TypeEnv) :
    ∀ (cds : List ChildDef) (map : ChildMap),
      (∀ cd ∈ cds, ((ownLevel env cd.clazz).md.tag).isSome = true) →
      (∀ cd ∈ cds, List.find? (fun pr => pr.1 == childTag env cd) map = none) →
      (cds.map (childTag env)).Nodup →
      childMapLevel env cds map =
        .ok (map ++ cds.map (fun cd => (childTag env cd, ⟨cd, []⟩))) := by
  intro cds
  induction cds with
  | nil =>
    intro map _ _ _
    show Except.ok map = Except.ok (map ++ ([] : ChildMap))
    rw [List.append_nil]
  | cons cd rest ih =>
    intro map hts hni hnd
    rw [List.map_cons] at hnd
    have hndr := List.nodup_cons.mp hnd
    rw [childMapLevel, childTag_some env cd (hts cd (by simp))]
    simp only []
    rw [hni cd (by simp)]
    simp only [Option.isSome_none, Bool.false_eq_true, if_false]
    have hrest : ∀ a ∈ rest,
        List.find? (fun pr => pr.1 == childTag env a)
          (map ++ [(childTag env cd, ⟨cd, []⟩)]) = none := by
      intro a ha
      rw [find?_append_none_c _ _ (hni a (by simp [ha]))]
      have hne : (childTag env cd == childTag env a) = false := by
        simp only [beq_eq_false_iff_ne, ne_eq]
        intro he
        exact hndr.1 (by rw [he]; exact List.mem_map_of_mem _ ha)
      simp [List.find?, hne]
    rw [ih _ (fun a ha => hts a (by simp [ha])) hrest hndr.2]
    simp

lemma getChildMap_single (env : TypeEnv) (lvl : TypeLevel)
    (hts : ∀ cd ∈ lvl.md.children, ((ownLevel env cd.clazz).md.tag).isSome = true)
    (hnd : (lvl.md.children.map (childTag env)).Nodup) :
    getChildMap env [lvl] =
      .ok (lvl.md.children.map (fun cd => (childTag env cd, ⟨cd, []⟩))) := by
  show childMapChain env [lvl] [] = _
  rw [childMapChain]
  rw [childMapLevel_all env lvl.md.children [] hts (by intro a _; rfl) hnd]
  rw [except_bind_ok]
  rfl

lemma childTag_nodup (env : TypeEnv) (cds : List ChildDef)
    (hts : ∀ cd ∈ cds, ((ownLevel env cd.clazz).md.tag).isSome = true)
    (hnd : (cds.map (fun cd => (ownLevel env cd.clazz).md.tag)).Nodup) :
    (cds.map (childTag env)).Nodup := by
  have heq : cds.map (fun cd => (ownLevel env cd.clazz).md.tag) =
      (cds.map (childTag env)).map some := by
    rw [List.map_map]
    exact List.map_congr_left (fun cd hcd => childTag_some env cd (hts cd hcd))
  rw [heq] at hnd
  exact hnd.of_map some
/-- The attribute list `serializeAttrs` writes under round-trippable bindings:
present values stringified under their resolved names, absent values skipped. -/
def serAttrList : List AttrEntry → Props → List XAttr
  | [], _ => []
  | e :: rest, ps =>
    if (getProp ps e.ad.prop).isNil then serAttrList rest ps
    else ⟨resolveAttrName e.md e.ad, none, (getProp ps e.ad.prop).jsToString⟩ ::
      serAttrList rest ps

lemma setAttrIn_append (as : List XAttr) (a : XAttr)
    (h : ∀ b ∈ as, (b.nm == a.nm) = false) : setAttrIn as a = as ++ [a] := by
  induction as with
  | nil => rfl
  | cons b rest ih =>
    rw [setAttrIn, h b (by simp)]
    simp only [Bool.false_eq_true, if_false, List.cons_append, List.cons.injEq, true_and]
    exact ih (fun x hx => h x (by simp [hx]))

lemma serAttrList_names (es : List AttrEntry) (ps : Props) :
    ∀ a ∈ serAttrList es ps, a.nm ∈ es.map (fun e => resolveAttrName e.md e.ad) := by
  induction es with
  | nil => intro a ha; cases ha
  | cons e rest ih =>
    intro a ha
    rw [serAttrList] at ha
    by_cases hnil : (getProp ps e.ad.prop).isNil = true
    · rw [if_pos hnil] at ha
      exact List.mem_cons_of_mem _ (ih a ha)
    · rw [if_neg hnil] at ha
      rcases List.mem_cons.mp ha with h | h
      · subst h
        simp
      · exact List.mem_cons_of_mem _ (ih a h)

lemma serializeAttrs_all (clsName : String) :
    ∀ (es : List AttrEntry) (ps : Props) (nm : String) (u : Option String)
      (as : List XAttr) (ks : List XNode),
      (∀ e ∈ es, e.ad.defined = true ∧ e.ad.converter = none ∧ e.ad.ns = none) →
      (∀ e ∈ es, ∀ b ∈ as, (b.nm == resolveAttrName e.md e.ad) = false) →
      ((es.map (fun e => resolveAttrName e.md e.ad)).Nodup) →
      serializeAttrs clsName es ps (.el nm u as ks) =
        .ok (.el nm u (as ++ serAttrList es ps) ks) := by
  intro es
  induction es with
  | nil =>
    intro ps nm u as ks _ _ _
    show Except.ok (XNode.el nm u as ks) = _
    rw [serAttrList, List.append_nil]
  | cons e rest ih =>
    intro ps nm u as ks hgood hfresh hnd
    rw [List.map_cons] at hnd
    have hnd' := List.nodup_cons.mp hnd
    obtain ⟨hdef, hconv, hns⟩ := hgood e (by simp)
    rw [show serializeAttrs clsName (e :: rest) ps (.el nm u as ks) =
        (serializeAttrEntry clsName e ps (.el nm u as ks) >>= fun el₁ =>
          serializeAttrs clsName rest ps el₁) from rfl]
    rw [serializeAttrEntry]
    rw [show (!e.ad.defined) = false from by rw [hdef]; rfl]
    simp only [Bool.false_eq_true, if_false]
    by_cases hnil : (getProp ps e.ad.prop).isNil = true
    · rw [if_pos hnil, except_bind_ok]
      rw [ih ps nm u as ks (fun x hx => hgood x (by simp [hx]))
        (fun x hx => hfresh x (by simp [hx])) hnd'.2]
      rw [serAttrList, if_pos hnil]
    · rw [if_neg hnil]
      rw [show attrFieldValue e ps = .ok (getProp ps e.ad.prop).jsToString from by
        rw [attrFieldValue, hconv]]
      simp only []
      rw [show strTruthy e.ad.ns = false from by rw [hns]; rfl]
      simp only [Bool.false_eq_true, if_false, except_bind_ok]
      rw [show (XNode.el nm u as ks).setAttr
          ⟨resolveAttrName e.md e.ad, none, (getProp ps e.ad.prop).jsToString⟩ =
          .el nm u (setAttrIn as
            ⟨resolveAttrName e.md e.ad, none, (getProp ps e.ad.prop).jsToString⟩) ks
          from rfl]
      rw [setAttrIn_append as _ (fun b hb => hfresh e (by simp) b hb)]
      have hfresh' : ∀ x ∈ rest, ∀ b ∈ as ++
          [(⟨resolveAttrName e.md e.ad, none, (getProp ps e.ad.prop).jsToString⟩ : XAttr)],
          (b.nm == resolveAttrName x.md x.ad) = false := by
        intro x hx b hb
        rcases List.mem_append.mp hb with h | h
        · exact hfresh x (by simp [hx]) b h
        · simp only [List.mem_singleton] at h
          subst h
          simp only [beq_eq_false_iff_ne, ne_eq]
          intro he
          exact hnd'.1 (he ▸ List.mem_map_of_mem _ hx)
      rw [ih ps nm u _ ks (fun x hx => hgood x (by simp [hx])) hfresh' hnd'.2]
      rw [serAttrList, if_neg hnil]
      rw [List.append_assoc]
      rfl

lemma serializeIds_all (recurse : Heap → Nat → NsMap → (Except JsError XNode) × Heap)
    (hpres : ∀ hh cid nsdd, (recurse hh cid nsdd).2 = hh) :
    ∀ (ids : List Nat) (h : Heap) (nsd : NsMap) (nm : String) (u : Option String)
      (as : List XAttr) (ks : List XNode) (nd : XNode) (h' : Heap),
      serializeIds recurse ids h nsd (.el nm u as ks) = (.ok nd, h') →
      ∃ nodes, h' = h ∧ nd = .el nm u as (ks ++ nodes) ∧
        List.Forall₂ (fun cid nodec => recurse h cid nsd = (.ok nodec, h)) ids nodes := by
  intro ids
  induction ids with
  | nil =>
    intro h nsd nm u as ks nd h' hok
    simp only [serializeIds, Prod.mk.injEq, Except.ok.injEq] at hok
    exact ⟨[], hok.2.symm, by rw [← hok.1]; simp, List.Forall₂.nil⟩
  | cons cid rest ih =>
    intro h nsd nm u as ks nd h' hok
    rw [show serializeIds recurse (cid :: rest) h nsd (.el nm u as ks) =
        (match recurse h cid nsd with
         | (.ok ce, h₁) => serializeIds recurse rest h₁ nsd ((XNode.el nm u as ks).appendChild ce)
         | (.error e, h₁) => (.error e, h₁)) from rfl] at hok
    have hh := hpres h cid nsd
    cases hr : recurse h cid nsd with
    | mk e h₁ =>
      rw [hr] at hok hh
      cases e with
      | error er => cases hok
      | ok ce =>
        simp only [] at hok
        have hh1 : h₁ = h := hh
        rw [hh1] at hok
        rw [show (XNode.el nm u as ks).appendChild ce = .el nm u as (ks ++ [ce]) from rfl]
          at hok
        obtain ⟨nodes, he, hnd2, hfa⟩ := ih h nsd nm u as (ks ++ [ce]) nd h' hok
        refine ⟨ce :: nodes, he, ?_, List.Forall₂.cons (hh1 ▸ hr) hfa⟩
        rw [hnd2, List.append_assoc]
        rfl

lemma serializeChildren_cons_ok (clsName : String)
    (recurse : Heap → Nat → NsMap → (Except JsError XNode) × Heap) (cd : ChildDef)
    (rest : List ChildDef) (ps : Props) (h : Heap) (nsd : NsMap) (elem : XNode)
    (nd : XNode) (h' : Heap)
    (hok : serializeChildren clsName recurse (cd :: rest) ps h nsd elem = (.ok nd, h')) :
    ∃ elem₁ h₁, serializeChildEntry clsName recurse cd ps h nsd elem = (.ok elem₁, h₁) ∧
      serializeChildren clsName recurse rest ps h₁ nsd elem₁ = (.ok nd, h') := by
  rw [show serializeChildren clsName recurse (cd :: rest) ps h nsd elem =
      (match serializeChildEntry clsName recurse cd ps h nsd elem with
       | (.ok elem₁, h₁) => serializeChildren clsName recurse rest ps h₁ nsd elem₁
       | (.error e, h₁) => (.error e, h₁)) from rfl] at hok
  cases hr : serializeChildEntry clsName recurse cd ps h nsd elem with
  | mk e h₁ =>
    rw [hr] at hok
    cases e with
    | error er => cases hok
    | ok elem₁ => exact ⟨elem₁, h₁, rfl, hok⟩
/-- What one successfully serialized child binding contributed: nothing for an
absent value, the recursively produced node(s) for a reference or a list. -/
def batchOk (recurse : Heap → Nat → NsMap → (Except JsError XNode) × Heap) (h : Heap)
    (nsd : NsMap) (ps : Props) (cd : ChildDef) (batch : List XNode) : Prop :=
  (getProp ps cd.prop = .undef ∧ batch = []) ∨
  (∃ cid nodec, getProp ps cd.prop = .emRef cid ∧ batch = [nodec] ∧
    recurse h cid nsd = (.ok nodec, h)) ∨
  (∃ ids, getProp ps cd.prop = .list ids ∧
    List.Forall₂ (fun cid nodec => recurse h cid nsd = (.ok nodec, h)) ids batch)

lemma serializeChildren_all (clsName : String)
    (recurse : Heap → Nat → NsMap → (Except JsError XNode) × Heap)
    (hpres : ∀ hh cid nsdd, (recurse hh cid nsdd).2 = hh) :
    ∀ (cds : List ChildDef) (ps : Props) (h : Heap) (nsd : NsMap) (nm : String)
      (u : Option String) (as : List XAttr) (ks : List XNode) (nd : XNode) (h' : Heap),
      serializeChildren clsName recurse cds ps h nsd (.el nm u as ks) = (.ok nd, h') →
      ∃ batches, h' = h ∧ nd = .el nm u as (ks ++ batches.flatten) ∧
        List.Forall₂ (batchOk recurse h nsd ps) cds batches := by
  intro cds
  induction cds with
  | nil =>
    intro ps h nsd nm u as ks nd h' hok
    simp only [serializeChildren, Prod.mk.injEq, Except.ok.injEq] at hok
    exact ⟨[], hok.2.symm, by rw [← hok.1]; simp, List.Forall₂.nil⟩
  | cons cd rest ih =>
    intro ps h nsd nm u as ks nd h' hok
    obtain ⟨elem₁, h₁, hentry, hrest⟩ :=
      serializeChildren_cons_ok clsName recurse cd rest ps h nsd _ nd h' hok
    have hh1 : h₁ = h := by
      have := serializeChildEntry_heap clsName recurse hpres cd ps h nsd (.el nm u as ks)
      rw [hentry] at this
      exact this
    rw [hh1] at hentry hrest
    rw [serializeChildEntry] at hentry
    cases hgp : getProp ps cd.prop with
    | undef =>
      rw [hgp] at hentry
      simp only [] at hentry
      by_cases hm : cd.minOccur = 0
      · rw [if_pos hm] at hentry
        simp only [Prod.mk.injEq, Except.ok.injEq] at hentry
        rw [← hentry.1] at hrest
        obtain ⟨batches, he, hnd2, hfa⟩ := ih ps h nsd nm u as ks nd h' hrest
        exact ⟨[] :: batches, he, by rw [hnd2]; simp,
          List.Forall₂.cons (Or.inl ⟨hgp, rfl⟩) hfa⟩
      · rw [if_neg hm] at hentry
        cases hentry
    | emRef cid =>
      rw [hgp] at hentry
      simp only [] at hentry
      by_cases h1 : cd.maxOccur = .num 1
      · rw [if_pos h1] at hentry
        obtain ⟨nodes, he2, hel, hfa1⟩ :=
          serializeIds_all recurse hpres [cid] h nsd nm u as ks elem₁ h hentry
        cases hfa1 with
        | cons hrec hnil =>
          cases hnil
          rw [hel] at hrest
          obtain ⟨batches, he, hnd2, hfa⟩ := ih ps h nsd nm u as _ nd h' hrest
          refine ⟨_ :: batches, he, ?_, List.Forall₂.cons
            (Or.inr (Or.inl ⟨cid, _, hgp, rfl, hrec⟩)) hfa⟩
          rw [hnd2]
          simp
      · rw [if_neg h1] at hentry
        cases hentry
    | list ids =>
      rw [hgp] at hentry
      simp only [] at hentry
      by_cases h1 : cd.maxOccur = .num 1
      · rw [if_pos h1] at hentry; cases hentry
      · rw [if_neg h1] at hentry
        by_cases h2 : (!maxAllows cd.maxOccur ids.length) = true
        · rw [if_pos h2] at hentry; cases hentry
        · rw [if_neg h2] at hentry
          by_cases h3 : (!(decide (cd.minOccur ≤ ids.length))) = true
          · rw [if_pos h3] at hentry; cases hentry
          · rw [if_neg h3] at hentry
            obtain ⟨nodes, he2, hel, hfa1⟩ :=
              serializeIds_all recurse hpres ids h nsd nm u as ks elem₁ h hentry
            rw [hel] at hrest
            obtain ⟨batches, he, hnd2, hfa⟩ := ih ps h nsd nm u as _ nd h' hrest
            refine ⟨nodes :: batches, he, ?_, List.Forall₂.cons
              (Or.inr (Or.inr ⟨ids, hgp, hfa1⟩)) hfa⟩
            rw [hnd2]
            simp
    | str sv =>
      rw [hgp] at hentry
      cases hentry
    | boolean bv =>
      rw [hgp] at hentry
      cases hentry
    | num nv =>
      rw [hgp] at hentry
      cases hentry
lemma getProp_setProp_self (ps : Props) (k : String) (v : PropValue) :
    getProp (setProp ps k v) k = v := by
  induction ps with
  | nil => simp [setProp, getProp, List.find?]
  | cons e rest ih =>
    obtain ⟨k', v'⟩ := e
    by_cases hk : (k' == k) = true
    · simp [setProp, hk, getProp, List.find?]
    · rw [setProp, if_neg hk]
      simp only [getProp, List.find?, hk] at ih ⊢
      exact ih

lemma getProp_setProp_other (ps : Props) (k p : String) (v : PropValue) (hne : k ≠ p) :
    getProp (setProp ps k v) p = getProp ps p := by
  induction ps with
  | nil =>
    have hb : (k == p) = false := by
      simp only [beq_eq_false_iff_ne, ne_eq]
      exact hne
    simp [setProp, getProp, List.find?, hb]
  | cons e rest ih =>
    obtain ⟨k', v'⟩ := e
    by_cases hk : (k' == k) = true
    · have hkeq : k' = k := by simpa [beq_iff_eq] using hk
      subst hkeq
      have hkp : (k' == p) = false := by
        simp only [beq_eq_false_iff_ne, ne_eq]
        exact hne
      simp [setProp, hk, getProp, List.find?, hkp]
    · rw [setProp, if_neg hk]
      by_cases hkp : (k' == p) = true
      · simp [getProp, List.find?, hkp]
      · have hkpb : (k' == p) = false := by simpa using hkp
        rw [show getProp ((k', v') :: setProp rest k v) p = getProp (setProp rest k v) p
          from by simp [getProp, List.find?, hkpb]]
        rw [show getProp ((k', v') :: rest) p = getProp rest p
          from by simp [getProp, List.find?, hkpb]]
        exact ih

lemma checkRequiredAttrs_all_ok (mdName : Option String) (amap : AttrMap)
    (h : ∀ pr ∈ amap, pr.2.exist = true ∨ pr.2.ad.required = false) :
    checkRequiredAttrs mdName amap = .ok () := by
  induction amap with
  | nil => rfl
  | cons e rest ih =>
    obtain ⟨k, ent⟩ := e
    rw [checkRequiredAttrs]
    have h1 : ent.exist = true ∨ ent.ad.required = false := h (k, ent) (by simp)
    have hcond : (ent.exist || !ent.ad.required) = true := by
      rcases h1 with h1 | h1 <;> simp [h1]
    rw [if_pos hcond]
    exact ih (fun pr hpr => h pr (by simp [hpr]))

lemma setExist_keys (amap : AttrMap) (nm : String) :
    (setExist amap nm).map Prod.fst = amap.map Prod.fst := by
  induction amap with
  | nil => rfl
  | cons e rest ih =>
    obtain ⟨k, ent⟩ := e
    by_cases hk : (k == nm) = true
    · simp [setExist, hk]
    · simp only [setExist, hk, Bool.false_eq_true, if_false, List.map_cons]
      rw [ih]

lemma setExist_mem_of_false (amap : AttrMap) (nm : String) (pr : String × AttrMapEntry)
    (hmem : pr ∈ setExist amap nm) (hex : pr.2.exist = false) : pr ∈ amap := by
  induction amap with
  | nil => cases hmem
  | cons e rest ih =>
    obtain ⟨k, ent⟩ := e
    by_cases hk : (k == nm) = true
    · rw [setExist, if_pos hk] at hmem
      rcases List.mem_cons.mp hmem with h | h
      · rw [h] at hex
        cases hex
      · exact List.mem_cons_of_mem _ h
    · rw [setExist, if_neg hk] at hmem
      rcases List.mem_cons.mp hmem with h | h
      · rw [h]
        simp
      · exact List.mem_cons_of_mem _ (ih h)

lemma mem_key_unique (l : AttrMap) (hnd : (l.map Prod.fst).Nodup)
    (pr pr' : String × AttrMapEntry) (h1 : pr ∈ l) (h2 : pr' ∈ l)
    (hk : pr.1 = pr'.1) : pr = pr' := by
  induction l with
  | nil => cases h1
  | cons e rest ih =>
    rw [List.map_cons] at hnd
    have hnd' := List.nodup_cons.mp hnd
    rcases List.mem_cons.mp h1 with ha | ha <;> rcases List.mem_cons.mp h2 with hb | hb
    · rw [ha, hb]
    · exfalso
      apply hnd'.1
      rw [← ha, hk]
      exact List.mem_map_of_mem _ hb
    · exfalso
      apply hnd'.1
      rw [← hb, ← hk]
      exact List.mem_map_of_mem _ ha
    · exact ih hnd'.2 ha hb

lemma setExist_mem_key (amap : AttrMap) (nm : String) (ent : AttrMapEntry)
    (hfind : List.find? (fun pr => pr.1 == nm) amap = some (nm, ent))
    (hnd : (amap.map Prod.fst).Nodup) :
    ∀ pr ∈ setExist amap nm, pr.1 = nm → pr = (nm, { ent with exist := true }) := by
  induction amap with
  | nil => intro pr hpr; cases hpr
  | cons e rest ih =>
    obtain ⟨k, entk⟩ := e
    rw [List.map_cons] at hnd
    have hnd' := List.nodup_cons.mp hnd
    intro pr hpr hkey
    by_cases hk : (k == nm) = true
    · have hkeq : k = nm := by simpa [beq_iff_eq] using hk
      subst hkeq
      rw [setExist, if_pos hk] at hpr
      simp only [List.find?, hk] at hfind
      simp only [Option.some.injEq] at hfind
      have hent : entk = ent := by
        have := congrArg Prod.snd hfind
        simpa using this
      rcases List.mem_cons.mp hpr with h | h
      · rw [h, hent]
      · exfalso
        apply hnd'.1
        have hx := List.mem_map_of_mem Prod.fst h
        rw [hkey] at hx
        exact hx
    · rw [setExist, if_neg hk] at hpr
      simp only [List.find?, hk] at hfind
      rcases List.mem_cons.mp hpr with h | h
      · exfalso
        have : pr.1 = k := by rw [h]
        rw [hkey] at this
        rw [this] at hk
        simp at hk
      · exact ih hfind hnd'.2 pr h hkey

lemma coerce_roundtrip (mdName : Option String) (ad : AttrDef) (nm : String) (ex : Bool)
    (v : PropValue) (hok : attrValOk ad v) (hnil : v.isNil = false)
    (hconv : ad.converter = none) :
    coerceAttrValue mdName ⟨ad, nm, ex⟩ (v.jsToString) = .ok v := by
  rw [coerceAttrValue]
  simp only []
  rw [hconv]
  cases v with
  | undef => cases hnil
  | str s =>
    rcases hok with h | ⟨vals, hty, hany⟩
    · rw [h]
      rfl
    · rw [hty]
      simp only []
      rw [show (PropValue.str s).jsToString = s from rfl, hany]
      rfl
  | boolean b =>
    rw [hok]
    cases b with
    | true => rfl
    | false => rfl
  | num n =>
    rw [hok.1]
    show Except.ok (PropValue.num (parseFloat n.jsToString)) = .ok (.num n)
    rw [parseFloat_jsToString n hok.2]
  | emRef i => exact hok.elim
  | list l => exact hok.elim
lemma parseAttrLoop_roundtrip (mdName : Option String) (md : XMLMetadata) (dps : Props) :
    ∀ (es : List AttrEntry) (amap : AttrMap) (ps : Props),
      (∀ e ∈ es, e.md = md) →
      (∀ e ∈ es, goodAttrDef md e.ad) →
      (∀ e ∈ es, attrValOk e.ad (getProp dps e.ad.prop)) →
      ((es.map (fun e => resolveAttrName md e.ad)).Nodup) →
      ((es.map (fun e => e.ad.prop)).Nodup) →
      (∀ e ∈ es, List.find? (fun pr => pr.1 == resolveAttrName md e.ad) amap =
        some (resolveAttrName md e.ad, ⟨e.ad, resolveAttrName md e.ad, false⟩)) →
      ((amap.map Prod.fst).Nodup) →
      ∃ amap' ps',
        parseAttrLoop mdName (serAttrList es dps) amap ps = .ok (amap', ps') ∧
        (∀ e ∈ es, (getProp dps e.ad.prop).isNil = false →
          getProp ps' e.ad.prop = getProp dps e.ad.prop) ∧
        (∀ p, (∀ e ∈ es, (getProp dps e.ad.prop).isNil = true ∨ e.ad.prop ≠ p) →
          getProp ps' p = getProp ps p) ∧
        (∀ pr ∈ amap', pr.2.exist = true ∨
          (pr.2.exist = false ∧ pr ∈ amap ∧
            ∀ e ∈ es, resolveAttrName md e.ad = pr.1 →
              (getProp dps e.ad.prop).isNil = true)) := by
  intro es
  induction es with
  | nil =>
    intro amap ps _ _ _ _ _ _ _
    refine ⟨amap, ps, rfl, ?_, ?_, ?_⟩
    · intro x hx; cases hx
    · intro p _; rfl
    · intro pr hpr
      by_cases hex : pr.2.exist = true
      · exact Or.inl hex
      · exact Or.inr ⟨by simpa using hex, hpr, fun x hx => (List.not_mem_nil x hx).elim⟩
  | cons e rest ih =>
    intro amap ps hmd hgood hval hnnd hpnd hfind hkeys
    rw [List.map_cons] at hnnd hpnd
    have hnnd' := List.nodup_cons.mp hnnd
    have hpnd' := List.nodup_cons.mp hpnd
    obtain ⟨hdef, hconv, hvalid, hns, hxmlns, hfield⟩ := hgood e (by simp)
    have hmde : e.md = md := hmd e (by simp)
    rw [serAttrList]
    by_cases hnil : (getProp dps e.ad.prop).isNil = true
    · rw [if_pos hnil]
      obtain ⟨amap', ps', hloop, hP1, hP2, hM⟩ := ih amap ps
        (fun x hx => hmd x (by simp [hx])) (fun x hx => hgood x (by simp [hx]))
        (fun x hx => hval x (by simp [hx])) hnnd'.2 hpnd'.2
        (fun x hx => hfind x (by simp [hx])) hkeys
      refine ⟨amap', ps', hloop, ?_, ?_, ?_⟩
      · intro x hx hnx
        rcases List.mem_cons.mp hx with hh | hh
        · rw [hh] at hnx
          rw [hnil] at hnx
          cases hnx
        · exact hP1 x hh hnx
      · intro p hp
        exact hP2 p (fun x hx => hp x (by simp [hx]))
      · intro pr hpr
        rcases hM pr hpr with h1 | ⟨h1, h2, h3⟩
        · exact Or.inl h1
        · refine Or.inr ⟨h1, h2, ?_⟩
          intro x hx hname
          rcases List.mem_cons.mp hx with hh | hh
          · rw [hh]
            exact hnil
          · exact h3 x hh hname
    · rw [if_neg hnil, hmde]
      rw [parseAttrLoop]
      rw [show ((⟨resolveAttrName md e.ad, none,
          (getProp dps e.ad.prop).jsToString⟩ : XAttr).pfx == some "xmlns" ||
          (⟨resolveAttrName md e.ad, none,
            (getProp dps e.ad.prop).jsToString⟩ : XAttr).nm == "xmlns") = false from by
        show ((none == some "xmlns") || (resolveAttrName md e.ad == "xmlns")) = false
        rw [hxmlns]
        rfl]
      simp only [Bool.false_eq_true, if_false]
      rw [show jsReplaceFirst (⟨resolveAttrName md e.ad, none,
          (getProp dps e.ad.prop).jsToString⟩ : XAttr).nm
          (showJs (⟨resolveAttrName md e.ad, none,
            (getProp dps e.ad.prop).jsToString⟩ : XAttr).pfx ++ ":") =
          resolveAttrName md e.ad from hfield]
      rw [hfind e (by simp)]
      simp only []
      rw [if_neg (show ¬((⟨e.ad, resolveAttrName md e.ad, false⟩ : AttrMapEntry).exist =
        true) from by simp)]
      rw [if_neg (show ¬((!(⟨e.ad, resolveAttrName md e.ad, false⟩ :
          AttrMapEntry).ad.defined) = true) from by
        show ¬((!e.ad.defined) = true)
        rw [hdef]
        simp)]
      rw [show coerceAttrValue mdName (⟨e.ad, resolveAttrName md e.ad, false⟩ : AttrMapEntry)
          (⟨resolveAttrName md e.ad, none,
            (getProp dps e.ad.prop).jsToString⟩ : XAttr).value =
          .ok (getProp dps e.ad.prop) from
        coerce_roundtrip mdName e.ad (resolveAttrName md e.ad) false
          (getProp dps e.ad.prop) (hval e (by simp)) (by simpa using hnil) hconv]
      rw [except_bind_ok]
      rw [show runValidators (⟨e.ad, resolveAttrName md e.ad, false⟩ :
          AttrMapEntry).ad.validator (getProp dps e.ad.prop) = .ok () from by
        show runValidators e.ad.validator (getProp dps e.ad.prop) = .ok ()
        rw [hvalid]
        rfl]
      rw [except_bind_ok]
      have hfind' : ∀ x ∈ rest,
          List.find? (fun pr => pr.1 == resolveAttrName md x.ad)
            (setExist amap (resolveAttrName md e.ad)) =
          some (resolveAttrName md x.ad, ⟨x.ad, resolveAttrName md x.ad, false⟩) := by
        intro x hx
        rw [setExist_find?_other amap (resolveAttrName md x.ad) (resolveAttrName md e.ad)
          (by
            intro he
            exact hnnd'.1 (he ▸ List.mem_map_of_mem _ hx))]
        exact hfind x (by simp [hx])
      have hkeys' : ((setExist amap (resolveAttrName md e.ad)).map Prod.fst).Nodup := by
        rw [setExist_keys]
        exact hkeys
      obtain ⟨amap', ps', hloop, hP1, hP2, hM⟩ := ih
        (setExist amap (resolveAttrName md e.ad))
        (setProp ps e.ad.prop (getProp dps e.ad.prop))
        (fun x hx => hmd x (by simp [hx])) (fun x hx => hgood x (by simp [hx]))
        (fun x hx => hval x (by simp [hx])) hnnd'.2 hpnd'.2 hfind' hkeys'
      refine ⟨amap', ps', hloop, ?_, ?_, ?_⟩
      · intro x hx hnx
        rcases List.mem_cons.mp hx with hh | hh
        · rw [hh]
          have := hP2 e.ad.prop (by
            intro y hy
            right
            intro he
            exact hpnd'.1 (he ▸ List.mem_map_of_mem _ hy))
          rw [this, getProp_setProp_self]
        · exact hP1 x hh hnx
      · intro p hp
        rcases hp e (by simp) with h1 | h1
        · exact absurd h1 hnil
        · rw [hP2 p (fun x hx => hp x (by simp [hx]))]
          exact getProp_setProp_other ps e.ad.prop p (getProp dps e.ad.prop) h1
      · intro pr hpr
        rcases hM pr hpr with h1 | ⟨h1, h2, h3⟩
        · exact Or.inl h1
        · refine Or.inr ⟨h1, setExist_mem_of_false amap _ pr h2 h1, ?_⟩
          intro x hx hname
          rcases List.mem_cons.mp hx with hh | hh
          · exfalso
            rw [hh] at hname
            have := setExist_mem_key amap (resolveAttrName md e.ad)
              ⟨e.ad, resolveAttrName md e.ad, false⟩ (hfind e (by simp)) hkeys
              pr h2 hname.symm
            rw [this] at h1
            cases h1
          · exact h3 x hh hname
/-- Agreement between a source instance (serialize-side heap) and a parsed
instance (parse-side heap), to the given depth: same type, equal attribute
property values, and child property values of the same shape holding
recursively agreeing instances. -/
def instAgree (env : TypeEnv) : Nat → Heap → Heap → Nat → Nat → Prop
  | 0, _, _, _, _ => False
  | fuel + 1, h, hp, i, j =>
    ∃ d dp, h.get i = some d ∧ hp.get j = some dp ∧ dp.typeId = d.typeId ∧
      (∀ ad ∈ (ownLevel env d.typeId).md.attrs,
        getProp dp.props ad.prop = getProp d.props ad.prop) ∧
      (∀ cd ∈ (ownLevel env d.typeId).md.children,
        (getProp d.props cd.prop = .undef ∧ getProp dp.props cd.prop = .undef) ∨
        (∃ ci cj, getProp d.props cd.prop = .emRef ci ∧
          getProp dp.props cd.prop = .emRef cj ∧ instAgree env fuel h hp ci cj) ∨
        (∃ cis cjs, getProp d.props cd.prop = .list cis ∧
          getProp dp.props cd.prop = .list cjs ∧
          List.Forall₂ (instAgree env fuel h hp) cis cjs))

lemma instAgree_mono (env : TypeEnv) :
    ∀ (fuel : Nat) (h hp hp' : Heap) (i j : Nat), heapLe hp hp' →
      instAgree env fuel h hp i j → instAgree env fuel h hp' i j := by
  intro fuel
  induction fuel with
  | zero => intro h hp hp' i j _ ha; exact ha.elim
  | succ fuel ih =>
    intro h hp hp' i j hle ha
    obtain ⟨d, dp, hg, hgp, ht, hattrs, hkids⟩ := ha
    refine ⟨d, dp, hg, hle j dp hgp, ht, hattrs, ?_⟩
    intro cd hcd
    rcases hkids cd hcd with h1 | ⟨ci, cj, h1, h2, h3⟩ | ⟨cis, cjs, h1, h2, h3⟩
    · exact Or.inl h1
    · exact Or.inr (Or.inl ⟨ci, cj, h1, h2, ih h hp hp' ci cj hle h3⟩)
    · exact Or.inr (Or.inr ⟨cis, cjs, h1, h2,
        List.Forall₂.imp (fun a b hab => ih h hp hp' a b hle hab) h3⟩)

lemma instAgree_sameData_left (env : TypeEnv) (h h' : Heap) (hs : sameData h h') :
    ∀ (fuel : Nat) (hp : Heap) (i j : Nat),
      instAgree env fuel h' hp i j → instAgree env fuel h hp i j := by
  intro fuel
  induction fuel with
  | zero => intro hp i j ha; exact ha.elim
  | succ fuel ih =>
    intro hp i j ha
    obtain ⟨d, dp, hg, hgp, ht, hattrs, hkids⟩ := ha
    have hsd := hs i
    rw [hg] at hsd
    cases hg0 : h.get i with
    | none => rw [hg0] at hsd; cases hsd
    | some d0 =>
      rw [hg0] at hsd
      simp only [Option.map_some', Option.some.injEq, Prod.mk.injEq] at hsd
      obtain ⟨ht0, hp0, _, _⟩ := hsd
      refine ⟨d0, dp, hg0, hgp, by rw [ht, ← ht0], ?_, ?_⟩
      · intro ad had
        rw [ht0] at had
        rw [hp0]
        exact hattrs ad had
      · intro cd hcd
        rw [ht0] at hcd
        rcases hkids cd hcd with ⟨h1, h2⟩ | ⟨ci, cj, h1, h2, h3⟩ | ⟨cis, cjs, h1, h2, h3⟩
        · exact Or.inl ⟨by rw [hp0]; exact h1, h2⟩
        · exact Or.inr (Or.inl ⟨ci, cj, by rw [hp0]; exact h1, h2, ih hp ci cj h3⟩)
        · exact Or.inr (Or.inr ⟨cis, cjs, by rw [hp0]; exact h1, h2,
            List.Forall₂.imp (fun a b hab => ih hp a b hab) h3⟩)

lemma forall₂_compose {α β γ : Type} (P : α → β → Prop) (Q : β → γ → Prop)
    (R : α → γ → Prop) (hc : ∀ a b c, P a b → Q b c → R a c) :
    ∀ (as' : List α) (bs : List β) (cs : List γ),
      List.Forall₂ P as' bs → List.Forall₂ Q bs cs → List.Forall₂ R as' cs := by
  intro as'
  induction as' with
  | nil =>
    intro bs cs h1 h2
    cases h1
    cases h2
    exact List.Forall₂.nil
  | cons a rest ih =>
    intro bs cs h1 h2
    cases h1 with
    | cons hab h1' =>
      cases h2 with
      | cons hbc h2' =>
        exact List.Forall₂.cons (hc _ _ _ hab hbc) (ih _ _ h1' h2')
lemma pushChildResult_append (l₁ l₂ : ChildMap) (tg : String) (cid : Nat)
    (h : List.find? (fun pr => pr.1 == tg) l₁ = none) :
    pushChildResult (l₁ ++ l₂) tg cid = l₁ ++ pushChildResult l₂ tg cid := by
  induction l₁ with
  | nil => rfl
  | cons e rest ih =>
    obtain ⟨k, ent⟩ := e
    simp only [List.find?] at h
    cases hk : (k == tg) with
    | true => rw [hk] at h; cases h
    | false =>
      rw [hk] at h
      have h' : List.find? (fun pr => pr.1 == tg) rest = none := h
      simp only [List.cons_append, pushChildResult, hk, Bool.false_eq_true, if_false]
      show (k, ent) :: pushChildResult (rest ++ l₂) tg cid =
        (k, ent) :: (rest ++ pushChildResult l₂ tg cid)
      rw [ih h']

lemma parseChildLoop_batch (precurse : Nat → XNode → Heap → Except JsError (Nat × Heap))
    (env : TypeEnv) (A : Nat → Nat → Heap → Prop)
    (hAmono : ∀ c p hp hp', A c p hp → heapLe hp hp' → A c p hp') (cd : ChildDef) :
    ∀ (cids : List Nat) (batch : List XNode),
      List.Forall₂ (fun cid nodec =>
        (∃ anm aas aks, nodec = .el anm none aas aks ∧
          childLocalName anm = childTag env cd) ∧
        (∀ hp : Heap, ∃ pid hp', precurse cd.clazz nodec hp = .ok (pid, hp') ∧
          heapLe hp hp' ∧ A cid pid hp')) cids batch →
      ∀ (restNodes : List XNode) (pre post : ChildMap) (acc : List Nat) (hp : Heap),
        List.find? (fun pr => pr.1 == childTag env cd) pre = none →
        ∃ pids hp',
          parseChildLoop precurse (batch ++ restNodes)
            (pre ++ (childTag env cd, ⟨cd, acc⟩) :: post) hp =
          parseChildLoop precurse restNodes
            (pre ++ (childTag env cd, ⟨cd, acc ++ pids⟩) :: post) hp' ∧
          heapLe hp hp' ∧
          List.Forall₂ (fun cid pid => A cid pid hp') cids pids := by
  intro cids
  induction cids with
  | nil =>
    intro batch hfa restNodes pre post acc hp hpre
    cases hfa
    exact ⟨[], hp, by rw [List.append_nil, List.nil_append], heapLe_refl hp,
      List.Forall₂.nil⟩
  | cons cid crest ih =>
    intro batch hfa restNodes pre post acc hp hpre
    cases hfa with
    | cons hhead htail =>
      obtain ⟨⟨anm, aas, aks, hnode, hlocal⟩, hparse⟩ := hhead
      obtain ⟨pid, hp₁, hpok, hple, hA⟩ := hparse hp
      rename_i nodec brest
      subst hnode
      rw [show ((XNode.el anm none aas aks :: brest) ++ restNodes) =
          (XNode.el anm none aas aks :: (brest ++ restNodes)) from rfl]
      rw [parseChildLoop]
      rw [show List.find? (fun pr => pr.1 == childLocalName anm)
          (pre ++ (childTag env cd, ⟨cd, acc⟩) :: post) =
          some (childTag env cd, ⟨cd, acc⟩) from by
        rw [hlocal, find?_append_none_c _ _ hpre]
        simp [List.find?]]
      simp only []
      rw [hpok, except_bind_ok]
      rw [show pushChildResult (pre ++ (childTag env cd, ⟨cd, acc⟩) :: post)
          (childLocalName anm) pid =
          pre ++ (childTag env cd, ⟨cd, acc ++ [pid]⟩) :: post from by
        rw [hlocal, pushChildResult_append _ _ _ _ hpre]
        rw [show pushChildResult ((childTag env cd, (⟨cd, acc⟩ : ChildMapEntry)) :: post)
            (childTag env cd) pid =
            (childTag env cd, ⟨cd, acc ++ [pid]⟩) :: post from by
          rw [pushChildResult]
          rw [if_pos (by simp)]]]
      obtain ⟨pids, hp', hloop, hle2, hfa2⟩ :=
        ih brest htail restNodes pre post (acc ++ [pid]) hp₁ hpre
      refine ⟨pid :: pids, hp', ?_, heapLe_trans hp hp₁ hp' hple hle2, ?_⟩
      · rw [hloop, List.append_assoc]
        rfl
      · exact List.Forall₂.cons (hAmono cid pid hp₁ hp' hA hle2) hfa2

lemma parseChildLoop_all (precurse : Nat → XNode → Heap → Except JsError (Nat × Heap))
    (env : TypeEnv) (A : Nat → Nat → Heap → Prop)
    (hAmono : ∀ c p hp hp', A c p hp → heapLe hp hp' → A c p hp') :
    ∀ (cds : List ChildDef) (cidss : List (List Nat)) (batches : List (List XNode)),
      List.Forall₂ (fun cd pr =>
        List.Forall₂ (fun cid nodec =>
          (∃ anm aas aks, nodec = .el anm none aas aks ∧
            childLocalName anm = childTag env cd) ∧
          (∀ hp : Heap, ∃ pid hp', precurse cd.clazz nodec hp = .ok (pid, hp') ∧
            heapLe hp hp' ∧ A cid pid hp')) pr.1 pr.2) cds (cidss.zip batches) →
      cidss.length = cds.length → batches.length = cds.length →
      ((cds.map (childTag env)).Nodup) →
      ∀ (pre : ChildMap) (hp : Heap),
        (∀ cd ∈ cds, List.find? (fun pr => pr.1 == childTag env cd) pre = none) →
        ∃ pidss hp',
          parseChildLoop precurse batches.flatten
            (pre ++ cds.map (fun cd => (childTag env cd, ⟨cd, []⟩))) hp =
          .ok (pre ++ List.zipWith (fun cd pids => (childTag env cd, ⟨cd, pids⟩)) cds pidss,
            hp') ∧
          heapLe hp hp' ∧ pidss.length = cds.length ∧
          List.Forall₂ (fun cpr pids =>
            List.Forall₂ (fun cid pid => A cid pid hp') cpr.2 pids)
            (cds.zip cidss) pidss := by
  intro cds
  induction cds with
  | nil =>
    intro cidss batches _ hlen1 hlen2 _ pre hp _
    have hc : cidss = [] := List.length_eq_zero.mp hlen1
    have hb : batches = [] := List.length_eq_zero.mp hlen2
    subst hc hb
    exact ⟨[], hp, rfl, heapLe_refl hp, rfl, List.Forall₂.nil⟩
  | cons cd crest ih =>
    intro cidss batches hfa hlen1 hlen2 htnd pre hp hpre
    rw [List.map_cons] at htnd
    have htnd' := List.nodup_cons.mp htnd
    cases cidss with
    | nil => cases hlen1
    | cons cids cidrest =>
      cases batches with
      | nil => cases hlen2
      | cons batch brest =>
        rw [show (cids :: cidrest).zip (batch :: brest) =
            (cids, batch) :: cidrest.zip brest from rfl] at hfa
        cases hfa with
        | cons hhead htail =>
          rw [show (batch :: brest).flatten = batch ++ brest.flatten from rfl]
          rw [List.map_cons]
          obtain ⟨pids, hp₁, hstep, hle1, hfaA⟩ :=
            parseChildLoop_batch precurse env A hAmono cd cids batch hhead
              brest.flatten pre (crest.map (fun c => (childTag env c, ⟨c, []⟩))) [] hp
              (hpre cd (by simp))
          rw [List.nil_append] at hstep
          have hpre' : ∀ c ∈ crest, List.find? (fun pr => pr.1 == childTag env c)
              (pre ++ [(childTag env cd, (⟨cd, pids⟩ : ChildMapEntry))]) = none := by
            intro c hc
            rw [find?_append_none_c _ _ (hpre c (by simp [hc]))]
            have hne : (childTag env cd == childTag env c) = false := by
              simp only [beq_eq_false_iff_ne, ne_eq]
              intro he
              exact htnd'.1 (he ▸ List.mem_map_of_mem _ hc)
            simp [List.find?, hne]
          obtain ⟨pidss', hp', hloop, hle2, hlen', hfaRest⟩ :=
            ih cidrest brest htail (by simpa using hlen1) (by simpa using hlen2)
              htnd'.2 (pre ++ [(childTag env cd, ⟨cd, pids⟩)]) hp₁ hpre'
          refine ⟨pids :: pidss', hp', ?_, heapLe_trans hp hp₁ hp' hle1 hle2,
            by simpa using hlen', ?_⟩
          · rw [hstep]
            rw [show pre ++ (childTag env cd, (⟨cd, pids⟩ : ChildMapEntry)) ::
                crest.map (fun c => (childTag env c, ⟨c, []⟩)) =
                (pre ++ [(childTag env cd, ⟨cd, pids⟩)]) ++
                  crest.map (fun c => (childTag env c, ⟨c, []⟩)) from by
              rw [List.append_assoc]
              rfl]
            rw [hloop]
            rw [show (pre ++ [(childTag env cd, (⟨cd, pids⟩ : ChildMapEntry))]) ++
                List.zipWith (fun c ps => (childTag env c, (⟨c, ps⟩ : ChildMapEntry)))
                  crest pidss' =
                pre ++ List.zipWith (fun c ps => (childTag env c, (⟨c, ps⟩ : ChildMapEntry)))
                  (cd :: crest) (pids :: pidss') from by
              rw [List.append_assoc]
              rfl]
          · rw [show (cd :: crest).zip (cids :: cidrest) =
                (cd, cids) :: crest.zip cidrest from rfl]
            exact List.Forall₂.cons
              (List.Forall₂.imp (fun a b hab => hAmono a b hp₁ hp' hab hle2) hfaA)
              hfaRest

lemma forall₂_imp_mem {α β : Type} (R S : α → β → Prop) :
    ∀ (l₁ : List α) (l₂ : List β), List.Forall₂ R l₁ l₂ →
      (∀ a ∈ l₁, ∀ b, R a b → S a b) → List.Forall₂ S l₁ l₂ := by
  intro l₁
  induction l₁ with
  | nil =>
    intro l₂ h _
    cases h
    exact List.Forall₂.nil
  | cons a rest ih =>
    intro l₂ h himp
    cases h with
    | cons hab htail =>
      exact List.Forall₂.cons (himp a (by simp) _ hab)
        (ih _ htail (fun x hx b hxb => himp x (by simp [hx]) b hxb))

lemma applyChildEntry_eval (mdName : Option String) (tg : String) (cd : ChildDef)
    (pids : List Nat) (ps : Props) :
    applyChildEntry mdName tg ⟨cd, pids⟩ ps =
      (if pids.length < cd.minOccur then
        .error (.error (tooFewChildMsg mdName tg pids.length cd.minOccur))
      else match cd.maxOccur with
        | .num mx =>
          if pids.length > mx then
            .error (.error (tooManyChildMsg mdName tg pids.length mx))
          else .ok (assignChildProp ⟨cd, pids⟩ ps)
        | .unlimited => .ok (assignChildProp ⟨cd, pids⟩ ps)) := rfl

lemma assignChildProp_eval (cd : ChildDef) (pids : List Nat) (ps : Props) :
    assignChildProp ⟨cd, pids⟩ ps =
      (if pids.length = 1 ∧ cd.maxOccur = .num 1 then
        setProp ps cd.prop (.emRef (pids.headD 0))
      else if pids.length > 0 then setProp ps cd.prop (.list pids)
      else ps) := rfl

lemma applyChildEntries_roundtrip (mdName : Option String) (env : TypeEnv) (dps : Props) :
    ∀ (cds : List ChildDef) (pidss : List (List Nat)) (ps : Props),
      ((cds.map ChildDef.prop).Nodup) →
      List.Forall₂ (fun cd pids =>
        (getProp dps cd.prop = .undef ∧ pids = [] ∧ cd.minOccur = 0) ∨
        (∃ ci, getProp dps cd.prop = .emRef ci ∧ pids.length = 1 ∧
          cd.maxOccur = .num 1 ∧ cd.minOccur ≤ 1) ∨
        (∃ ids, getProp dps cd.prop = .list ids ∧ pids.length = ids.length ∧
          cd.maxOccur ≠ .num 1 ∧ maxAllows cd.maxOccur ids.length = true ∧
          cd.minOccur ≤ ids.length ∧ ids ≠ [])) cds pidss →
      ∃ ps',
        applyChildEntries mdName
          (List.zipWith (fun cd pids => (childTag env cd, ⟨cd, pids⟩)) cds pidss) ps =
          .ok ps' ∧
        List.Forall₂ (fun cd pids =>
          (getProp dps cd.prop = .undef → getProp ps' cd.prop = getProp ps cd.prop) ∧
          (∀ ci, getProp dps cd.prop = .emRef ci →
            ∃ pid, pids = [pid] ∧ getProp ps' cd.prop = .emRef pid) ∧
          (∀ ids, getProp dps cd.prop = .list ids →
            getProp ps' cd.prop = .list pids)) cds pidss ∧
        (∀ p, (∀ cd ∈ cds, cd.prop ≠ p) → getProp ps' p = getProp ps p) := by
  intro cds
  induction cds with
  | nil =>
    intro pidss ps _ hfa
    cases hfa
    exact ⟨ps, rfl, List.Forall₂.nil, fun p _ => rfl⟩
  | cons cd crest ih =>
    intro pidss ps hpnd hfa
    rw [List.map_cons] at hpnd
    have hpnd' := List.nodup_cons.mp hpnd
    cases hfa with
    | cons hhead htail =>
      rename_i pids prest
      have hexists : ∃ ps₁, applyChildEntry mdName (childTag env cd) ⟨cd, pids⟩ ps =
          .ok ps₁ ∧
          ((getProp dps cd.prop = .undef → ps₁ = ps) ∧
           (∀ ci, getProp dps cd.prop = .emRef ci →
             ∃ pid, pids = [pid] ∧ ps₁ = setProp ps cd.prop (.emRef pid)) ∧
           (∀ ids, getProp dps cd.prop = .list ids →
             ps₁ = setProp ps cd.prop (.list pids))) := by
        rcases hhead with ⟨hu, hpe, hm0⟩ | ⟨ci, hv, hlen, hmx, hmn⟩ |
          ⟨ids, hv, hlen, hmx, hma, hmn, hne⟩
        · refine ⟨ps, ?_, fun _ => rfl, ?_, ?_⟩
          · subst hpe
            rw [applyChildEntry_eval]
            rw [if_neg (by rw [hm0]; simp)]
            have hassign : assignChildProp ⟨cd, []⟩ ps = ps := by
              rw [assignChildProp_eval]
              rw [if_neg (by simp)]
              rw [if_neg (by simp)]
            cases hmc : cd.maxOccur with
            | num mx =>
              simp only []
              rw [if_neg (by simp), hassign]
            | unlimited =>
              simp only []
              rw [hassign]
          · intro ci hci
            rw [hci] at hu
            cases hu
          · intro ids hids
            rw [hids] at hu
            cases hu
        · obtain ⟨pid, hpe⟩ : ∃ pid, pids = [pid] := by
            cases pids with
            | nil => cases hlen
            | cons a t =>
              cases t with
              | nil => exact ⟨a, rfl⟩
              | cons b t2 => simp at hlen
          refine ⟨setProp ps cd.prop (.emRef pid), ?_, ?_, ?_, ?_⟩
          · subst hpe
            rw [applyChildEntry_eval]
            rw [if_neg (by simp only [List.length_cons, List.length_nil]; omega)]
            rw [hmx]
            simp only []
            rw [if_neg (by simp)]
            rw [show assignChildProp ⟨cd, [pid]⟩ ps =
                setProp ps cd.prop (.emRef pid) from by
              rw [assignChildProp_eval]
              rw [if_pos ⟨by simp, hmx⟩]
              rfl]
          · intro hu
            rw [hu] at hv
            cases hv
          · intro ci2 hci
            exact ⟨pid, hpe, rfl⟩
          · intro ids hids
            rw [hids] at hv
            cases hv
        · refine ⟨setProp ps cd.prop (.list pids), ?_, ?_, ?_, ?_⟩
          · rw [applyChildEntry_eval]
            rw [if_neg (by rw [hlen]; omega)]
            have hassign : assignChildProp ⟨cd, pids⟩ ps =
                setProp ps cd.prop (.list pids) := by
              rw [assignChildProp_eval]
              rw [if_neg (by
                rintro ⟨h1, h2⟩
                rw [h2] at hmx
                exact hmx rfl)]
              rw [if_pos (by
                rw [hlen]
                cases ids with
                | nil => exact absurd rfl hne
                | cons a t => simp)]
            cases hmc : cd.maxOccur with
            | num mx =>
              simp only []
              rw [if_neg (by
                rw [hlen]
                rw [hmc] at hma
                simp only [maxAllows, decide_eq_true_eq] at hma
                omega)]
              rw [hassign]
            | unlimited =>
              simp only []
              rw [hassign]
          · intro hu
            rw [hu] at hv
            cases hv
          · intro ci hci
            rw [hci] at hv
            cases hv
          · intro ids2 hids
            rfl
      obtain ⟨ps₁, hentry, hfacts⟩ := hexists
      have hps1all : ∀ p, cd.prop ≠ p → getProp ps₁ p = getProp ps p := by
        intro p hpp
        rcases hhead with ⟨hu, _, _⟩ | ⟨ci, hv, _, _, _⟩ | ⟨ids, hv, _, _, _, _⟩
        · rw [hfacts.1 hu]
        · obtain ⟨pid, _, hps1⟩ := hfacts.2.1 ci hv
          rw [hps1, getProp_setProp_other ps cd.prop p _ hpp]
        · rw [hfacts.2.2 ids hv, getProp_setProp_other ps cd.prop p _ hpp]
      rw [show List.zipWith (fun c p => (childTag env c, (⟨c, p⟩ : ChildMapEntry)))
          (cd :: crest) (pids :: prest) =
          (childTag env cd, (⟨cd, pids⟩ : ChildMapEntry)) ::
            List.zipWith (fun c p => (childTag env c, (⟨c, p⟩ : ChildMapEntry)))
              crest prest from rfl]
      rw [show applyChildEntries mdName ((childTag env cd, (⟨cd, pids⟩ : ChildMapEntry)) ::
          List.zipWith (fun c p => (childTag env c, (⟨c, p⟩ : ChildMapEntry))) crest prest)
          ps =
          (applyChildEntry mdName (childTag env cd) ⟨cd, pids⟩ ps >>= fun ps₂ =>
            applyChildEntries mdName
              (List.zipWith (fun c p => (childTag env c, (⟨c, p⟩ : ChildMapEntry)))
                crest prest) ps₂) from rfl]
      rw [hentry, except_bind_ok]
      obtain ⟨ps', hloop, hfa2, huntouched⟩ := ih prest ps₁ hpnd'.2 htail
      have hcdprop : ∀ c ∈ crest, c.prop ≠ cd.prop := by
        intro c hc he
        exact hpnd'.1 (he ▸ List.mem_map_of_mem _ hc)
      refine ⟨ps', hloop, List.Forall₂.cons ⟨?_, ?_, ?_⟩ ?_, ?_⟩
      · intro hu
        rw [huntouched cd.prop hcdprop, hfacts.1 hu]
      · intro ci hci
        obtain ⟨pid, hpe, hps1⟩ := hfacts.2.1 ci hci
        refine ⟨pid, hpe, ?_⟩
        rw [huntouched cd.prop hcdprop, hps1, getProp_setProp_self]
      · intro ids hids
        rw [huntouched cd.prop hcdprop, hfacts.2.2 ids hids, getProp_setProp_self]
      · refine forall₂_imp_mem _ _ crest prest hfa2 ?_
        intro c hc pids2 hr
        refine ⟨?_, hr.2.1, hr.2.2⟩
        intro hu
        rw [hr.1 hu]
        exact hps1all c.prop (Ne.symm (hcdprop c hc))
      · intro p hp
        rw [huntouched p (fun c hc => hp c (by simp [hc]))]
        exact hps1all p (hp cd (by simp))

/-- One-step unfolding of `toXmlStep` with its `let`s inlined (definitional). -/
lemma toXmlStep_eval (env : TypeEnv)
    (recurse : Heap → Nat → NsMap → (Except JsError XNode) × Heap)
    (h : Heap) (id : Nat) (nsDef : NsMap) :
    toXmlStep env recurse h id nsDef =
      (match h.get id with
      | none => (.error (.typeError "Cannot read properties of undefined"), h)
      | some d =>
        if !(ownLevel env d.typeId).md.defined then
          (.error (.error (missingTagDecoratorMsg (ownLevel env d.typeId).clsName)), h)
        else if d.isSerializing then
          (.error (.error (circularRefMsg (ownLevel env d.typeId).clsName)), h)
        else
          ((toXmlBody env recurse (ownLevel env d.typeId).md (ownLevel env d.typeId).clsName
              d (h.set id { d with isSerializing := true }) nsDef).1,
            (toXmlBody env recurse (ownLevel env d.typeId).md (ownLevel env d.typeId).clsName
              d (h.set id { d with isSerializing := true }) nsDef).2.setFlag id false)) := rfl

/-- One-step unfolding of `toXmlBody` with its `let`s inlined (definitional). -/
lemma toXmlBody_eval (env : TypeEnv)
    (recurse : Heap → Nat → NsMap → (Except JsError XNode) × Heap)
    (md : XMLMetadata) (clsName : String) (d : InstData) (h₁ : Heap) (nsDef₀ : NsMap) :
    toXmlBody env recurse md clsName d h₁ nsDef₀ =
      (match (if md.rawOutput then d.rawDom else none) with
      | some raw => (.ok raw, h₁)
      | none =>
        match serializeAttrs clsName (getAttrList (env.chainOf d.typeId)) d.props
            (createElem md (resolveNs nsDef₀ md d.nsURI).1) with
        | .error e => (.error e, h₁)
        | .ok elem₁ =>
          match serializeChildren clsName recurse (getChildList (env.chainOf d.typeId))
              d.props h₁ (resolveNs nsDef₀ md d.nsURI).2 elem₁ with
          | (.error e, h₂) => (.error e, h₂)
          | (.ok elem₂, h₂) =>
            match serializeText clsName (getTextValueDef (env.chainOf d.typeId))
                d.props elem₂ with
            | .error e => (.error e, h₂)
            | .ok elem₃ => (.ok elem₃, h₂)) := rfl

/-- One-step unfolding of `parseStep` with its `let`s inlined (definitional). -/
lemma parseStep_eval (env : TypeEnv)
    (recurse : Nat → XNode → Heap → Except JsError (Nat × Heap))
    (curType : Nat) (node : XNode) (h : Heap) :
    parseStep env recurse curType node h =
      (match (ownLevel env curType).md.tag with
      | none => .error (.error "Tag must be defined on every node")
      | some _ =>
        parseAttrLoop (ownLevel env curType).md.name node.attrList
            (getAttrMap (env.chainOf curType)) [] >>= fun ares =>
          getChildMap env (env.chainOf curType) >>= fun childMap₀ =>
            parseChildLoop recurse node.kidList childMap₀ h >>= fun cres =>
              applyText (ownLevel env curType).md.name
                  (getTextValueDef (env.chainOf curType)) (jsTrim node.textContent)
                  ares.2 >>= fun ps₁ =>
                applyChildEntries (ownLevel env curType).md.name cres.1 ps₁ >>= fun ps₂ =>
                  checkRequiredAttrs (ownLevel env curType).md.name ares.1 >>= fun _ =>
                    match (ownLevel env curType).md.readyFunc with
                    | some f =>
                      match f ps₂ with
                      | .ok ps₃ => .ok (Heap.alloc cres.2
                          { typeId := curType, props := ps₃, nsURI := node.namespaceURI
                            rawDom := some node, isSerializing := false })
                      | .error e => .error (.customValidation e)
                    | none => .ok (Heap.alloc cres.2
                        { typeId := curType, props := ps₂, nsURI := node.namespaceURI
                          rawDom := some node, isSerializing := false })) := rfl

/-- Namespace resolution is trivial for a schema without namespace machinery,
an instance without an override and an empty caller map. -/
lemma resolveNs_plain (md : XMLMetadata) (h2 : md.nsURI = none) :
    resolveNs [] md none = (none, []) := by
  rw [show resolveNs [] md none = (md.nsURI, []) from rfl, h2]

/-- A successful pass through every stage of `parseStep`, assembled. -/
lemma parseStep_ok (env : TypeEnv)
    (recurse : Nat → XNode → Heap → Except JsError (Nat × Heap))
    (curType : Nat) (nm : String) (u : Option String) (as : List XAttr)
    (ks : List XNode) (h : Heap) (tg : String) (amap' : AttrMap)
    (ps₀ ps₁ ps₂ : Props) (cm₀ cm₁ : ChildMap) (h₁ : Heap)
    (htag : (ownLevel env curType).md.tag = some tg)
    (hready : (ownLevel env curType).md.readyFunc = none)
    (hA : parseAttrLoop (ownLevel env curType).md.name as
      (getAttrMap (env.chainOf curType)) [] = .ok (amap', ps₀))
    (hCM : getChildMap env (env.chainOf curType) = .ok cm₀)
    (hCL : parseChildLoop recurse ks cm₀ h = .ok (cm₁, h₁))
    (hT : applyText (ownLevel env curType).md.name
      (getTextValueDef (env.chainOf curType))
      (jsTrim (XNode.el nm u as ks).textContent) ps₀ = .ok ps₁)
    (hE : applyChildEntries (ownLevel env curType).md.name cm₁ ps₁ = .ok ps₂)
    (hR : checkRequiredAttrs (ownLevel env curType).md.name amap' = .ok ()) :
    parseStep env recurse curType (.el nm u as ks) h =
      .ok (Heap.alloc h₁
        { typeId := curType, props := ps₂, nsURI := u,
          rawDom := some (.el nm u as ks), isSerializing := false }) := by
  rw [parseStep_eval, htag]
  rw [show (XNode.el nm u as ks).attrList = as from rfl]
  rw [hA, except_bind_ok]
  simp only []
  rw [hCM, except_bind_ok]
  rw [show (XNode.el nm u as ks).kidList = ks from rfl]
  rw [hCL, except_bind_ok]
  simp only []
  rw [hT, except_bind_ok]
  rw [hE, except_bind_ok]
  rw [hR, except_bind_ok]
  rw [hready]
  rfl

/-- A nil property value is precisely `undefined`. -/
lemma isNil_eq_undef (v : PropValue) (h : v.isNil = true) : v = .undef := by
  cases v with
  | undef => rfl
  | str s => simp [PropValue.isNil] at h
  | boolean b => simp [PropValue.isNil] at h
  | num n => simp [PropValue.isNil] at h
  | emRef i => simp [PropValue.isNil] at h
  | list l => simp [PropValue.isNil] at h

/-- Looking an attribute's resolved name up in the single-level attribute map
finds its own entry. -/
lemma find?_attr_map (md : XMLMetadata) :
    ∀ (ads : List AttrDef), ((ads.map (resolveAttrName md)).Nodup) →
      ∀ ad₀ ∈ ads,
        List.find? (fun pr => pr.1 == resolveAttrName md ad₀)
          (ads.map (fun ad =>
            (resolveAttrName md ad,
              (⟨ad, resolveAttrName md ad, false⟩ : AttrMapEntry)))) =
        some (resolveAttrName md ad₀,
          (⟨ad₀, resolveAttrName md ad₀, false⟩ : AttrMapEntry)) := by
  intro ads
  induction ads with
  | nil => intro _ ad₀ hmem; cases hmem
  | cons a rest ih =>
    intro hnd ad₀ hmem
    rw [List.map_cons] at hnd
    have hnd' := List.nodup_cons.mp hnd
    rw [List.map_cons]
    rcases List.mem_cons.mp hmem with he | hr
    · subst he
      rw [show List.find? (fun pr => pr.1 == resolveAttrName md ad₀)
          ((resolveAttrName md ad₀,
            (⟨ad₀, resolveAttrName md ad₀, false⟩ : AttrMapEntry)) ::
            rest.map (fun ad =>
              (resolveAttrName md ad, ⟨ad, resolveAttrName md ad, false⟩))) =
          some (resolveAttrName md ad₀, ⟨ad₀, resolveAttrName md ad₀, false⟩) from by
        simp [List.find?]]
    · have hb : (resolveAttrName md a == resolveAttrName md ad₀) = false := by
        simp only [beq_eq_false_iff_ne, ne_eq]
        intro he
        exact hnd'.1 (he ▸ List.mem_map_of_mem _ hr)
      rw [show List.find? (fun pr => pr.1 == resolveAttrName md ad₀)
          ((resolveAttrName md a,
            (⟨a, resolveAttrName md a, false⟩ : AttrMapEntry)) ::
            rest.map (fun ad =>
              (resolveAttrName md ad, ⟨ad, resolveAttrName md ad, false⟩))) =
          List.find? (fun pr => pr.1 == resolveAttrName md ad₀)
            (rest.map (fun ad =>
              (resolveAttrName md ad, ⟨ad, resolveAttrName md ad, false⟩))) from by
        simp [List.find?, hb]]
      exact ih hnd'.2 ad₀ hr

/-- Pointwise conjunction of two pairwise relations. -/
lemma forall₂_and_intro {α β : Type} (P Q : α → β → Prop) :
    ∀ (l₁ : List α) (l₂ : List β), List.Forall₂ P l₁ l₂ → List.Forall₂ Q l₁ l₂ →
      List.Forall₂ (fun a b => P a b ∧ Q a b) l₁ l₂ := by
  intro l₁
  induction l₁ with
  | nil => intro l₂ h1 _; cases h1; exact List.Forall₂.nil
  | cons a rest ih =>
    intro l₂ h1 h2
    cases h1 with
    | cons hab h1' =>
      cases h2 with
      | cons hab' h2' => exact List.Forall₂.cons ⟨hab, hab'⟩ (ih _ h1' h2')

/-- A pairwise relation yields a partner for every left member. -/
lemma forall₂_mem_exists {α β : Type} (R : α → β → Prop) :
    ∀ (l₁ : List α) (l₂ : List β), List.Forall₂ R l₁ l₂ → ∀ a ∈ l₁, ∃ b, R a b := by
  intro l₁
  induction l₁ with
  | nil => intro l₂ _ a ha; cases ha
  | cons x rest ih =>
    intro l₂ hfa a ha
    cases hfa with
    | cons hab htail =>
      rcases List.mem_cons.mp ha with he | hr
      · exact ⟨_, he ▸ hab⟩
      · exact ih _ htail a hr

/-- Zip each left member with its image under `f` while transporting a
pairwise relation. -/
lemma forall₂_zip_map_right {α β γ : Type} (f : α → γ) (R : α → β → Prop)
    (S : α → γ × β → Prop) :
    ∀ (l₁ : List α) (l₂ : List β), List.Forall₂ R l₁ l₂ →
      (∀ a ∈ l₁, ∀ b, R a b → S a (f a, b)) →
      List.Forall₂ S l₁ ((l₁.map f).zip l₂) := by
  intro l₁
  induction l₁ with
  | nil => intro l₂ hfa _; cases hfa; exact List.Forall₂.nil
  | cons a rest ih =>
    intro l₂ hfa hcv
    cases hfa with
    | cons hab htail =>
      rename_i b bs
      rw [List.map_cons]
      rw [show ((f a :: rest.map f).zip (b :: bs)) = (f a, b) :: (rest.map f).zip bs
        from rfl]
      exact List.Forall₂.cons (hcv a (by simp) b hab)
        (ih bs htail (fun x hx b' hb' => hcv x (by simp [hx]) b' hb'))

/-- Unzip a pairwise relation over a self-zip back to the base list. -/
lemma forall₂_unzip_map {α β γ : Type} (f : α → γ) (S : α × γ → β → Prop) :
    ∀ (l₁ : List α) (l₂ : List β),
      List.Forall₂ S (l₁.zip (l₁.map f)) l₂ →
      List.Forall₂ (fun a b => S (a, f a) b) l₁ l₂ := by
  intro l₁
  induction l₁ with
  | nil =>
    intro l₂ hfa
    cases hfa
    exact List.Forall₂.nil
  | cons a rest ih =>
    intro l₂ hfa
    rw [List.map_cons] at hfa
    rw [show ((a :: rest).zip ((f a) :: rest.map f)) = (a, f a) :: rest.zip (rest.map f)
      from rfl] at hfa
    cases hfa with
    | cons hab htail => exact List.Forall₂.cons hab (ih _ htail)

/-- The child-instance ids a child binding's property value holds. -/
def childIds (ps : Props) (cd : ChildDef) : List Nat :=
  match getProp ps cd.prop with
  | .emRef c => [c]
  | .list ids => ids
  | _ => []

/-- The engine of the round trip: under the well-formedness discipline, a
successful serialization of an instance yields an element that, parsed back at
the instance's type, succeeds on any parse heap and produces an agreeing
instance. -/
lemma roundtrip_main (env : TypeEnv) :
    ∀ (fuel : Nat) (h : Heap) (id : Nat) (nd : XNode),
      instWf env h fuel id →
      (toXmlObject env fuel h id []).1 = .ok nd →
      ∃ d, h.get id = some d ∧
        (∃ tg aas aks, (ownLevel env d.typeId).md.tag = some tg ∧
          childLocalName tg = tg ∧ nd = .el tg none aas aks) ∧
        (∀ hp : Heap, ∃ pid hp',
          parseXMLElement env fuel d.typeId nd hp = .ok (pid, hp') ∧
          heapLe hp hp' ∧ instAgree env fuel h hp' id pid) := by
  intro fuel
  induction fuel with
  | zero => intro h id nd hw; exact hw.elim
  | succ fuel ih =>
    intro h id nd hw hok
    obtain ⟨d, hg, hnsd, ⟨hchain, hlwf⟩, hattrs, hkids⟩ := hw
    obtain ⟨hdef, ⟨tg, htag, htagfree⟩, hmdns, hmdnsuri, hraw, hready, htext,
      hgoodall, hnamend, hapropnd, hctags, hctagnd, hcpropnd, hdisj⟩ := hlwf
    rw [show toXmlObject env (fuel + 1) h id [] =
        toXmlStep env (fun hh i nsd => toXmlObject env fuel hh i nsd) h id [] from rfl,
      toXmlStep_eval, hg] at hok
    simp only [] at hok
    rw [show (!(ownLevel env d.typeId).md.defined) = false from by
      rw [hdef]
      rfl] at hok
    simp only [Bool.false_eq_true, if_false] at hok
    cases hser : d.isSerializing with
    | true =>
      rw [hser, if_pos rfl] at hok
      cases hok
    | false =>
      rw [hser] at hok
      simp only [Bool.false_eq_true, if_false] at hok
      rw [toXmlBody_eval, hraw] at hok
      simp only [Bool.false_eq_true, if_false] at hok
      rw [hchain] at hok
      rw [show resolveNs [] (ownLevel env d.typeId).md d.nsURI = (none, []) from by
        rw [hnsd]
        exact resolveNs_plain (ownLevel env d.typeId).md hmdnsuri] at hok
      simp only [] at hok
      rw [show createElem (ownLevel env d.typeId).md none =
          .el (showJs (ownLevel env d.typeId).md.tag) none [] [] from rfl, htag] at hok
      rw [show showJs (some tg) = tg from rfl] at hok
      rw [getAttrList_single (ownLevel env d.typeId) hapropnd] at hok
      have hmd0 : ∀ e ∈ (ownLevel env d.typeId).md.attrs.map
          (fun ad => (⟨ad, (ownLevel env d.typeId).md⟩ : AttrEntry)),
          e.ad.defined = true ∧ e.ad.converter = none ∧ e.ad.ns = none := by
        intro e he
        obtain ⟨ad, had, hde⟩ := List.mem_map.mp he
        obtain ⟨h1, h2, _, h4, _, _⟩ := hgoodall ad had
        rw [← hde]
        exact ⟨h1, h2, h4⟩
      have hnne : (((ownLevel env d.typeId).md.attrs.map
          (fun ad => (⟨ad, (ownLevel env d.typeId).md⟩ : AttrEntry))).map
          (fun e => resolveAttrName e.md e.ad)).Nodup := by
        rw [List.map_map]
        exact hnamend
      rw [serializeAttrs_all (ownLevel env d.typeId).clsName
        ((ownLevel env d.typeId).md.attrs.map
          (fun ad => (⟨ad, (ownLevel env d.typeId).md⟩ : AttrEntry)))
        d.props tg none [] [] hmd0 (fun e _ b hb => absurd hb (List.not_mem_nil b))
        hnne] at hok
      rw [List.nil_append] at hok
      simp only [] at hok
      rw [getChildList_single (ownLevel env d.typeId) hcpropnd] at hok
      cases hch : serializeChildren (ownLevel env d.typeId).clsName
          (fun hh i nsd => toXmlObject env fuel hh i nsd)
          (ownLevel env d.typeId).md.children d.props
          (h.set id { d with isSerializing := true }) []
          (.el tg none (serAttrList ((ownLevel env d.typeId).md.attrs.map
            (fun ad => (⟨ad, (ownLevel env d.typeId).md⟩ : AttrEntry))) d.props) []) with
      | mk r h₂ =>
        rw [hch] at hok
        cases r with
        | error e =>
          simp only [] at hok
          cases hok
        | ok elem₂ =>
          simp only [] at hok
          have htd : getTextValueDef [ownLevel env d.typeId] = none := by
            rw [show getTextValueDef [ownLevel env d.typeId] =
                (match (ownLevel env d.typeId).md.text with
                 | some td => some td
                 | none => getTextValueDef []) from rfl, htext]
            rfl
          rw [htd] at hok
          rw [show serializeText (ownLevel env d.typeId).clsName none d.props elem₂ =
              .ok elem₂ from rfl] at hok
          simp only [] at hok
          simp only [Except.ok.injEq] at hok
          have hpres : ∀ hh cid nsdd,
              ((fun hh2 i nsd => toXmlObject env fuel hh2 i nsd) hh cid nsdd).2 = hh :=
            fun hh cid nsdd => toXmlObject_heap env fuel hh cid nsdd
          obtain ⟨batches, hh2eq, hnd2, hfaB⟩ := serializeChildren_all
            (ownLevel env d.typeId).clsName
            (fun hh i nsd => toXmlObject env fuel hh i nsd) hpres
            (ownLevel env d.typeId).md.children d.props
            (h.set id { d with isSerializing := true }) [] tg none
            (serAttrList ((ownLevel env d.typeId).md.attrs.map
              (fun ad => (⟨ad, (ownLevel env d.typeId).md⟩ : AttrEntry))) d.props) []
            elem₂ h₂ hch
          rw [List.nil_append] at hnd2
          rw [← hok]
          refine ⟨d, hg, ⟨tg,
            serAttrList ((ownLevel env d.typeId).md.attrs.map
              (fun ad => (⟨ad, (ownLevel env d.typeId).md⟩ : AttrEntry))) d.props,
            batches.flatten, htag, htagfree, hnd2⟩, ?_⟩
          rw [hnd2]
          obtain ⟨amap', ps₀', hloopA, hP1, hP2, hM⟩ := parseAttrLoop_roundtrip
            (ownLevel env d.typeId).md.name (ownLevel env d.typeId).md d.props
            ((ownLevel env d.typeId).md.attrs.map
              (fun ad => (⟨ad, (ownLevel env d.typeId).md⟩ : AttrEntry)))
            ((ownLevel env d.typeId).md.attrs.map (fun ad =>
              (resolveAttrName (ownLevel env d.typeId).md ad,
                (⟨ad, resolveAttrName (ownLevel env d.typeId).md ad, false⟩ : AttrMapEntry))))
            []
            (by
              intro e he
              obtain ⟨ad, had, hde⟩ := List.mem_map.mp he
              rw [← hde])
            (by
              intro e he
              obtain ⟨ad, had, hde⟩ := List.mem_map.mp he
              rw [← hde]
              exact hgoodall ad had)
            (by
              intro e he
              obtain ⟨ad, had, hde⟩ := List.mem_map.mp he
              rw [← hde]
              exact hattrs ad had)
            (by
              rw [List.map_map]
              exact hnamend)
            (by
              rw [List.map_map]
              exact hapropnd)
            (by
              intro e he
              obtain ⟨ad, had, hde⟩ := List.mem_map.mp he
              rw [← hde]
              exact find?_attr_map (ownLevel env d.typeId).md
                (ownLevel env d.typeId).md.attrs hnamend ad had)
            (by
              rw [List.map_map]
              exact hnamend)
          have hctagnd2 : ((ownLevel env d.typeId).md.children.map (childTag env)).Nodup :=
            childTag_nodup env (ownLevel env d.typeId).md.children hctags hctagnd
          have hCM : getChildMap env (env.chainOf d.typeId) =
              .ok ((ownLevel env d.typeId).md.children.map
                (fun cd => (childTag env cd, ⟨cd, []⟩))) := by
            rw [hchain]
            exact getChildMap_single env (ownLevel env d.typeId) hctags hctagnd2
          have hsame : sameData h (h.set id { d with isSerializing := true }) :=
            sameData_set_flag h id d true hg
          have hone : ∀ (cd : ChildDef) (cid : Nat) (nodec : XNode),
              (∃ dc, h.get cid = some dc ∧ dc.typeId = cd.clazz) →
              instWf env h fuel cid →
              toXmlObject env fuel (h.set id { d with isSerializing := true }) cid [] =
                (.ok nodec, h.set id { d with isSerializing := true }) →
              (∃ anm aas aks, nodec = .el anm none aas aks ∧
                childLocalName anm = childTag env cd) ∧
              (∀ hq : Heap, ∃ pid hq',
                parseXMLElement env fuel cd.clazz nodec hq = .ok (pid, hq') ∧
                heapLe hq hq' ∧ instAgree env fuel h hq' cid pid) := by
            rintro cd cid nodec ⟨dc, hgc, htc⟩ hwc hrec
            have hw₁ := instWf_sameData env h _ hsame fuel cid hwc
            have hok₁ : (toXmlObject env fuel
                (h.set id { d with isSerializing := true }) cid []).1 = .ok nodec := by
              rw [hrec]
            obtain ⟨d₁, hg₁, ⟨tg₁, aas₁, aks₁, htag₁, hfree₁, hnode₁⟩, hparse₁⟩ :=
              ih (h.set id { d with isSerializing := true }) cid nodec hw₁ hok₁
            have htid : d₁.typeId = cd.clazz := by
              have hsc := hsame cid
              rw [hgc, hg₁] at hsc
              simp only [Option.map_some', Option.some.injEq, Prod.mk.injEq] at hsc
              rw [← hsc.1]
              exact htc
            have hct : childTag env cd = tg₁ := by
              rw [childTag, ← htid, htag₁]
              rfl
            refine ⟨⟨tg₁, aas₁, aks₁, hnode₁, ?_⟩, ?_⟩
            · rw [hfree₁]
              exact hct.symm
            · intro hq
              obtain ⟨pid, hq', hps, hle, hag⟩ := hparse₁ hq
              rw [htid] at hps
              exact ⟨pid, hq', hps, hle,
                instAgree_sameData_left env h _ hsame fuel hq' cid pid hag⟩
          have hfaZip : List.Forall₂ (fun cd pr =>
              List.Forall₂ (fun cid nodec =>
                (∃ anm aas aks, nodec = .el anm none aas aks ∧
                  childLocalName anm = childTag env cd) ∧
                (∀ hq : Heap, ∃ pid hq',
                  parseXMLElement env fuel cd.clazz nodec hq = .ok (pid, hq') ∧
                  heapLe hq hq' ∧ instAgree env fuel h hq' cid pid)) pr.1 pr.2)
              (ownLevel env d.typeId).md.children
              (((ownLevel env d.typeId).md.children.map (childIds d.props)).zip batches) := by
            refine forall₂_zip_map_right (childIds d.props) _ _
              (ownLevel env d.typeId).md.children batches hfaB ?_
            intro cd hcd batch hbk
            rcases hbk with ⟨hu, hbe⟩ | ⟨ci, nodec, hv, hbe, hrec⟩ | ⟨ids, hv, hfa⟩
            · subst hbe
              rw [show childIds d.props cd = [] from by rw [childIds, hu]]
              exact List.Forall₂.nil
            · subst hbe
              rw [show childIds d.props cd = [ci] from by rw [childIds, hv]]
              rcases hkids cd hcd with ⟨hu', _⟩ | ⟨ci', hv', hmx', hmn', hex', hwc'⟩ |
                ⟨ids', hv', _, _, _, _, _⟩
              · rw [hu'] at hv
                cases hv
              · rw [hv'] at hv
                simp only [PropValue.emRef.injEq] at hv
                subst hv
                exact List.Forall₂.cons (hone cd ci' nodec hex' hwc' hrec) List.Forall₂.nil
              · rw [hv'] at hv
                cases hv
            · rw [show childIds d.props cd = ids from by rw [childIds, hv]]
              rcases hkids cd hcd with ⟨hu', _⟩ | ⟨ci', hv', _, _, _, _⟩ |
                ⟨ids', hv', hmx', hma', hmn', hne', hall'⟩
              · rw [hu'] at hv
                cases hv
              · rw [hv'] at hv
                cases hv
              · rw [hv'] at hv
                simp only [PropValue.list.injEq] at hv
                subst hv
                refine forall₂_imp_mem _ _ ids' batch hfa ?_
                intro ci hci nodec hrec
                obtain ⟨hexc, hwfc⟩ := hall' ci hci
                exact hone cd ci nodec hexc hwfc hrec
          intro hp
          obtain ⟨pidss, hp', hloopC, hle, hlenP, hfaA⟩ := parseChildLoop_all
            (parseXMLElement env fuel) env
            (fun ci pi hx => instAgree env fuel h hx ci pi)
            (fun c p hp1 hp2 ha hl => instAgree_mono env fuel h hp1 hp2 c p hl ha)
            (ownLevel env d.typeId).md.children
            ((ownLevel env d.typeId).md.children.map (childIds d.props)) batches
            hfaZip (by rw [List.length_map]) (List.Forall₂.length_eq hfaB).symm
            hctagnd2 [] hp (fun c hc => rfl)
          rw [List.nil_append, List.nil_append] at hloopC
          have hfaA' : List.Forall₂ (fun cd pids =>
              List.Forall₂ (fun cid pid => instAgree env fuel h hp' cid pid)
                (childIds d.props cd) pids)
              (ownLevel env d.typeId).md.children pidss :=
            forall₂_unzip_map (childIds d.props) _ (ownLevel env d.typeId).md.children
              pidss hfaA
          have hshapes : List.Forall₂ (fun cd pids =>
              (getProp d.props cd.prop = .undef ∧ pids = [] ∧ cd.minOccur = 0) ∨
              (∃ ci, getProp d.props cd.prop = .emRef ci ∧ pids.length = 1 ∧
                cd.maxOccur = .num 1 ∧ cd.minOccur ≤ 1) ∨
              (∃ ids, getProp d.props cd.prop = .list ids ∧ pids.length = ids.length ∧
                cd.maxOccur ≠ .num 1 ∧ maxAllows cd.maxOccur ids.length = true ∧
                cd.minOccur ≤ ids.length ∧ ids ≠ []))
              (ownLevel env d.typeId).md.children pidss := by
            refine forall₂_imp_mem _ _ _ _ hfaA' ?_
            intro cd hcd pids hfa
            rcases hkids cd hcd with ⟨hu', hm0'⟩ | ⟨ci', hv', hmx', hmn', _, _⟩ |
              ⟨ids', hv', hmx', hma', hmn', hne', _⟩
            · refine Or.inl ⟨hu', ?_, hm0'⟩
              rw [show childIds d.props cd = [] from by rw [childIds, hu']] at hfa
              cases hfa
              rfl
            · refine Or.inr (Or.inl ⟨ci', hv', ?_, hmx', hmn'⟩)
              rw [show childIds d.props cd = [ci'] from by rw [childIds, hv']] at hfa
              cases hfa with
              | cons hx htl =>
                cases htl
                rfl
            · refine Or.inr (Or.inr ⟨ids', hv', ?_, hmx', hma', hmn', hne'⟩)
              rw [show childIds d.props cd = ids' from by rw [childIds, hv']] at hfa
              exact (List.Forall₂.length_eq hfa).symm
          obtain ⟨ps₂, hE, hfacts, huntouched⟩ := applyChildEntries_roundtrip
            (ownLevel env d.typeId).md.name env d.props
            (ownLevel env d.typeId).md.children pidss ps₀' hcpropnd hshapes
          have hR : checkRequiredAttrs (ownLevel env d.typeId).md.name amap' = .ok () := by
            refine checkRequiredAttrs_all_ok (ownLevel env d.typeId).md.name amap' ?_
            intro pr hpr
            rcases hM pr hpr with hex | ⟨hex, hmem, hnil⟩
            · exact Or.inl hex
            · obtain ⟨ad, had, hpre⟩ := List.mem_map.mp hmem
              have hpr1 : resolveAttrName (ownLevel env d.typeId).md ad = pr.1 :=
                congrArg Prod.fst hpre
              have hniladv : (getProp d.props ad.prop).isNil = true :=
                hnil (⟨ad, (ownLevel env d.typeId).md⟩ : AttrEntry)
                  (List.mem_map_of_mem _ had) hpr1
              have hundef : getProp d.props ad.prop = .undef :=
                isNil_eq_undef _ hniladv
              have hreqf : ad.required = false := by
                have hvok := hattrs ad had
                rw [hundef] at hvok
                exact hvok
              refine Or.inr ?_
              rw [← hpre]
              exact hreqf
          have hT : applyText (ownLevel env d.typeId).md.name
              (getTextValueDef (env.chainOf d.typeId))
              (jsTrim (XNode.el tg none (serAttrList ((ownLevel env d.typeId).md.attrs.map
                (fun ad => (⟨ad, (ownLevel env d.typeId).md⟩ : AttrEntry))) d.props)
                batches.flatten).textContent) ps₀' = .ok ps₀' := by
            rw [hchain, htd]
            rfl
          have hA : parseAttrLoop (ownLevel env d.typeId).md.name
              (serAttrList ((ownLevel env d.typeId).md.attrs.map
                (fun ad => (⟨ad, (ownLevel env d.typeId).md⟩ : AttrEntry))) d.props)
              (getAttrMap (env.chainOf d.typeId)) [] = .ok (amap', ps₀') := by
            rw [hchain, getAttrMap_single (ownLevel env d.typeId) hnamend]
            exact hloopA
          obtain ⟨pidA, hpA, hallocEq⟩ :
              ∃ pidA hpA, Heap.alloc hp'
                { typeId := d.typeId, props := ps₂, nsURI := none,
                  rawDom := some (XNode.el tg none
                    (serAttrList ((ownLevel env d.typeId).md.attrs.map
                      (fun ad => (⟨ad, (ownLevel env d.typeId).md⟩ : AttrEntry))) d.props)
                    batches.flatten),
                  isSerializing := false } = (pidA, hpA) := ⟨_, _, rfl⟩
          have hga : hpA.get pidA = some
              { typeId := d.typeId, props := ps₂, nsURI := none,
                rawDom := some (XNode.el tg none
                  (serAttrList ((ownLevel env d.typeId).md.attrs.map
                    (fun ad => (⟨ad, (ownLevel env d.typeId).md⟩ : AttrEntry))) d.props)
                  batches.flatten),
                isSerializing := false } := by
            have := alloc_get_self hp'
              { typeId := d.typeId, props := ps₂, nsURI := none,
                rawDom := some (XNode.el tg none
                  (serAttrList ((ownLevel env d.typeId).md.attrs.map
                    (fun ad => (⟨ad, (ownLevel env d.typeId).md⟩ : AttrEntry))) d.props)
                  batches.flatten),
                isSerializing := false }
            rw [hallocEq] at this
            exact this
          have hla : heapLe hp' hpA := by
            have := heapLe_alloc hp'
              { typeId := d.typeId, props := ps₂, nsURI := none,
                rawDom := some (XNode.el tg none
                  (serAttrList ((ownLevel env d.typeId).md.attrs.map
                    (fun ad => (⟨ad, (ownLevel env d.typeId).md⟩ : AttrEntry))) d.props)
                  batches.flatten),
                isSerializing := false }
            rw [hallocEq] at this
            exact this
          refine ⟨pidA, hpA, ?_, heapLe_trans hp hp' hpA hle hla, ?_⟩
          · rw [show parseXMLElement env (fuel + 1) d.typeId
                (XNode.el tg none (serAttrList ((ownLevel env d.typeId).md.attrs.map
                  (fun ad => (⟨ad, (ownLevel env d.typeId).md⟩ : AttrEntry))) d.props)
                  batches.flatten) hp =
                parseStep env (parseXMLElement env fuel) d.typeId
                  (XNode.el tg none (serAttrList ((ownLevel env d.typeId).md.attrs.map
                    (fun ad => (⟨ad, (ownLevel env d.typeId).md⟩ : AttrEntry))) d.props)
                    batches.flatten) hp from rfl]
            rw [parseStep_ok env (parseXMLElement env fuel) d.typeId tg none
              (serAttrList ((ownLevel env d.typeId).md.attrs.map
                (fun ad => (⟨ad, (ownLevel env d.typeId).md⟩ : AttrEntry))) d.props)
              batches.flatten hp tg amap' ps₀' ps₀' ps₂
              ((ownLevel env d.typeId).md.children.map
                (fun cd => (childTag env cd, ⟨cd, []⟩)))
              (List.zipWith (fun cd pids => (childTag env cd, ⟨cd, pids⟩))
                (ownLevel env d.typeId).md.children pidss) hp'
              htag hready hA hCM hloopC hT hE hR]
            rw [hallocEq]
          · refine ⟨d, _, hg, hga, rfl, ?_, ?_⟩
            · intro ad had
              show getProp ps₂ ad.prop = getProp d.props ad.prop
              rw [huntouched ad.prop (fun cd hcd => hdisj cd hcd ad had)]
              by_cases hnilb : (getProp d.props ad.prop).isNil = true
              · have hz := isNil_eq_undef _ hnilb
                have hcond : ∀ e ∈ (ownLevel env d.typeId).md.attrs.map
                    (fun a => (⟨a, (ownLevel env d.typeId).md⟩ : AttrEntry)),
                    (getProp d.props e.ad.prop).isNil = true ∨ e.ad.prop ≠ ad.prop := by
                  intro e he
                  by_cases hpe : e.ad.prop = ad.prop
                  · left
                    rw [hpe]
                    exact hnilb
                  · right
                    exact hpe
                rw [hP2 ad.prop hcond, hz]
                rfl
              · have hb : (getProp d.props ad.prop).isNil = false := by
                  simpa using hnilb
                exact hP1 (⟨ad, (ownLevel env d.typeId).md⟩ : AttrEntry)
                  (List.mem_map_of_mem _ had) hb
            · intro cd hcd
              have hcomb := forall₂_and_intro _ _ (ownLevel env d.typeId).md.children pidss
                hfacts hfaA'
              obtain ⟨pids, ⟨hf1, hf2, hf3⟩, hfa⟩ :=
                forall₂_mem_exists _ (ownLevel env d.typeId).md.children pidss hcomb cd hcd
              rcases hkids cd hcd with ⟨hu', hm0'⟩ | ⟨ci', hv', _, _, _, _⟩ |
                ⟨ids', hv', _, _, _, _, _⟩
              · refine Or.inl ⟨hu', ?_⟩
                show getProp ps₂ cd.prop = .undef
                rw [hf1 hu']
                have hcond : ∀ e ∈ (ownLevel env d.typeId).md.attrs.map
                    (fun a => (⟨a, (ownLevel env d.typeId).md⟩ : AttrEntry)),
                    (getProp d.props e.ad.prop).isNil = true ∨ e.ad.prop ≠ cd.prop := by
                  intro e he
                  obtain ⟨ad', had', hde⟩ := List.mem_map.mp he
                  right
                  rw [← hde]
                  exact fun hx => hdisj cd hcd ad' had' hx.symm
                rw [hP2 cd.prop hcond]
                rfl
              · obtain ⟨pid, hpe, hset⟩ := hf2 ci' hv'
                refine Or.inr (Or.inl ⟨ci', pid, hv', hset, ?_⟩)
                subst hpe
                rw [show childIds d.props cd = [ci'] from by rw [childIds, hv']] at hfa
                cases hfa with
                | cons hx htl =>
                  exact instAgree_mono env fuel h hp' hpA ci' pid hla hx
              · refine Or.inr (Or.inr ⟨ids', pids, hv', hf3 ids' hv', ?_⟩)
                rw [show childIds d.props cd = ids' from by rw [childIds, hv']] at hfa
                exact List.Forall₂.imp
                  (fun a b hab => instAgree_mono env fuel h hp' hpA a b hla hab) hfa

/-- **C1** (corrected round-trip law).  For an instance built purely from
registered schemas — no raw passthrough, no converters, no validators, no
namespace machinery, single-level prototype chains, attribute bindings of
string/boolean/number/enum kind whose stored values fit their declared
kinds (in particular no number-valued property under an enum kind, where
the parser's strict `===` membership test rejects the stringified number),
numbers stored in normalized form, and cardinality-consistent child
values — whenever rendering succeeds, deserializing the rendered document
with the instance's type succeeds on any parse heap and reproduces the
instance's bound property values exactly: attribute properties are equal
and child properties recursively agree. -/
theorem c1_round_trip (env : TypeEnv) (fuel : Nat) (h : Heap) (id : Nat) (nd : XNode)
    (hwf : instWf env h fuel id)
    (hrender : (toXml env fuel h id []).1 = .ok nd) :
    ∃ d, h.get id = some d ∧
      ∀ hp : Heap, ∃ pid hp',
        parseXML env fuel d.typeId nd hp = .ok (pid, hp') ∧
        heapLe hp hp' ∧ instAgree env fuel h hp' id pid := by
  obtain ⟨d, hg, _, hparse⟩ := roundtrip_main env fuel h id nd hwf hrender
  exact ⟨d, hg, hparse⟩

/-- Round-trip witness schema, attribute binding: attribute "a" (string,
required) on property "pa". -/
def c1WAttr : AttrDef :=
  { prop := "pa", defined := true, name := some "a", typ := some .string,
    required := true, converter := none, validator := [], ns := none, nsURI := none }

/-- Round-trip witness schema, child binding: a singular child on property
"pc" referencing type 1. -/
def c1WChild : ChildDef :=
  { prop := "pc", clazz := 1, minOccur := 1, maxOccur := .num 1 }

/-- Round-trip witness schema: type 0 ("W", tag W) carries the attribute and
child bindings; type 1 ("C", tag C) is empty. -/
def c1WEnv : TypeEnv :=
  ⟨fun t =>
    if t = 0 then
      [⟨"W", { name := some "W", defined := true, tag := some "W",
               attrs := [c1WAttr], children := [c1WChild] }⟩]
    else
      [⟨"C", { name := some "C", defined := true, tag := some "C" }⟩]⟩

/-- Round-trip witness heap: instance 1 of type "W" holds the string "v" and
a reference to instance 2 of type "C". -/
def c1WHeap : Heap :=
  ⟨[(1, { typeId := 0, props := [("pa", .str "v"), ("pc", .emRef 2)] }),
    (2, { typeId := 1, props := [] })]⟩

/-- The witness instance is round-trippable to depth 2. -/
lemma c1WHeap_wf : instWf c1WEnv c1WHeap 2 1 := by
  refine ⟨_, rfl, rfl, ⟨rfl, ?_⟩, ?_, ?_⟩
  · refine ⟨rfl, ⟨"W", rfl, rfl⟩, rfl, rfl, rfl, rfl, rfl, ?_, ?_, ?_, ?_, ?_, ?_, ?_⟩
    · intro ad had
      rw [show (ownLevel c1WEnv
          ({ typeId := 0,
             props := [("pa", PropValue.str "v"), ("pc", PropValue.emRef 2)] }
            : InstData).typeId).md.attrs = [c1WAttr] from rfl] at had
      have he := List.mem_singleton.mp had
      subst he
      exact ⟨rfl, rfl, rfl, rfl, by decide, by decide⟩
    · decide
    · decide
    · intro cd hcd
      rw [show (ownLevel c1WEnv
          ({ typeId := 0,
             props := [("pa", PropValue.str "v"), ("pc", PropValue.emRef 2)] }
            : InstData).typeId).md.children = [c1WChild] from rfl] at hcd
      have he := List.mem_singleton.mp hcd
      subst he
      rfl
    · decide
    · decide
    · intro cd hcd ad had
      rw [show (ownLevel c1WEnv
          ({ typeId := 0,
             props := [("pa", PropValue.str "v"), ("pc", PropValue.emRef 2)] }
            : InstData).typeId).md.children = [c1WChild] from rfl] at hcd
      rw [show (ownLevel c1WEnv
          ({ typeId := 0,
             props := [("pa", PropValue.str "v"), ("pc", PropValue.emRef 2)] }
            : InstData).typeId).md.attrs = [c1WAttr] from rfl] at had
      have he := List.mem_singleton.mp hcd
      have he' := List.mem_singleton.mp had
      subst he
      subst he'
      decide
  · intro ad had
    rw [show (ownLevel c1WEnv
        ({ typeId := 0,
           props := [("pa", PropValue.str "v"), ("pc", PropValue.emRef 2)] }
          : InstData).typeId).md.attrs = [c1WAttr] from rfl] at had
    have he := List.mem_singleton.mp had
    subst he
    exact Or.inl rfl
  · intro cd hcd
    rw [show (ownLevel c1WEnv
        ({ typeId := 0,
           props := [("pa", PropValue.str "v"), ("pc", PropValue.emRef 2)] }
          : InstData).typeId).md.children = [c1WChild] from rfl] at hcd
    have he := List.mem_singleton.mp hcd
    subst he
    refine Or.inr (Or.inl ⟨2, rfl, rfl, by decide, ⟨_, rfl, rfl⟩, ?_⟩)
    refine ⟨_, rfl, rfl, ⟨rfl, ?_⟩, ?_, ?_⟩
    · refine ⟨rfl, ⟨"C", rfl, rfl⟩, rfl, rfl, rfl, rfl, rfl, ?_, by decide, by decide,
        ?_, by decide, by decide, ?_⟩
      · intro ad had
        exact absurd had (List.not_mem_nil ad)
      · intro cd2 hcd2
        exact absurd hcd2 (List.not_mem_nil cd2)
      · intro cd2 hcd2
        exact absurd hcd2 (List.not_mem_nil cd2)
    · intro ad had
      exact absurd had (List.not_mem_nil ad)
    · intro cd2 hcd2
      exact absurd hcd2 (List.not_mem_nil cd2)

/-- Witness for `c1_round_trip`: at the concrete two-instance schema the
well-formedness side conditions hold, rendering succeeds with the expected
document, and the theorem applied there parses the document back into an
agreeing instance on the empty heap. -/
theorem c1_witness :
    instWf c1WEnv c1WHeap 2 1 ∧
    (toXml c1WEnv 2 c1WHeap 1 []).1 =
      .ok (.el "W" none [⟨"a", none, "v"⟩] [.el "C" none [] []]) ∧
    ∃ pid hp',
      parseXML c1WEnv 2 0 (.el "W" none [⟨"a", none, "v"⟩] [.el "C" none [] []]) ⟨[]⟩ =
        .ok (pid, hp') ∧
      heapLe (⟨[]⟩ : Heap) hp' ∧ instAgree c1WEnv 2 c1WHeap hp' 1 pid := by
  refine ⟨c1WHeap_wf, rfl, ?_⟩
  obtain ⟨d, hg, hall⟩ := c1_round_trip c1WEnv 2 c1WHeap 1
    (.el "W" none [⟨"a", none, "v"⟩] [.el "C" none [] []]) c1WHeap_wf rfl
  obtain ⟨pid, hp', hps, hle, hag⟩ := hall ⟨[]⟩
  have hd : d = ({ typeId := 0,
                   props := [("pa", PropValue.str "v"), ("pc", PropValue.emRef 2)] }
                 : InstData) := by
    have h2 : some d = some ({ typeId := 0,
                               props := [("pa", PropValue.str "v"),
                                         ("pc", PropValue.emRef 2)] } : InstData) := by
      rw [← hg]
      rfl
    exact (Option.some.injEq _ _).mp h2
  rw [hd] at hps
  exact ⟨pid, hp', hps, hle, hag⟩

/-- Counterexample schema for the claim's unrestricted enum clause: tag "E"
with an enum-kind attribute on property "p" whose declared member list holds
the number 1 (a numeric TypeScript enum member). -/
def c1XEnv : TypeEnv :=
  ⟨fun t =>
    [⟨"E", { name := some "E", defined := true, tag := some "E",
             attrs := [{ prop := "p", defined := true, name := some "p",
                         typ := some (.enumTyp [.num (mkFin 1 0)]), required := true,
                         converter := none, validator := [], ns := none,
                         nsURI := none }] }⟩]⟩

/-- Counterexample heap: one instance of "E" holding the number 1 in the
enum-bound property. -/
def c1XHeap : Heap :=
  ⟨[(1, { typeId := 0, props := [("p", .num (mkFin 1 0))] })]⟩

/-- The claim's original unconditional reading fails for enum kinds with
numeric members (TypeScript numeric enums): serializing an instance whose
enum-bound property holds the number 1 succeeds and writes the attribute
string "1", but deserializing the rendered document fails, because the
parser's strict `===` membership test compares the raw attribute string
against the declared members and a numeric member never equals a string. -/
theorem c1_counterexample :
    (toXml c1XEnv 1 c1XHeap 1 []).1 = .ok (.el "E" none [⟨"p", none, "1"⟩] []) ∧
    parseXML c1XEnv 1 0 (.el "E" none [⟨"p", none, "1"⟩] []) ⟨[]⟩ =
      .error (.error (unknownEnumMsg (some "E") "p" "1")) := ⟨rfl, rfl⟩

/-- Looking a tag up in one level's contribution to the child map finds the
previously recorded entry for that tag, else the level's first declaration
whose referenced class's own tag is that tag. -/
lemma childMapLevel_lookup (env : TypeEnv) (tag : String) :
    ∀ (cds : List ChildDef) (map m : ChildMap),
      childMapLevel env cds map = .ok m →
      List.find? (fun pr => pr.1 == tag) m =
        (List.find? (fun pr => pr.1 == tag) map).or
          (((cds.filter (fun cd => (ownLevel env cd.clazz).md.tag == some tag)).head?).map
            (fun cd => (tag, ChildMapEntry.mk cd []))) := by
  intro cds
  induction cds with
  | nil =>
    intro map m hok
    simp only [childMapLevel, Except.ok.injEq] at hok
    subst hok
    cases List.find? (fun pr => pr.1 == tag) map <;> rfl
  | cons cd rest ih =>
    intro map m hok
    rw [childMapLevel] at hok
    cases htg : (ownLevel env cd.clazz).md.tag with
    | none =>
      rw [htg] at hok
      cases hok
    | some t =>
      rw [htg] at hok
      simp only [] at hok
      rw [List.filter_cons]
      by_cases hsome : (List.find? (fun pr => pr.1 == t) map).isSome = true
      · rw [if_pos hsome] at hok
        by_cases htt : t = tag
        · subst htt
          obtain ⟨w, hw⟩ := Option.isSome_iff_exists.mp hsome
          rw [ih map m hok, hw]
          rfl
        · have hbp : (((ownLevel env cd.clazz).md.tag == some tag) = true) → False := by
            rw [htg]
            simp only [beq_iff_eq, Option.some.injEq]
            exact htt
          rw [if_neg hbp]
          exact ih map m hok
      · rw [if_neg hsome] at hok
        have hnone : List.find? (fun pr => pr.1 == t) map = none :=
          Option.not_isSome_iff_eq_none.mp hsome
        by_cases htt : t = tag
        · subst htt
          rw [ih _ m hok, List.find?_append, hnone]
          rw [show List.find? (fun pr => pr.1 == t) [(t, ChildMapEntry.mk cd [])] =
              some (t, ChildMapEntry.mk cd []) from by simp [List.find?]]
          rw [if_pos (show ((ownLevel env cd.clazz).md.tag == some t) = true from by
            rw [htg]
            simp)]
          rfl
        · rw [ih _ m hok, List.find?_append]
          rw [show List.find? (fun pr => pr.1 == tag) [(t, ChildMapEntry.mk cd [])] =
              none from by
            have hne : (t == tag) = false := by
              simp only [beq_eq_false_iff_ne, ne_eq]
              exact htt
            simp [List.find?, hne]]
          rw [if_neg (show (((ownLevel env cd.clazz).md.tag == some tag) = true) → False from by
            rw [htg]
            simp only [beq_iff_eq, Option.some.injEq]
            exact htt)]
          cases List.find? (fun pr => pr.1 == tag) map <;> rfl

/-- Looking a tag up in the accumulated child map finds the previously
recorded entry for that tag, else the chain's first (subclass-first)
declaration whose referenced class's own tag is that tag. -/
lemma childMapChain_lookup (env : TypeEnv) (tag : String) :
    ∀ (lvls : List TypeLevel) (map m : ChildMap),
      childMapChain env lvls map = .ok m →
      List.find? (fun pr => pr.1 == tag) m =
        (List.find? (fun pr => pr.1 == tag) map).or
          (((childTagDecls env lvls tag).head?).map
            (fun cd => (tag, ChildMapEntry.mk cd []))) := by
  intro lvls
  induction lvls with
  | nil =>
    intro map m hok
    simp only [childMapChain, Except.ok.injEq] at hok
    subst hok
    cases List.find? (fun pr => pr.1 == tag) map <;> rfl
  | cons lvl rest ih =>
    intro map m hok
    rw [show childMapChain env (lvl :: rest) map =
        (childMapLevel env lvl.md.children map >>= fun m₁ =>
          childMapChain env rest m₁) from rfl] at hok
    cases hlv : childMapLevel env lvl.md.children map with
    | error e =>
      rw [hlv, except_bind_error] at hok
      cases hok
    | ok m₁ =>
      rw [hlv, except_bind_ok] at hok
      rw [ih m₁ m hok, childMapLevel_lookup env tag lvl.md.children map m₁ hlv]
      have hdecls : childTagDecls env (lvl :: rest) tag =
          (lvl.md.children.filter
            (fun cd => (ownLevel env cd.clazz).md.tag == some tag)) ++
            childTagDecls env rest tag := by
        simp [childTagDecls, childDecls]
      rw [hdecls, List.head?_append]
      cases List.find? (fun pr => pr.1 == tag) map <;>
        cases (lvl.md.children.filter
          (fun cd => (ownLevel env cd.clazz).md.tag == some tag)).head? <;>
          cases (childTagDecls env rest tag).head? <;>
            simp [Option.or]

/-- Child-override counterexample, subclass binding: the subclass rebinds
property `p` to a child referencing type 2, whose own tag is "Bar". -/
def c2CSonChild : ChildDef :=
  { prop := "p", clazz := 2, minOccur := 0, maxOccur := .num 1 }

/-- Child-override counterexample, ancestor binding: the ancestor binds
property `p` to a child referencing type 1, whose own tag is "Foo". -/
def c2CFatherChild : ChildDef :=
  { prop := "p", clazz := 1, minOccur := 1, maxOccur := .num 1 }

/-- A two-level chain for the child-override counterexample: the subclass
("Son") rebinds property `p` to a child of class "Bar", the ancestor
("Father") binds the same property `p` to a child of class "Foo". -/
def c2CEnv : TypeEnv :=
  ⟨fun t =>
    if t = 0 then
      [⟨"Son", { name := some "Son", defined := true, tag := some "Son",
                 children := [c2CSonChild] }⟩,
       ⟨"Father", { name := some "Father", defined := true,
                    children := [c2CFatherChild] }⟩]
    else if t = 1 then
      [⟨"Foo", { name := some "Foo", defined := true, tag := some "Foo" }⟩]
    else
      [⟨"Bar", { name := some "Bar", defined := true, tag := some "Bar" }⟩]⟩

/-- **C2** (corrected override law).  Serialization resolves bindings per
property: in `getAttrList` and `getChildList` only the first declaration for
each property identifier in subclass-first traversal order survives, so a
subclass rebinding of `p` shadows the ancestor's for both attributes and
children.  Deserialization does not key by property: `getAttrMap` keeps the
first declaration per resolved attribute NAME, and `getChildMap` keeps the
first declaration per referenced class's own TAG, so when the subclass
rebinds `p` under a different resolved name (or to a class with a different
tag) the ancestor's binding for `p` remains in the respective map under its
own key (see the counterexample, where it still assigns `p` on input). -/
theorem c2_override_resolution (env : TypeEnv) (lvls : List TypeLevel)
    (p nm tag : String) :
    ((getAttrList lvls).filter (fun e => e.ad.prop == p)) =
      ((attrDecls lvls).filter (fun e => e.ad.prop == p)).take 1 ∧
    ((getChildList lvls).filter (fun cd => cd.prop == p)) =
      ((childDecls lvls).filter (fun cd => cd.prop == p)).take 1 ∧
    List.find? (fun pr => pr.1 == nm) (getAttrMap lvls) =
      ((attrNameDecls lvls nm).head?).map
        (fun pr => (nm, AttrMapEntry.mk pr.1 nm false)) ∧
    (∀ m : ChildMap, getChildMap env lvls = .ok m →
      List.find? (fun pr => pr.1 == tag) m =
        ((childTagDecls env lvls tag).head?).map
          (fun cd => (tag, ChildMapEntry.mk cd []))) := by
  refine ⟨?_, ?_, ?_, ?_⟩
  · rw [show getAttrList lvls = attrListChain lvls [] from rfl, attrListChain_filter]
    rw [if_neg (List.not_mem_nil p)]
  · rw [show getChildList lvls = childListChain lvls [] from rfl, childListChain_filter]
    rw [if_neg (List.not_mem_nil p)]
  · rw [show getAttrMap lvls = attrMapChain lvls [] from rfl, attrMapChain_lookup]
    rw [show List.find? (fun pr => pr.1 == nm) ([] : AttrMap) = none from rfl]
    cases hh : ((attrNameDecls lvls nm).head?).map
        (fun pr => (nm, AttrMapEntry.mk pr.1 nm false)) with
    | none => rfl
    | some x => rfl
  · intro m hok
    rw [childMapChain_lookup env tag lvls [] m hok]
    cases ((childTagDecls env lvls tag).head?).map
        (fun cd => (tag, ChildMapEntry.mk cd [])) <;> rfl

/-- Witness for `c2_override_resolution`, applied at the attribute chain of
`c2Env` (subclass binds property p under name "a", ancestor under name "b")
and at the child chain of `c2CEnv` (subclass rebinds property p to class
"Bar", ancestor to class "Foo"); the resolved child map of the latter holds
the ancestor's binding under its class's tag "Foo". -/
theorem c2_witness :
    ((getAttrList (c2Env.chainOf 0)).filter (fun e => e.ad.prop == "p")) =
      ((attrDecls (c2Env.chainOf 0)).filter (fun e => e.ad.prop == "p")).take 1 ∧
    ((getChildList (c2CEnv.chainOf 0)).filter (fun cd => cd.prop == "p")) =
      ((childDecls (c2CEnv.chainOf 0)).filter (fun cd => cd.prop == "p")).take 1 ∧
    List.find? (fun pr => pr.1 == "a") (getAttrMap (c2Env.chainOf 0)) =
      ((attrNameDecls (c2Env.chainOf 0) "a").head?).map
        (fun pr => ("a", AttrMapEntry.mk pr.1 "a" false)) ∧
    List.find? (fun pr => pr.1 == "Foo")
        [("Bar", ChildMapEntry.mk c2CSonChild []),
         ("Foo", ChildMapEntry.mk c2CFatherChild [])] =
      some ("Foo", ChildMapEntry.mk c2CFatherChild []) := by
  refine ⟨(c2_override_resolution c2Env (c2Env.chainOf 0) "p" "a" "Foo").1,
    (c2_override_resolution c2CEnv (c2CEnv.chainOf 0) "p" "a" "Foo").2.1,
    (c2_override_resolution c2Env (c2Env.chainOf 0) "p" "a" "Foo").2.2.1, ?_⟩
  rw [(c2_override_resolution c2CEnv (c2CEnv.chainOf 0) "p" "a" "Foo").2.2.2
    [("Bar", ChildMapEntry.mk c2CSonChild []),
     ("Foo", ChildMapEntry.mk c2CFatherChild [])] rfl]
  rfl

/-- The claim's "never the ancestor's" fails for deserialization, for
attributes and children alike.  Attributes: in the `c2Env` chain the subclass
rebinds property p under attribute name "a", yet the resolved attribute map
still holds the ancestor's binding under its name "b", and parsing an input
carrying attribute b assigns p through the ancestor's binding (boolean kind:
p becomes `true`).  Children: in the `c2CEnv` chain the subclass rebinds
property p to a child of class "Bar", yet the resolved child map still holds
the ancestor's binding under its class's tag "Foo", and parsing an input
carrying a Foo child assigns p through the ancestor's binding (p becomes a
reference to the deserialized Foo instance). -/
theorem c2_counterexample :
    (List.find? (fun pr => pr.1 == "b") (getAttrMap (c2Env.chainOf 0))).isSome = true ∧
    parseXML c2Env 1 0 (.el "Son" none [⟨"b", none, "true"⟩] []) ⟨[]⟩ =
      .ok (1, ⟨[(1, { typeId := 0, props := [("p", .boolean true)],
                      nsURI := none,
                      rawDom := some (.el "Son" none [⟨"b", none, "true"⟩] []),
                      isSerializing := false })]⟩) ∧
    getChildMap c2CEnv (c2CEnv.chainOf 0) =
      .ok [("Bar", ChildMapEntry.mk c2CSonChild []),
           ("Foo", ChildMapEntry.mk c2CFatherChild [])] ∧
    parseXML c2CEnv 2 0 (.el "Son" none [] [.el "Foo" none [] []]) ⟨[]⟩ =
      .ok (2, ⟨[(2, { typeId := 0, props := [("p", .emRef 1)],
                      nsURI := none,
                      rawDom := some (.el "Son" none [] [.el "Foo" none [] []]),
                      isSerializing := false }),
                (1, { typeId := 1, props := [],
                      nsURI := none,
                      rawDom := some (.el "Foo" none [] []),
                      isSerializing := false })]⟩) := ⟨rfl, rfl, rfl, rfl⟩

end Decoxml
